import Mathlib

/-! Worker-process dispatch core (`base/workers.c`)

A shallow embedding of the worker pool, the per-worker job table, worker
selection, job submission, result handling and worker registration.

Conventions of the embedding

* C `int` / `time_t` values are `Int`; the `unsigned int idx` of a pool list is a
  `Nat` reduced modulo `2 ^ 32` at its increment.  Signed arithmetic is taken
  exact (the counters stay far from the `int` range).
* A pointer to a worker is `Option Nat`: `none` is `NULL`, `some w` is the
  worker object stored at position `w` of `wproc_state.procs`.
* Jobs live in the slots by value; the job that `get_worker` stores is the job
  as it is when `get_worker` returns (the C slot holds a pointer to it).
* A C string buffer is a `List Char` without its terminator.
* Every function whose C body can read or write outside an object, divide by
  zero or dereference `NULL` returns an `Option`: `none` stands for undefined
  behaviour of the C program, `some r` for a run that is defined.
* Calls into the log, the I/O broker, the sockets and the check-result sink are
  collected as a list of `event`s; the check-result sink is opaque and does not
  touch the worker tables.
* Memory is granted wherever the C code does not test the allocation; where it
  tests a result (`calloc` of the worker, `buf2kvvec`, `kvvec_init`), the result
  is an argument of the embedded function.
-/

namespace Workers

/-! ## Constants of the headers -/

/-- Modelled from the spec: the job types of `workers.h` (declared outside
`workers.c`), numbered in the order the data model lists them. -/
def WPJOB_CHECK : Int := 0
/-- Modelled from the spec: job type NOTIFY of `workers.h`. -/
def WPJOB_NOTIFY : Int := 1
/-- Modelled from the spec: job type OCSP of `workers.h`. -/
def WPJOB_OCSP : Int := 2
/-- Modelled from the spec: job type OCHP of `workers.h`. -/
def WPJOB_OCHP : Int := 3
/-- Modelled from the spec: job type GLOBAL_SVC_EVTHANDLER of `workers.h`. -/
def WPJOB_GLOBAL_SVC_EVTHANDLER : Int := 4
/-- Modelled from the spec: job type SVC_EVTHANDLER of `workers.h`. -/
def WPJOB_SVC_EVTHANDLER : Int := 5
/-- Modelled from the spec: job type GLOBAL_HOST_EVTHANDLER of `workers.h`. -/
def WPJOB_GLOBAL_HOST_EVTHANDLER : Int := 6
/-- Modelled from the spec: job type HOST_EVTHANDLER of `workers.h`. -/
def WPJOB_HOST_EVTHANDLER : Int := 7

/-- Modelled from the spec: the error return of the submission API (`ERROR` of
`nagios.h`, declared outside `workers.c`). -/
def ERROR : Int := -2
/-- Modelled from the spec: the success return of the submission API. -/
def OK : Int := 0
/-- Modelled from the spec: the walker result asking the hash table to drop the
entry (`dkhash.h`, declared outside `workers.c`). -/
def DKHASH_WALK_REMOVE : Int := 1
/-- Modelled from the spec: `ETIME` of `errno.h`, which the end-to-end scenario
gives as 62. -/
def ETIME : Int := 62
/-- Modelled from the spec: the `WPROC_FORCE` flag bit of `workers.h`. -/
def WPROC_FORCE : Nat := 1
/-- Modelled from the spec: `STATE_UNKNOWN` of `nagios.h`. -/
def STATE_UNKNOWN : Int := 3
/-- The `SIGKILL` signal number. -/
def SIGKILL : Int := 9

/-! ## Data model -/

structure timeval where
  tv_sec : Int
  tv_usec : Int
deriving DecidableEq, Repr

structure rusage where
  ru_utime : timeval
  ru_stime : timeval
  ru_minflt : Int
  ru_majflt : Int
  ru_nswap : Int
  ru_inblock : Int
  ru_oublock : Int
  ru_nsignals : Int
deriving DecidableEq, Repr

/-- The fields of `check_result` that this file reads or writes. -/
structure check_result where
  host_name : Option (List Char)
  service_description : Option (List Char)
  start_time : timeval
  finish_time : timeval
  rusage : rusage
  return_code : Int
  output : Option (List Char)
  early_timeout : Int
  exited_ok : Int
  source : Option Nat
deriving DecidableEq, Repr

structure wproc_object_job where
  contact_name : Option (List Char)
  host_name : Option (List Char)
  service_description : Option (List Char)
deriving DecidableEq, Repr

/-- What the `void *arg` of a job points to. -/
inductive job_arg where
  | null
  | cr (c : check_result)
  | oj (o : wproc_object_job)
deriving DecidableEq, Repr

structure worker_job where
  id : Int
  type : Int
  timeout : Int
  command : List Char
  wp : Option Nat
  arg : job_arg
deriving DecidableEq, Repr

structure worker_process where
  source_name : Option (List Char)
  sd : Int
  pid : Int
  max_jobs : Int
  jobs_running : Int
  jobs_started : Int
  job_index : Int
  /-- Capacity of the read cache, `none` once it is destroyed. -/
  ioc : Option Nat
  /-- The job table: `none` is a `NULL` table, a slot `none` is an empty slot. -/
  jobs : Option (List (Option worker_job))
deriving DecidableEq, Repr

structure wproc_list where
  len : Int
  idx : Nat
  wps : Option (List (Option Nat))
deriving DecidableEq, Repr

structure key_value where
  key : List Char
  value : List Char
deriving DecidableEq, Repr

/-- The file-scope state of `workers.c` together with the worker objects. -/
structure wproc_state where
  procs : List worker_process
  workers : wproc_list
  specialized_workers : List (List Char × wproc_list)
  to_remove : Option Nat
deriving DecidableEq, Repr

/-- Calls that leave the module. -/
inductive event where
  | logit (fmt : String) (ints : List Int) (strs : List (List Char))
  | free_check_result (c : check_result)
  | free_arg (a : job_arg)
  | process_check_result (c : check_result)
  | send_kvvec (sd job_id type : Int) (command : List Char) (timeout : Int)
  | iobroker_unregister (sd : Int)
  | iobroker_register (sd : Int) (w : Nat)
  | iobroker_close (sd : Int)
  | iocache_destroy (w : Nat)
  | kill (pid sig : Int)
  | nsock_printf_nul (sd : Int) (msg : String)
  | dropped_job (j : worker_job)
  | set_socket_options (sd size : Int)
  | qh_register_handler (name : String)
deriving DecidableEq, Repr

/-! ## Job table -/

/-- C remainder `a % b` (truncating); undefined for `b = 0`. -/
def c_mod (a b : Int) : Option Int :=
  if b = 0 then none else some (Int.tmod a b)

/-- Read of `wp->jobs[i]`; undefined outside the table. -/
def jobs_at (wp : worker_process) (i : Int) : Option (Option worker_job) :=
  match wp.jobs with
  | none => none
  | some tbl => if 0 ≤ i then tbl[i.toNat]? else none

/-- Write `wp->jobs[i] = v`; undefined outside the table. -/
def jobs_set (wp : worker_process) (i : Int) (v : Option worker_job) :
    Option worker_process :=
  match wp.jobs with
  | none => none
  | some tbl =>
    if 0 ≤ i ∧ i.toNat < tbl.length then
      some { wp with jobs := some (tbl.set i.toNat v) }
    else none

/-- The new job, with its memory taken to be granted: every field zero but
the four that are set. -/
def create_job (type : Int) (arg : job_arg) (timeout : Int) (command : List Char) :
    worker_job :=
  { id := 0, type := type, timeout := timeout, command := command, wp := none, arg := arg }

/-- The `for` loop of `get_job_id`: `n` iterations are left, `i` is the loop
variable. -/
def get_job_id_scan (wp : worker_process) : Nat → Int → Option (Int × worker_process)
  | 0, _ => some (-1, wp)
  | n + 1, i =>
    match c_mod i wp.max_jobs with
    | none => none
    | some k =>
      match jobs_at wp k with
      | none => none
      | some none => some (k, { wp with job_index := k })
      | some (some _) => get_job_id_scan wp n (i + 1)

/-- Returns the slot id (or `-1`) and the worker with its `job_index` moved. -/
def get_job_id (wp : worker_process) : Option (Int × worker_process) :=
  if wp.jobs_running = wp.max_jobs then some (-1, wp)
  else get_job_id_scan wp wp.max_jobs.toNat wp.job_index

def get_job (wp : worker_process) (job_id : Int) : Option (Option worker_job) :=
  match c_mod job_id wp.max_jobs with
  | none => none
  | some k => jobs_at wp k

/-- The payload release of `destroy_job`, by job type. -/
def destroy_job_payload (job : worker_job) : List event :=
  if job.type = WPJOB_CHECK then
    match job.arg with
    | .cr c => [event.free_check_result c, event.free_arg job.arg]
    | _ => [event.free_arg job.arg]
  else if job.type = WPJOB_NOTIFY ∨ job.type = WPJOB_OCSP ∨ job.type = WPJOB_OCHP then
    [event.free_arg job.arg]
  else if job.type = WPJOB_GLOBAL_SVC_EVTHANDLER ∨ job.type = WPJOB_SVC_EVTHANDLER
      ∨ job.type = WPJOB_GLOBAL_HOST_EVTHANDLER ∨ job.type = WPJOB_HOST_EVTHANDLER then
    []
  else [event.logit "Workers: Unknown job type: %d\n" [job.type] []]

def destroy_job (wp : worker_process) (job : Option worker_job) :
    Option (worker_process × List event) :=
  match job with
  | none => some (wp, [])
  | some j =>
    match c_mod j.id wp.max_jobs with
    | none => none
    | some k =>
      match jobs_set wp k none with
      | none => none
      | some wp1 =>
        some ({ wp1 with jobs_running := wp1.jobs_running - 1 }, destroy_job_payload j)

/-! ## Pool registry and worker selection -/

/-- The string terminator. -/
def NUL : Char := Char.ofNat 0

/-- The blank at which a command line is split. -/
def SPACE : Char := Char.ofNat 32

/-- Position of the first `c` in the C string held by a buffer (`strchr`). -/
def strchr : List Char → Char → Option Nat
  | [], _ => none
  | x :: xs, c =>
    if x = c then some 0
    else if x = NUL then none
    else (strchr xs c).map (· + 1)

/-- The C string a buffer holds: its bytes up to the first terminator. -/
def cstr (buf : List Char) : List Char :=
  buf.takeWhile (· ≠ NUL)

/-- Modelled from the spec: `dkhash_get` of the specialized registry (the hash
table of libnagios lies outside `workers.c`), a lookup of the pool
list stored under a command name. -/
def dkhash_get : List (List Char × wproc_list) → List Char → Option wproc_list
  | [], _ => none
  | (k, v) :: rest, key => if k = key then some v else dkhash_get rest key

/-- Write through the pointer that `dkhash_get` returned for `key`. -/
def dkhash_store : List (List Char × wproc_list) → List Char → wproc_list →
    List (List Char × wproc_list)
  | [], _, _ => []
  | (k, x) :: rest, key, v =>
    if k = key then (k, v) :: rest else (k, x) :: dkhash_store rest key v

/-- Modelled from the spec: `dkhash_insert` of the specialized registry, called
only for a key that `dkhash_get` did not find. -/
def dkhash_insert (t : List (List Char × wproc_list)) (key : List Char) (v : wproc_list) :
    List (List Char × wproc_list) :=
  t ++ [(key, v)]

/-- The round-robin step `wp_list->wps[wp_list->idx++ % wp_list->len]`: the
`int len` is converted to `unsigned int` for the remainder. -/
def wproc_list_next (l : wproc_list) : Option (Option Nat × wproc_list) :=
  match l.wps with
  | none => none
  | some arr =>
    if (l.len % 4294967296).toNat = 0 then none
    else
      match arr[l.idx % (l.len % 4294967296).toNat]? with
      | none => none
      | some wp => some (wp, { l with idx := (l.idx + 1) % 4294967296 })

/-- Lines 761 to 768 of `get_worker`: allocate a slot on the selected worker,
store the job there and link the job back to the worker. -/
def get_worker_place (st : wproc_state) (job : worker_job) (wp : Option Nat) :
    Option (wproc_state × worker_job × Option Nat) :=
  match wp with
  | none => none
  | some w =>
    match st.procs[w]? with
    | none => none
    | some proc =>
      match get_job_id proc with
      | none => none
      | some (id, proc1) =>
        match c_mod id proc1.max_jobs with
        | none => none
        | some k =>
          match jobs_set proc1 k (some { job with id := id, wp := some w }) with
          | none => none
          | some proc2 =>
            some ({ st with procs := st.procs.set w proc2 },
                  { job with id := id, wp := some w }, some w)

/-- Returns the state, the job as `get_worker` leaves it, and the worker
(`none` for `NULL`). -/
def get_worker (st : wproc_state) (job : worker_job) :
    Option (wproc_state × worker_job × Option Nat × List event) :=
  let space := strchr job.command SPACE
  let split : List Char :=
    match space with
    | some i => job.command.set i NUL
    | none => job.command
  let restored : List Char :=
    match space with
    | some i => split.set i SPACE
    | none => split
  let cmd_name := cstr split
  match dkhash_get st.specialized_workers cmd_name with
  | some wp_list =>
    match wproc_list_next wp_list with
    | none => none
    | some (wp, l1) =>
      match get_worker_place
          { st with specialized_workers := dkhash_store st.specialized_workers cmd_name l1 }
          { job with command := restored } wp with
      | none => none
      | some (st2, job2, r) =>
        some (st2, job2, r,
          [event.logit "Found specialized worker(s) for '%s'" [] [cmd_name]])
  | none =>
    match st.workers.wps with
    | none => some (st, { job with command := split }, none, [])
    | some _ =>
      match wproc_list_next st.workers with
      | none => none
      | some (wp, l1) =>
        match get_worker_place { st with workers := l1 } { job with command := restored } wp with
        | none => none
        | some (st2, job2, r) => some (st2, job2, r, [])

/-! ## Dispatcher -/

/-- The argument `kvvec_init_ok` is whether `kvvec_init(&kvv, 4)` returns a
vector.  Returns the state, the job, the return code and the events. -/
def wproc_run_job (st : wproc_state) (job : worker_job) (kvvec_init_ok : Bool) :
    Option (wproc_state × worker_job × Int × List event) :=
  match get_worker st job with
  | none => none
  | some (st1, job1, none, ev) => some (st1, job1, ERROR, ev)
  | some (st1, job1, some w, ev) =>
    if job1.id < 0 then some (st1, job1, ERROR, ev)
    else if !kvvec_init_ok then some (st1, job1, ERROR, ev)
    else
      match st1.procs[w]? with
      | none => none
      | some proc =>
        let proc1 : worker_process :=
          { proc with jobs_running := proc.jobs_running + 1,
                      jobs_started := proc.jobs_started + 1 }
        some ({ st1 with procs := st1.procs.set w proc1 }, job1, 0,
              ev ++ [event.send_kvvec proc.sd job1.id job1.type job1.command job1.timeout])

def create_object_job (cname hname sdesc : Option (List Char)) : wproc_object_job :=
  { contact_name := cname, host_name := hname, service_description := sdesc }

def wproc_notify (st : wproc_state) (notification_timeout : Int)
    (cname hname sdesc : Option (List Char)) (cmd : List Char) (kvvec_init_ok : Bool) :
    Option (wproc_state × worker_job × Int × List event) :=
  wproc_run_job st
    (create_job WPJOB_NOTIFY (.oj (create_object_job cname hname sdesc))
      notification_timeout cmd) kvvec_init_ok

def wproc_run_service_job (st : wproc_state) (jtype timeout : Int)
    (host_name description : Option (List Char)) (cmd : List Char) (kvvec_init_ok : Bool) :
    Option (wproc_state × worker_job × Int × List event) :=
  wproc_run_job st
    (create_job jtype (.oj (create_object_job none host_name description)) timeout cmd)
    kvvec_init_ok

def wproc_run_host_job (st : wproc_state) (jtype timeout : Int)
    (name : Option (List Char)) (cmd : List Char) (kvvec_init_ok : Bool) :
    Option (wproc_state × worker_job × Int × List event) :=
  wproc_run_job st
    (create_job jtype (.oj (create_object_job none name none)) timeout cmd) kvvec_init_ok

def wproc_run_check (st : wproc_state) (service_check_timeout host_check_timeout : Int)
    (cr : check_result) (cmd : List Char) (kvvec_init_ok : Bool) :
    Option (wproc_state × worker_job × Int × List event) :=
  wproc_run_job st
    (create_job WPJOB_CHECK (.cr cr)
      (if cr.service_description.isSome then service_check_timeout else host_check_timeout)
      cmd) kvvec_init_ok

def wproc_run (st : wproc_state) (now : Int) (jtype : Int) (cmd : List Char) (timeout : Int)
    (kvvec_init_ok : Bool) : Option (wproc_state × worker_job × Int × List event) :=
  wproc_run_job st (create_job jtype .null (timeout + now) cmd) kvvec_init_ok

/-! ## Registration -/

/-- The store `list->len++; list->wps = realloc(...); list->wps[list->len - 1] = w`.
The entries below the old `len` are kept; a list whose `len` is negative or
exceeds its array has no defined content and is treated as undefined. -/
def wproc_list_append (l : wproc_list) (w : Nat) : Option wproc_list :=
  if 0 ≤ l.len ∧ l.len.toNat ≤ (l.wps.getD []).length then
    some { l with len := l.len + 1,
                  wps := some ((l.wps.getD []).take l.len.toNat ++ [some w]) }
  else none

/-- The `plugin` branch of the loop of `register_worker`. -/
def register_plugin (sp : List (List Char × wproc_list)) (value : List Char) (w : Nat) :
    Option (List (List Char × wproc_list)) :=
  match dkhash_get sp value with
  | none => some (dkhash_insert sp value { len := 1, idx := 0, wps := some [some w] })
  | some command_handlers =>
    match wproc_list_append command_handlers w with
    | none => none
    | some l1 => some (dkhash_store sp value l1)

/-- The loop of `register_worker` over the key/value pairs: it carries the
source name, the specialized registry and `is_global`. -/
def register_worker_loop (w : Nat) :
    List key_value → Option (List Char) × List (List Char × wproc_list) × Bool →
    Option (Option (List Char) × List (List Char × wproc_list) × Bool)
  | [], acc => some acc
  | kv :: rest, (name, sp, is_global) =>
    if kv.key = "name".toList then
      register_worker_loop w rest (some kv.value, sp, is_global)
    else if kv.key = "plugin".toList then
      match register_plugin sp kv.value w with
      | none => none
      | some sp1 => register_worker_loop w rest (name, sp1, false)
    else register_worker_loop w rest (name, sp, is_global)

/-- The arguments `calloc_ok` and `info` are the results of the allocation of
the worker and of `buf2kvvec` on the request body (`none` for `NULL`);
`max_usable_fds` is what `iobroker_max_usable_fds()` returns.  The new worker
object is placed at the end of `procs`. -/
def register_worker (st : wproc_state) (sd : Int) (calloc_ok : Bool)
    (info : Option (List key_value)) (max_usable_fds : Int) :
    Option (wproc_state × Int × List event) :=
  if !calloc_ok then some (st, 500, [])
  else
    match info with
    | none => some (st, 500, [])
    | some kvs =>
      let w := st.procs.length
      let max_jobs := Int.tdiv (max_usable_fds - 1) 2
      match register_worker_loop w kvs (none, st.specialized_workers, true) with
      | none => none
      | some (name, sp, is_global) =>
        let worker : worker_process :=
          { source_name := name, sd := sd, pid := 0, max_jobs := max_jobs,
            jobs_running := 0, jobs_started := 0, job_index := 0,
            ioc := some (1 * 1024 * 1024),
            jobs := if 0 ≤ max_jobs then some (List.replicate max_jobs.toNat none) else none }
        let ev := [event.iobroker_unregister sd, event.iobroker_register sd w,
                   event.nsock_printf_nul sd "OK"]
        if is_global then
          match wproc_list_append st.workers w with
          | none => none
          | some g => some ({ st with procs := st.procs ++ [worker], workers := g,
                                      specialized_workers := sp }, 0, ev)
        else
          some ({ st with procs := st.procs ++ [worker], specialized_workers := sp }, 0, ev)

/-! ## Number parsing of the C library

`atoi` and `strtoul` as glibc implements them on an LP64 platform: white space
is skipped, one sign is accepted, then decimal digits are read. -/

def isspace (c : Char) : Bool :=
  c.toNat = 32 || (9 ≤ c.toNat && c.toNat ≤ 13)

def isdigit (c : Char) : Bool :=
  48 ≤ c.toNat && c.toNat ≤ 57

/-- Reads the leading decimal digits: their value and the rest of the string. -/
def read_digits : List Char → Nat → Nat × List Char
  | [], acc => (acc, [])
  | c :: cs, acc =>
    if isdigit c then read_digits cs (acc * 10 + (c.toNat - 48)) else (acc, c :: cs)

/-- The subject sequence of a number: whether it is negated, its magnitude and
the rest of the string; `none` when no digit can be read (no conversion). -/
def scan_number (s : List Char) : Option (Bool × Nat × List Char) :=
  let body : Bool × List Char :=
    match s.dropWhile isspace with
    | c :: r => if c.toNat = 45 then (true, r) else if c.toNat = 43 then (false, r)
                else (false, c :: r)
    | [] => (false, [])
  match body.2 with
  | [] => none
  | c :: _ =>
    if isdigit c then some (body.1, (read_digits body.2 0).1, (read_digits body.2 0).2)
    else none

/-- Reinterpretation of a value as a two's complement integer of `bits` bits. -/
def wrap_signed (bits : Nat) (x : Int) : Int :=
  (x + 2 ^ (bits - 1)) % 2 ^ bits - 2 ^ (bits - 1)

/-- The call `strtol(s, NULL, 10)`, saturating at the range of `long`. -/
def strtol (s : List Char) : Int :=
  match scan_number s with
  | none => 0
  | some (neg, v, _) =>
    if neg then max (-(v : Int)) (-(2 ^ 63)) else min (v : Int) (2 ^ 63 - 1)

/-- The call `atoi(s)`, which converts the `long` of `strtol` to `int`. -/
def atoi (s : List Char) : Int :=
  wrap_signed 32 (strtol s)

/-- The call `strtoul(s, &ptr, 10)`: the `unsigned long` value and `ptr`;
`none` when nothing is converted (then `ptr == s` and the value is 0). -/
def strtoul (s : List Char) : Option (Nat × List Char) :=
  match scan_number s with
  | none => none
  | some (neg, v, rest) =>
    if 2 ^ 64 ≤ v then some (2 ^ 64 - 1, rest)
    else if neg then some ((2 ^ 64 - v) % 2 ^ 64, rest)
    else some (v, rest)

/-- Sets `tv` from `str`; returns the return code and the timeval.  The
`unsigned long` results are stored into the signed fields of the timeval. -/
def str2timeval (str : List Char) (tv : timeval) : Int × timeval :=
  match strtoul str with
  | none => (-1, { tv_sec := 0, tv_usec := 0 })
  | some (sec, ptr) =>
    match ptr with
    | c :: ptr2 =>
      if c.toNat = 46 ∨ c.toNat = 44 then
        (0, { tv_sec := wrap_signed 64 sec,
              tv_usec := wrap_signed 64 ((strtoul ptr2).map Prod.fst |>.getD 0) })
      else (0, { tv with tv_sec := wrap_signed 64 sec })
    | [] => (0, { tv with tv_sec := wrap_signed 64 sec })

/-! ## Worker results -/

structure wproc_result where
  job_id : Int
  type : Int
  timeout : Int
  start : timeval
  stop : timeval
  runtime : timeval
  wait_status : Int
  command : Option (List Char)
  outstd : Option (List Char)
  outerr : Option (List Char)
  error_msg : Option (List Char)
  error_code : Int
  exited_ok : Int
  errcode : Int
  early_timeout : Int
  rusage : rusage
deriving DecidableEq, Repr

/-- The result after `memset(&wpres, 0, sizeof(wpres))`. -/
def wproc_result_zero : wproc_result :=
  { job_id := 0, type := 0, timeout := 0, start := ⟨0, 0⟩, stop := ⟨0, 0⟩,
    runtime := ⟨0, 0⟩, wait_status := 0, command := none, outstd := none, outerr := none,
    error_msg := none, error_code := 0, exited_ok := 0, errcode := 0, early_timeout := 0,
    rusage := ⟨⟨0, 0⟩, ⟨0, 0⟩, 0, 0, 0, 0, 0, 0⟩ }

/-- The result as the drain loop prepares it: zeroed, then `job_id = -1` and
`type = -1`. -/
def wproc_result_init : wproc_result :=
  { wproc_result_zero with job_id := -1, type := -1 }

/-- The codes of the response keys. -/
inductive wpres_code where
  | WPRES_job_id | WPRES_type | WPRES_command | WPRES_timeout | WPRES_wait_status
  | WPRES_start | WPRES_stop | WPRES_outstd | WPRES_outerr | WPRES_runtime
  | WPRES_ru_utime | WPRES_ru_stime | WPRES_ru_minflt | WPRES_ru_majflt | WPRES_ru_nswap
  | WPRES_ru_inblock | WPRES_ru_oublock | WPRES_ru_nsignals | WPRES_exited_ok
  | WPRES_error_msg | WPRES_error_code
deriving DecidableEq, Repr

open wpres_code in
/-- Modelled from the spec: the perfect hash `wp_phash` of `wp-phash.c` (included
by `workers.c`, not a part of it), which maps each recognized result key to its code
and every other key to `-1` (here `none`). -/
def wp_phash (key : List Char) : Option wpres_code :=
  if key = "job_id".toList then some WPRES_job_id
  else if key = "type".toList then some WPRES_type
  else if key = "command".toList then some WPRES_command
  else if key = "timeout".toList then some WPRES_timeout
  else if key = "wait_status".toList then some WPRES_wait_status
  else if key = "start".toList then some WPRES_start
  else if key = "stop".toList then some WPRES_stop
  else if key = "outstd".toList then some WPRES_outstd
  else if key = "outerr".toList then some WPRES_outerr
  else if key = "runtime".toList then some WPRES_runtime
  else if key = "ru_utime".toList then some WPRES_ru_utime
  else if key = "ru_stime".toList then some WPRES_ru_stime
  else if key = "ru_minflt".toList then some WPRES_ru_minflt
  else if key = "ru_majflt".toList then some WPRES_ru_majflt
  else if key = "ru_nswap".toList then some WPRES_ru_nswap
  else if key = "ru_inblock".toList then some WPRES_ru_inblock
  else if key = "ru_oublock".toList then some WPRES_ru_oublock
  else if key = "ru_nsignals".toList then some WPRES_ru_nsignals
  else if key = "exited_ok".toList then some WPRES_exited_ok
  else if key = "error_msg".toList then some WPRES_error_msg
  else if key = "error_code".toList then some WPRES_error_code
  else none

open wpres_code in
/-- One iteration of the loop of `parse_worker_result`. -/
def parse_worker_result_pair (wpres : wproc_result) (kv : key_value) : wproc_result :=
  match wp_phash kv.key with
  | none => wpres
  | some WPRES_job_id => { wpres with job_id := atoi kv.value }
  | some WPRES_type => { wpres with type := atoi kv.value }
  | some WPRES_command => { wpres with command := some kv.value }
  | some WPRES_timeout => { wpres with timeout := atoi kv.value }
  | some WPRES_wait_status => { wpres with wait_status := atoi kv.value }
  | some WPRES_start => { wpres with start := (str2timeval kv.value wpres.start).2 }
  | some WPRES_stop => { wpres with stop := (str2timeval kv.value wpres.stop).2 }
  | some WPRES_outstd => { wpres with outstd := some kv.value }
  | some WPRES_outerr => { wpres with outerr := some kv.value }
  | some WPRES_runtime => wpres
  | some WPRES_ru_utime =>
    { wpres with rusage :=
        { wpres.rusage with ru_utime := (str2timeval kv.value wpres.rusage.ru_utime).2 } }
  | some WPRES_ru_stime =>
    { wpres with rusage :=
        { wpres.rusage with ru_stime := (str2timeval kv.value wpres.rusage.ru_stime).2 } }
  | some WPRES_ru_minflt => { wpres with rusage := { wpres.rusage with ru_minflt := atoi kv.value } }
  | some WPRES_ru_majflt => { wpres with rusage := { wpres.rusage with ru_majflt := atoi kv.value } }
  | some WPRES_ru_nswap => { wpres with rusage := { wpres.rusage with ru_nswap := atoi kv.value } }
  | some WPRES_ru_inblock =>
    { wpres with rusage := { wpres.rusage with ru_inblock := atoi kv.value } }
  | some WPRES_ru_oublock =>
    { wpres with rusage := { wpres.rusage with ru_oublock := atoi kv.value } }
  | some WPRES_ru_nsignals =>
    { wpres with rusage := { wpres.rusage with ru_nsignals := atoi kv.value } }
  | some WPRES_exited_ok => { wpres with exited_ok := atoi kv.value }
  | some WPRES_error_msg => { wpres with exited_ok := 0, error_msg := some kv.value }
  | some WPRES_error_code => { wpres with exited_ok := 0, error_code := atoi kv.value }

def parse_worker_result (wpres : wproc_result) (kvv : List key_value) : wproc_result :=
  kvv.foldl parse_worker_result_pair wpres

/-- The macro `WIFEXITED` of glibc, `(status & 0x7f) == 0`. -/
def WIFEXITED (status : Int) : Bool :=
  status % 128 = 0

/-- The macro `WEXITSTATUS` of glibc, `(status & 0xff00) >> 8`. -/
def WEXITSTATUS (status : Int) : Int :=
  (status / 256) % 256

/-- Returns the return code, the check result handed to `process_check_result`
and the events. -/
def handle_worker_check (wpres : wproc_result) (w : Nat) (cr : check_result) :
    Int × check_result × List event :=
  let cr1 : check_result :=
    { cr with
      rusage := wpres.rusage
      start_time := ⟨wpres.start.tv_sec, wpres.start.tv_usec⟩
      finish_time := ⟨wpres.stop.tv_sec, wpres.stop.tv_usec⟩
      return_code :=
        if WIFEXITED wpres.wait_status then WEXITSTATUS wpres.wait_status
        else STATE_UNKNOWN
      output :=
        match wpres.outstd, wpres.outerr with
        | some (c :: cs), _ => some (c :: cs)
        | _, some err => some ("(No output on stdout) stderr: ".toList ++ err)
        | _, none => none
      early_timeout := wpres.early_timeout
      exited_ok := wpres.exited_ok
      source := some w }
  (ERROR, cr1, [event.process_check_result cr1, event.free_check_result cr1])

/-! ## Pool removal and worker destruction -/

/-- Read of `list->wps[i]`; undefined outside the array. -/
def wps_at (l : wproc_list) (i : Int) : Option (Option Nat) :=
  match l.wps with
  | none => none
  | some arr => if 0 ≤ i then arr[i.toNat]? else none

/-- The loop of `remove_specialized` with loop variable `i`.  The first
argument is `list->len - i`, the number of entries still to visit, which either
path of the body lowers by one; the loop ends when it reaches zero. -/
def remove_specialized_loop (to_remove : Option Nat) :
    Nat → Int → wproc_list → Option (Int × wproc_list)
  | 0, _, list => some (0, list)
  | n + 1, i, list =>
    match wps_at list i with
    | none => none
    | some e =>
      if to_remove ≠ none ∧ e ≠ to_remove then
        remove_specialized_loop to_remove n (i + 1) list
      else if list.len ≤ 1 then
        some (DKHASH_WALK_REMOVE, list)
      else
        match wps_at list (list.len - 1) with
        | none => none
        | some last =>
          remove_specialized_loop to_remove n i
            { list with len := list.len - 1,
                        wps := list.wps.map (fun arr => arr.set i.toNat last) }

/-- Returns the walker code and the list.  With `DKHASH_WALK_REMOVE` the array
and the list have been handed to `free`; the fields of the list are returned as
the code leaves them. -/
def remove_specialized (to_remove : Option Nat) (list : wproc_list) :
    Option (Int × wproc_list) :=
  remove_specialized_loop to_remove list.len.toNat 0 list

/-- Modelled from the spec: `dkhash_walk_data` of libnagios (outside
`workers.c`), which calls the walker on the data of every entry and drops
the entries for which it returns `DKHASH_WALK_REMOVE`. -/
def dkhash_walk_data (walker : wproc_list → Option (Int × wproc_list)) :
    List (List Char × wproc_list) → Option (List (List Char × wproc_list))
  | [] => some []
  | (k, v) :: rest =>
    match walker v with
    | none => none
    | some (code, v1) =>
      match dkhash_walk_data walker rest with
      | none => none
      | some rest1 =>
        if code = DKHASH_WALK_REMOVE then some rest1 else some ((k, v1) :: rest1)

/-- The loop of `wproc_destroy` over the job table: `n` iterations are left,
`i` is the loop variable. -/
def wproc_destroy_jobs : Nat → Int → Int → worker_process →
    Option (worker_process × List event)
  | 0, _, _, wp => some (wp, [])
  | n + 1, i, destroyed, wp =>
    match jobs_at wp i with
    | none => none
    | some none => wproc_destroy_jobs n (i + 1) destroyed wp
    | some (some j) =>
      match destroy_job wp (some j) with
      | none => none
      | some (wp1, ev) =>
        if destroyed + 1 ≥ wp1.jobs_running then some (wp1, ev)
        else
          match wproc_destroy_jobs n (i + 1) (destroyed + 1) wp1 with
          | none => none
          | some (wp2, ev2) => some (wp2, ev ++ ev2)

/-- The argument `is_master` is whether `getpid()` equals `nagios_pid`.
Returns the worker object as it is when `free(wp)` is reached (`none` when the
handle is retained and nothing is released), the return code and the events.
The read of `wp->pid` after `free(wp)` is taken to yield the value stored
before. -/
def wproc_destroy (wp : Option worker_process) (w : Nat) (flags : Nat) (is_master : Bool) :
    Option (Option worker_process × Int × List event) :=
  match wp with
  | none => some (none, 0, [])
  | some proc =>
    if is_master ∧ (flags &&& WPROC_FORCE) = 0 then some (none, 0, [])
    else
      let proc0 : worker_process := { proc with ioc := none }
      let after_jobs : Option (worker_process × List event) :=
        match proc0.jobs with
        | none => some (proc0, [])
        | some _ =>
          match wproc_destroy_jobs proc0.max_jobs.toNat 0 0 proc0 with
          | none => none
          | some (p, ev) => some ({ p with jobs := none }, ev)
      match after_jobs with
      | none => none
      | some (proc1, ev) =>
        let ev1 := event.iocache_destroy w :: ev
        if !is_master then some (some proc1, 0, ev1)
        else
          some (some proc1, 0,
            ev1 ++ (if proc1.pid ≠ 0 then [event.kill proc1.pid SIGKILL] else [])
              ++ [event.iobroker_close proc1.sd])

/-! ## Result handler -/

/-- The loop of the end-of-file branch that creates a new job for every
occupied slot: `n` iterations are left, `i` is the loop variable.  The pointer
that `create_job` returns is not kept; the jobs created are returned. -/
def resubmit_jobs (wp : worker_process) : Nat → Int → Int → Option (List worker_job)
  | 0, _, _ => some []
  | n + 1, i, rescheduled =>
    match jobs_at wp i with
    | none => none
    | some none => resubmit_jobs wp n (i + 1) rescheduled
    | some (some j) =>
      if rescheduled + 1 ≥ wp.jobs_running then
        some [create_job j.type j.arg j.timeout j.command]
      else
        match resubmit_jobs wp n (i + 1) (rescheduled + 1) with
        | none => none
        | some js => some (create_job j.type j.arg j.timeout j.command :: js)

/-- The branch `ret == 0` of `handle_worker_result`. -/
def handle_worker_eof (st : wproc_state) (w : Nat) (is_master : Bool) :
    Option (wproc_state × List event) :=
  match st.procs[w]? with
  | none => none
  | some proc =>
    match dkhash_walk_data (remove_specialized (some w)) st.specialized_workers with
    | none => none
    | some sp1 =>
      match remove_specialized (some w) st.workers with
      | none => none
      | some (code, g1) =>
        let created : Option (List worker_job) :=
          match proc.jobs with
          | none => some []
          | some _ => resubmit_jobs proc proc.max_jobs.toNat 0 0
        match created with
        | none => none
        | some js =>
          match wproc_destroy (some proc) w 0 is_master with
          | none => none
          | some (released, _, ev) =>
            some ({ procs := match released with
                             | none => st.procs
                             | some p => st.procs.set w p,
                    workers := g1, specialized_workers := sp1, to_remove := some w },
              [event.logit "Socket to worker %s broken, removing" []
                  [proc.source_name.getD []],
               event.iobroker_unregister proc.sd]
              ++ (if code = DKHASH_WALK_REMOVE then
                    [event.logit "All our workers are dead, we can't do anything!" [] []]
                  else [])
              ++ js.map event.dropped_job ++ ev)

/-- The job-type switch of the drain loop: undefined when the payload that a
branch dereferences is not there.  The run time that the warnings print with
`%.2f` is passed as the two fields of `wpres.runtime`. -/
def handle_worker_dispatch (wpres : wproc_result) (w : Nat) (pid : Int) (job : worker_job) :
    Option (List event) :=
  if job.type = WPJOB_CHECK then
    match job.arg with
    | .cr c => some (handle_worker_check wpres w c).2.2
    | _ => none
  else if job.type = WPJOB_NOTIFY then
    if wpres.early_timeout ≠ 0 then
      match job.arg with
      | .oj o =>
        match o.service_description with
        | some sdesc =>
          some [event.logit
            "Warning: Notifying contact '%s' of service '%s' on host '%s' by command '%s' timed out after %.2f seconds\n"
            [wpres.runtime.tv_sec, wpres.runtime.tv_usec]
            [o.contact_name.getD [], sdesc, o.host_name.getD [], job.command]]
        | none =>
          some [event.logit
            "Warning: Notifying contact '%s' of host '%s' by command '%s' timed out after %.2f seconds\n"
            [wpres.runtime.tv_sec, wpres.runtime.tv_usec]
            [o.contact_name.getD [], o.host_name.getD [], job.command]]
      | _ => none
    else some []
  else if job.type = WPJOB_OCSP then
    if wpres.early_timeout ≠ 0 then
      match job.arg with
      | .oj o =>
        some [event.logit
          "Warning: OCSP command '%s' for service '%s' on host '%s' timed out after %.2f seconds\n"
          [wpres.runtime.tv_sec, wpres.runtime.tv_usec]
          [job.command, o.service_description.getD [], o.host_name.getD []]]
      | _ => none
    else some []
  else if job.type = WPJOB_OCHP then
    if wpres.early_timeout ≠ 0 then
      match job.arg with
      | .oj o =>
        some [event.logit
          "Warning: OCHP command '%s' for host '%s' timed out after %.2f seconds\n"
          [wpres.runtime.tv_sec, wpres.runtime.tv_usec]
          [job.command, o.host_name.getD []]]
      | _ => none
    else some []
  else if job.type = WPJOB_GLOBAL_SVC_EVTHANDLER then
    if wpres.early_timeout ≠ 0 then
      some [event.logit
        "Warning: Global service event handler command '%s' timed out after %.2f seconds\n"
        [wpres.runtime.tv_sec, wpres.runtime.tv_usec] [job.command]]
    else some []
  else if job.type = WPJOB_SVC_EVTHANDLER then
    if wpres.early_timeout ≠ 0 then
      some [event.logit
        "Warning: Service event handler command '%s' timed out after %.2f seconds\n"
        [wpres.runtime.tv_sec, wpres.runtime.tv_usec] [job.command]]
    else some []
  else if job.type = WPJOB_GLOBAL_HOST_EVTHANDLER then
    if wpres.early_timeout ≠ 0 then
      some [event.logit
        "Warning: Global host event handler command '%s' timed out after %.2f seconds\n"
        [wpres.runtime.tv_sec, wpres.runtime.tv_usec] [job.command]]
    else some []
  else if job.type = WPJOB_HOST_EVTHANDLER then
    if wpres.early_timeout ≠ 0 then
      some [event.logit
        "Warning: Host event handler command '%s' timed out after %.2f seconds\n"
        [wpres.runtime.tv_sec, wpres.runtime.tv_usec] [job.command]]
    else some []
  else some [event.logit "Worker %d: Unknown jobtype: %d\n" [pid, job.type] []]

/-- The body of the drain loop for one message `buf`.  The argument
`buf2kvvec` is `buf2kvvec_prealloc` of libnagios (the pairs it finds, none when
it returns a count `<= 0`).  The Boolean returned is whether the loop is left
with `break`. -/
def handle_worker_message (buf2kvvec : List Char → List key_value) (w : Nat)
    (wp : worker_process) (buf : List Char) : Option (worker_process × List event × Bool) :=
  if buf.length > 5 ∧ buf.take 4 = "log=".toList then
    some (wp, [event.logit "wproc: %s: %s\n" [] [wp.source_name.getD [], buf.drop 4]], false)
  else
    match buf2kvvec buf with
    | [] => some (wp, [], false)
    | kv :: kvs =>
      let wpres := parse_worker_result wproc_result_init (kv :: kvs)
      match get_job wp wpres.job_id with
      | none => none
      | some none =>
        some (wp, [event.logit "Worker job with id '%d' doesn't exist on worker %d.\n"
          [-1, wp.pid] []], false)
      | some (some job) =>
        if wpres.type ≠ job.type then
          some (wp, [event.logit
            "Worker %d claims job %d is type %d, but we think it's type %d\n"
            [wp.pid, job.id, wpres.type, job.type] []], true)
        else
          let wpres1 : wproc_result :=
            if wpres.error_code = ETIME then { wpres with early_timeout := 1 } else wpres
          match handle_worker_dispatch wpres1 w wp.pid job with
          | none => none
          | some ev =>
            match destroy_job wp (some job) with
            | none => none
            | some (wp1, ev1) => some (wp1, ev ++ ev1, false)

/-- The drain loop over the complete messages that the read cache holds.
Returns the worker, the events and the messages left in the cache. -/
def handle_worker_drain (buf2kvvec : List Char → List key_value) (w : Nat) :
    worker_process → List (List Char) → Option (worker_process × List event × List (List Char))
  | wp, [] => some (wp, [], [])
  | wp, buf :: rest =>
    match handle_worker_message buf2kvvec w wp buf with
    | none => none
    | some (wp1, ev, true) => some (wp1, ev, rest)
    | some (wp1, ev, false) =>
      match handle_worker_drain buf2kvvec w wp1 rest with
      | none => none
      | some (wp2, ev2, left) => some (wp2, ev ++ ev2, left)

/-- The readiness callback for worker `w`.  The argument `ret` is what
`iocache_read` returns and `msgs` are the complete messages then held by the
read cache.  Returns the state, the events and the messages left unread. -/
def handle_worker_result (st : wproc_state) (w : Nat) (ret : Int) (msgs : List (List Char))
    (buf2kvvec : List Char → List key_value) (is_master : Bool) :
    Option (wproc_state × List event × List (List Char)) :=
  match st.procs[w]? with
  | none => none
  | some proc =>
    if ret < 0 then
      some (st, [event.logit "iocache_read() from %s returned %d: %s\n" [ret]
        [proc.source_name.getD []]], msgs)
    else if ret = 0 then
      match handle_worker_eof st w is_master with
      | none => none
      | some (st1, ev) => some (st1, ev, msgs)
    else
      match handle_worker_drain buf2kvvec w proc msgs with
      | none => none
      | some (proc1, ev, left) => some ({ st with procs := st.procs.set w proc1 }, ev, left)

/-- The payload of a job fits its type, as the submission entry points build
it: a check result for a CHECK job, an object triple for NOTIFY, OCSP and
OCHP jobs. -/
def payload_ok (job : worker_job) : Prop :=
  (job.type = WPJOB_CHECK → ∃ c, job.arg = .cr c) ∧
  (job.type = WPJOB_NOTIFY ∨ job.type = WPJOB_OCSP ∨ job.type = WPJOB_OCHP →
    ∃ o, job.arg = .oj o)

/-- A worker whose table has the size `max_jobs`, whose `job_index` is not
negative, which is not counted full and which has an empty slot. -/
def has_free_slot (proc : worker_process) : Prop :=
  ∃ tbl, proc.jobs = some tbl ∧ (tbl.length : Int) = proc.max_jobs ∧ 0 ≤ proc.job_index ∧
    proc.jobs_running ≠ proc.max_jobs ∧ ∃ f : Nat, f < tbl.length ∧ tbl[f]? = some none

/-! ## Well-formed pool lists -/

/-- The values of the `plugin` pairs of a register body, in order. -/
def plugin_values (kvs : List key_value) : List (List Char) :=
  (kvs.filter (fun kv => kv.key = "plugin".toList)).map (fun kv => kv.value)

/-- A pool list whose `len` entries lie inside its array. -/
def wproc_list_ok (l : wproc_list) : Prop :=
  0 ≤ l.len ∧ l.len.toNat ≤ (l.wps.getD []).length

/-- Every pool list of the specialized registry is well formed. -/
def registry_ok (sp : List (List Char × wproc_list)) : Prop :=
  ∀ key l, dkhash_get sp key = some l → wproc_list_ok l

/-- The array of the list holds exactly `len` entries and its last one is the
worker `w`. -/
def last_entry_is (l : wproc_list) (w : Nat) : Prop :=
  ∃ arr, l.wps = some arr ∧ (arr.length : Int) = l.len ∧ arr.getLast? = some (some w)

/-- The length of the pool stored under a key, 0 when the key is absent. -/
def pool_len (sp : List (List Char × wproc_list)) (key : List Char) : Int :=
  match dkhash_get sp key with
  | none => 0
  | some l => l.len

/-! ## The slot-table invariant -/

/-- The invariant of a job table: it has `max_jobs` slots, `job_index` is not
negative, every occupied slot `i` holds a job with `id % max_jobs = i`, and
`jobs_running` is the number of occupied slots. -/
def slot_table_ok (wp : worker_process) : Prop :=
  ∃ tbl, wp.jobs = some tbl ∧ (tbl.length : Int) = wp.max_jobs ∧ 0 ≤ wp.job_index ∧
    (∀ (i : Nat) (job : worker_job), tbl[i]? = some (some job) →
      Int.tmod job.id wp.max_jobs = i) ∧
    wp.jobs_running = (tbl.countP Option.isSome : Nat)

/-- The state before any worker is registered. -/
def empty_state : wproc_state :=
  { procs := [], workers := { len := 0, idx := 0, wps := none },
    specialized_workers := [], to_remove := none }

/-- The states reached from the empty state by registrations (with at least one
usable descriptor), by submissions during which `kvvec_init` succeeds, and by
the readiness callback run in the master, every run being defined. -/
inductive reachable : wproc_state → Prop where
  | init : reachable empty_state
  | register (st st1 : wproc_state) (sd : Int) (info : Option (List key_value))
      (fds rc : Int) (ev : List event) :
      reachable st → 1 ≤ fds →
      register_worker st sd true info fds = some (st1, rc, ev) → reachable st1
  | submit (st st1 : wproc_state) (job job1 : worker_job) (rc : Int) (ev : List event) :
      reachable st → wproc_run_job st job true = some (st1, job1, rc, ev) → reachable st1
  | result (st st1 : wproc_state) (w : Nat) (ret : Int) (msgs left : List (List Char))
      (buf2kvvec : List Char → List key_value) (ev : List event) :
      reachable st →
      handle_worker_result st w ret msgs buf2kvvec true = some (st1, ev, left) →
      reachable st1

/-! ## Decimal strings -/

/-- The number that a string of decimal digits writes. -/
def decimal_value (s : List Char) : Nat :=
  s.foldl (fun acc c => acc * 10 + (c.toNat - 48)) 0

/-! ## Frames handled without leaving the drain loop -/

/-- The frames are processed one after the other, none of them leaving the
drain loop with `break`, and take the worker from `wp` to `wp1` with the events
`ev`. -/
def drained (buf2kvvec : List Char → List key_value) (w : Nat) :
    worker_process → List (List Char) → worker_process → List event → Prop
  | wp, [], wp1, ev => wp1 = wp ∧ ev = []
  | wp, buf :: rest, wp1, ev =>
    ∃ wpa eva evb, handle_worker_message buf2kvvec w wp buf = some (wpa, eva, false) ∧
      drained buf2kvvec w wpa rest wp1 evb ∧ ev = eva ++ evb

/-! ## Lifecycle controller -/

/-- The arguments `kill0` and `is_registered` are the system's answers: whether
`kill(pid, 0)` returns 0 and whether the broker holds the socket. -/
def wproc_is_alive (st : wproc_state) (kill0 : Int → Bool) (is_registered : Int → Bool)
    (wp : Option Nat) : Option Bool :=
  match wp with
  | none => some false
  | some w =>
    match st.procs[w]? with
    | none => none
    | some proc =>
      if proc.pid = 0 then some false
      else some (kill0 proc.pid && is_registered proc.sd)

/-- The loop of `workers_alive`: `n` iterations are left, `i` is the loop
variable, `alive` the count so far. -/
def workers_alive_loop (st : wproc_state) (kill0 : Int → Bool) (is_registered : Int → Bool) :
    Nat → Int → Int → Option Int
  | 0, _, alive => some alive
  | n + 1, i, alive =>
    match wps_at st.workers i with
    | none => none
    | some wp =>
      match wproc_is_alive st kill0 is_registered wp with
      | none => none
      | some b =>
        workers_alive_loop st kill0 is_registered n (i + 1) (if b then alive + 1 else alive)

def workers_alive (st : wproc_state) (kill0 : Int → Bool) (is_registered : Int → Bool) :
    Option Int :=
  match st.workers.wps with
  | none => some 0
  | some _ => workers_alive_loop st kill0 is_registered st.workers.len.toNat 0 0

/-- The loop of `free_worker_memory` over the global pool: `n` iterations are
left, `i` is the loop variable. -/
def free_worker_memory_loop (flags : Nat) (is_master : Bool) :
    Nat → Int → wproc_state → List event → Option (wproc_state × List event)
  | 0, _, st, ev => some (st, ev)
  | n + 1, i, st, ev =>
    match wps_at st.workers i with
    | none => none
    | some none => free_worker_memory_loop flags is_master n (i + 1) st ev
    | some (some w) =>
      match st.procs[w]? with
      | none => none
      | some proc =>
        match wproc_destroy (some proc) w flags is_master with
        | none => none
        | some (released, _, ev1) =>
          free_worker_memory_loop flags is_master n (i + 1)
            { st with
              procs := match released with
                       | none => st.procs
                       | some p => st.procs.set w p,
              workers := { st.workers with
                wps := st.workers.wps.map (fun arr => arr.set i.toNat none) } }
            (ev ++ ev1)

/-- Destroys every worker of the global pool, walks the specialized registry
with `to_remove = NULL`, destroys the registry and resets the global pool. -/
def free_worker_memory (st : wproc_state) (flags : Nat) (is_master : Bool) :
    Option (wproc_state × List event) :=
  let after : Option (wproc_state × List event) :=
    match st.workers.wps with
    | none => some (st, [])
    | some _ => free_worker_memory_loop flags is_master st.workers.len.toNat 0 st []
  match after with
  | none => none
  | some (st1, ev) =>
    match dkhash_walk_data (remove_specialized none) st1.specialized_workers with
    | none => none
    | some _ =>
      some ({ st1 with workers := { len := 0, idx := 0, wps := none },
                       specialized_workers := [], to_remove := none }, ev)

/-- The number of workers that `init_workers` aims at, from its argument and
the number of online cpus.  The C expression `cpus * 1.5`, converted back to
`int`, is the quotient of `3 * cpus` by 2 truncated towards zero (the product
is exact in a `double`). -/
def init_workers_target (desired_workers cpus : Int) : Int :=
  if desired_workers ≤ 0 then
    if desired_workers = 0 then
      if Int.tdiv (3 * cpus) 2 < 4 then 4 else Int.tdiv (3 * cpus) 2
    else cpus - desired_workers
  else desired_workers

/-- How the spawn loop of `init_workers` ends. -/
inductive spawn_exit where
  | completed
  | spawn_failed
  | register_failed
deriving DecidableEq, Repr

/-- The spawn loop of `init_workers`: `n` iterations are left, `i` is the loop
variable.  The arguments `spawn_worker` and `iobroker_register` give, for the
array position being filled, the worker that `spawn_worker` returns (`none`
for `NULL`) and the return code of the registration with the broker.  It
carries the worker objects, the new array and the events. -/
def init_workers_spawn (spawn_worker : Nat → Option worker_process)
    (iobroker_register : Nat → Int) :
    Nat → Nat → List worker_process → List (Option Nat) → List event →
    List worker_process × List (Option Nat) × List event × spawn_exit
  | 0, _, procs, wps, ev => (procs, wps, ev, spawn_exit.completed)
  | n + 1, i, procs, wps, ev =>
    match wps.getD i none with
    | some _ => init_workers_spawn spawn_worker iobroker_register n (i + 1) procs wps ev
    | none =>
      match spawn_worker i with
      | none =>
        (procs, wps, ev ++ [event.logit "Failed to spawn worker: %s\n" [] []],
          spawn_exit.spawn_failed)
      | some wp =>
        let name : List Char := "Nagios Core worker ".toList ++ (toString wp.pid).toList
        let wp1 : worker_process := { wp with source_name := some name }
        let ev1 := ev ++ [event.set_socket_options wp.sd (256 * 1024),
                          event.iobroker_register wp.sd procs.length]
        if iobroker_register i < 0 then
          (procs ++ [wp1], wps.set i (some procs.length),
            ev1 ++ [event.logit
              "Error: Failed to register worker socket with io broker: %s\n" [] []],
            spawn_exit.register_failed)
        else
          init_workers_spawn spawn_worker iobroker_register n (i + 1) (procs ++ [wp1])
            (wps.set i (some procs.length)) ev1

/-- The arguments after `cpus` (what `online_cpus()` returns) are the answers
of the system: liveness of the workers, whether `calloc` grants the new array,
the results of `spawn_worker` and of `iobroker_register` per array position,
whether `qh_register_handler` succeeds, and whether the caller is the master.
Returns the state, the return code and the events. -/
def init_workers (st : wproc_state) (desired_workers cpus : Int) (kill0 : Int → Bool)
    (is_registered : Int → Bool) (calloc_ok : Bool)
    (spawn_worker : Nat → Option worker_process) (iobroker_register : Nat → Int)
    (qh_register_ok : Bool) (is_master : Bool) : Option (wproc_state × Int × List event) :=
  match workers_alive st kill0 is_registered with
  | none => none
  | some alive =>
    if alive = init_workers_target desired_workers cpus then some (st, 0, [])
    else if init_workers_target desired_workers cpus < st.workers.len then some (st, -1, [])
    else if !calloc_ok then some (st, -1, [])
    else
      let target := init_workers_target desired_workers cpus
      let copied : Option (List (Option Nat)) :=
        match st.workers.wps with
        | none => some (List.replicate target.toNat none)
        | some old =>
          if st.workers.len < target then
            if 0 ≤ st.workers.len ∧ st.workers.len.toNat ≤ old.length then
              some (old.take st.workers.len.toNat
                ++ List.replicate (target.toNat - st.workers.len.toNat) none)
            else none
          else some (List.replicate target.toNat none)
      match copied with
      | none => none
      | some wps =>
        match init_workers_spawn spawn_worker iobroker_register target.toNat 0 st.procs wps [] with
        | (procs, wps1, ev, spawn_exit.completed) =>
          some ({ st with procs := procs,
                          workers := { st.workers with len := target, wps := some wps1 },
                          specialized_workers := [] }, 0,
            ev ++ [event.logit "Workers spawned: %d\n" [target] [],
                   event.qh_register_handler "wproc",
                   event.logit
                     (if qh_register_ok then
                       "Successfully registered wproc manager as @wproc with query handler\n"
                      else "Failed to register wproc manager with query handler\n") [] []])
        | (procs, wps1, ev, spawn_exit.spawn_failed) =>
          match free_worker_memory
              { st with procs := procs, workers := { st.workers with wps := some wps1 } }
              0 is_master with
          | none => none
          | some (st2, ev2) => some (st2, ERROR, ev ++ ev2)
        | (procs, wps1, ev, spawn_exit.register_failed) =>
          some ({ st with procs := procs,
                          workers := { st.workers with wps := some wps1 } }, ERROR, ev)

/-! ## Entries of a pool list -/

/-- Whether `remove_specialized` takes the entry `e` for one to remove: every
entry when `to_remove` is `NULL`, else the entries equal to `to_remove`. -/
def entry_matches (to_remove e : Option Nat) : Bool :=
  !(to_remove ≠ none ∧ e ≠ to_remove)

/-- The entries of a pool list: the first `len` cells of its array. -/
def pool_entries (l : wproc_list) : List (Option Nat) :=
  (l.wps.getD []).take l.len.toNat

/-! ## Sample data -/

/-- A worker with three slots of which the middle one is empty. -/
def sample_worker3 : worker_process :=
  { source_name := none, sd := 4, pid := 0, max_jobs := 3, jobs_running := 2,
    jobs_started := 5, job_index := 2, ioc := some 1048576,
    jobs := some [some { id := 0, type := 0, timeout := 60, command := [], wp := some 0,
                         arg := .null },
                  none,
                  some { id := 2, type := 1, timeout := 30, command := [], wp := some 0,
                         arg := .null }] }

/-- A worker with one slot, occupied. -/
def sample_worker_full : worker_process :=
  { source_name := none, sd := 4, pid := 0, max_jobs := 1, jobs_running := 1,
    jobs_started := 1, job_index := 0, ioc := some 1048576,
    jobs := some [some { id := 0, type := 0, timeout := 60, command := [], wp := some 0,
                         arg := .null }] }

/-- A global event-handler command, as `wproc_run` is given it. -/
def sample_cmd_a : List Char := "/p/handler_a -x".toList

/-- A second command. -/
def sample_cmd_b : List Char := "/p/handler_b".toList

/-- A worker as `register_worker` creates it, with four slots. -/
def sample_fresh_worker (sd : Int) : worker_process :=
  { source_name := none, sd := sd, pid := 0, max_jobs := 4, jobs_running := 0,
    jobs_started := 0, job_index := 0, ioc := some 1048576,
    jobs := some [none, none, none, none] }

/-- A registry with worker 0 in the global pool and worker 1 registered for the
plugin `/usr/lib/check_foo`. -/
def sample_routing_state : wproc_state :=
  { procs := [sample_fresh_worker 5, sample_fresh_worker 6],
    workers := { len := 1, idx := 0, wps := some [some 0] },
    specialized_workers :=
      [("/usr/lib/check_foo".toList, { len := 1, idx := 0, wps := some [some 1] })],
    to_remove := none }

/-- A check of the specialized plugin. -/
def sample_job_foo : worker_job :=
  create_job WPJOB_GLOBAL_SVC_EVTHANDLER .null 60 "/usr/lib/check_foo -H x".toList

/-- A check of another plugin. -/
def sample_job_bar : worker_job :=
  create_job WPJOB_GLOBAL_SVC_EVTHANDLER .null 60 "/usr/lib/check_bar".toList

/-- The register body `name=W1`, `plugin=/p/check_x`. -/
def sample_register_body : List key_value :=
  [⟨"name".toList, "W1".toList⟩, ⟨"plugin".toList, "/p/check_x".toList⟩]

/-- A notification job in slot 7. -/
def sample_notify_job : worker_job :=
  { id := 7, type := WPJOB_NOTIFY, timeout := 30, command := "/bin/notify-by-mail".toList,
    wp := some 0,
    arg := .oj { contact_name := some "admin".toList, host_name := some "web1".toList,
                 service_description := none } }

/-- A worker with eight slots that runs the notification job in slot 7. -/
def sample_worker8 : worker_process :=
  { source_name := none, sd := 4, pid := 1234, max_jobs := 8, jobs_running := 1,
    jobs_started := 8, job_index := 7, ioc := some 1048576,
    jobs := some [none, none, none, none, none, none, none, some sample_notify_job] }

/-- The reply `job_id=7 type=NOTIFY error_code=62` as the buffer parser
delivers it. -/
def sample_reply_timeout (_ : List Char) : List key_value :=
  [⟨"job_id".toList, "7".toList⟩, ⟨"type".toList, "1".toList⟩,
   ⟨"error_code".toList, "62".toList⟩]

/-- A reply that names job 15 on a worker with eight slots. -/
def sample_reply_mismatch (_ : List Char) : List key_value :=
  [⟨"job_id".toList, "15".toList⟩, ⟨"type".toList, "1".toList⟩]

/-- A host event handler in slot 0. -/
def sample_job_slot0 : worker_job :=
  { id := 0, type := WPJOB_HOST_EVTHANDLER, timeout := 30, command := sample_cmd_a,
    wp := some 0, arg := .null }

/-- A service event handler in slot 2. -/
def sample_job_slot2 : worker_job :=
  { id := 2, type := WPJOB_SVC_EVTHANDLER, timeout := 45, command := sample_cmd_b,
    wp := some 0, arg := .null }

/-- Worker 0 runs jobs in slots 0 and 2; worker 1 is idle; both are in the
global pool. -/
def sample_dead_state : wproc_state :=
  { procs := [{ source_name := none, sd := 4, pid := 1234, max_jobs := 4, jobs_running := 2,
                jobs_started := 3, job_index := 2, ioc := some 1048576,
                jobs := some [some sample_job_slot0, none, some sample_job_slot2, none] },
              sample_fresh_worker 6],
    workers := { len := 2, idx := 0, wps := some [some 0, some 1] },
    specialized_workers := [], to_remove := none }

/-- Worker 0 is the only global worker and also serves the plugin `/p/check_x`
together with worker 1. -/
def sample_last_global_state : wproc_state :=
  { procs := [sample_fresh_worker 5, sample_fresh_worker 6],
    workers := { len := 1, idx := 0, wps := some [some 0] },
    specialized_workers :=
      [("/p/check_x".toList, { len := 2, idx := 0, wps := some [some 0, some 1] })],
    to_remove := none }

/-- A worker that runs jobs in slots 0 and 2 of its four slots. -/
def sample_worker_two_jobs : worker_process :=
  { source_name := none, sd := 4, pid := 1234, max_jobs := 4, jobs_running := 2,
    jobs_started := 3, job_index := 2, ioc := some 1048576,
    jobs := some [some sample_job_slot0, none, some sample_job_slot2, none] }

/-- A reply in which `exited_ok=1` follows `error_code=62`. -/
def sample_reply_error_then_ok : List key_value :=
  [⟨"job_id".toList, "3".toList⟩, ⟨"error_code".toList, "62".toList⟩,
   ⟨"exited_ok".toList, "1".toList⟩]

/-- A reply in which `error_msg` follows `exited_ok=1`. -/
def sample_reply_ok_then_error : List key_value :=
  [⟨"exited_ok".toList, "1".toList⟩, ⟨"error_msg".toList, "timed out".toList⟩,
   ⟨"outstd".toList, "x".toList⟩]

/-- The frames of one read: job 7 completes, then a frame names job 2 with the
type of a check, then a frame for job 0. -/
def sample_frames (buf : List Char) : List key_value :=
  if buf = "a".toList then
    [⟨"job_id".toList, "0".toList⟩, ⟨"type".toList, "7".toList⟩]
  else if buf = "b".toList then
    [⟨"job_id".toList, "2".toList⟩, ⟨"type".toList, "0".toList⟩]
  else []

/-- A pool in which worker 3 occurs twice among four entries. -/
def sample_pool_dups : wproc_list :=
  { len := 4, idx := 7, wps := some [some 3, some 1, some 3, some 2] }

/-- A reply that carries no `job_id` pair. -/
def sample_reply_no_id (_ : List Char) : List key_value :=
  [⟨"type".toList, "1".toList⟩]

/-- A reply whose `job_id` is negative. -/
def sample_reply_negative_id (_ : List Char) : List key_value :=
  [⟨"job_id".toList, "-3".toList⟩]

/-- The worker with eight slots as the only worker, in the global pool. -/
def sample_state8 : wproc_state :=
  { procs := [sample_worker8],
    workers := { len := 1, idx := 0, wps := some [some 0] },
    specialized_workers := [], to_remove := none }

/-- The frame `job_id=0`, `type=1`, `error_code=62` as the worker sends it. -/
def sample_frame_timeout0 : List Char :=
  "job_id=0".toList ++ NUL :: ("type=1".toList ++ NUL :: "error_code=62".toList)

/-- The pairs of `sample_frame_timeout0`: job 0 of type NOTIFY timed out. -/
def sample_reply_timeout0 (_ : List Char) : List key_value :=
  [⟨"job_id".toList, "0".toList⟩, ⟨"type".toList, "1".toList⟩,
   ⟨"error_code".toList, "62".toList⟩]

/-- A reply for job 0 of type NOTIFY that carries no error. -/
def sample_reply_done0 (_ : List Char) : List key_value :=
  [⟨"job_id".toList, "0".toList⟩, ⟨"type".toList, "1".toList⟩]

/-! ## The job table -/

theorem jobs_at_eq (wp : worker_process) (tbl : List (Option worker_job))
    (hjobs : wp.jobs = some tbl) (i : Int) (h0 : 0 ≤ i) :
    jobs_at wp i = tbl[i.toNat]? := by
  simp [jobs_at, hjobs, h0]

/-- The scan either stops at the first empty slot met, or finds every visited
slot occupied. -/
theorem get_job_id_scan_spec (wp : worker_process) (tbl : List (Option worker_job))
    (hjobs : wp.jobs = some tbl) (hlen : (tbl.length : Int) = wp.max_jobs)
    (hmax : 0 < wp.max_jobs) :
    ∀ (n : Nat) (i : Int), 0 ≤ i →
      (∃ k : Nat, k < n ∧ jobs_at wp ((i + k) % wp.max_jobs) = some none ∧
        (∀ j : Nat, j < k →
          ∃ job, jobs_at wp ((i + j) % wp.max_jobs) = some (some job)) ∧
        get_job_id_scan wp n i =
          some ((i + k) % wp.max_jobs, { wp with job_index := (i + k) % wp.max_jobs }))
      ∨ ((∀ j : Nat, j < n →
          ∃ job, jobs_at wp ((i + j) % wp.max_jobs) = some (some job)) ∧
        get_job_id_scan wp n i = some (-1, wp)) := by
  intro n
  induction n with
  | zero =>
    intro i _
    right
    exact ⟨fun j hj => absurd hj (Nat.not_lt_zero j), rfl⟩
  | succ n ih =>
    intro i hi
    have hne : wp.max_jobs ≠ 0 := ne_of_gt hmax
    have hk0 : 0 ≤ i % wp.max_jobs := Int.emod_nonneg i hne
    have hk1 : i % wp.max_jobs < wp.max_jobs := Int.emod_lt_of_pos i hmax
    have htm : Int.tmod i wp.max_jobs = i % wp.max_jobs :=
      Int.tmod_eq_emod hi (le_of_lt hmax)
    have hin : (i % wp.max_jobs).toNat < tbl.length := by
      have : ((i % wp.max_jobs).toNat : Int) < (tbl.length : Int) := by
        rw [Int.toNat_of_nonneg hk0, hlen]; exact hk1
      exact_mod_cast this
    have hat : jobs_at wp (i % wp.max_jobs) = some (tbl[(i % wp.max_jobs).toNat]) := by
      rw [jobs_at_eq wp tbl hjobs _ hk0]
      exact List.getElem?_eq_getElem hin
    cases hslot : tbl[(i % wp.max_jobs).toNat] with
    | none =>
      left
      refine ⟨0, Nat.succ_pos n, ?_, fun j hj => absurd hj (Nat.not_lt_zero j), ?_⟩
      · simpa [hslot] using hat
      · simp [get_job_id_scan, c_mod, hne, htm, hat, hslot]
    | some job0 =>
      have hstep : get_job_id_scan wp (n + 1) i = get_job_id_scan wp n (i + 1) := by
        simp [get_job_id_scan, c_mod, hne, htm, hat, hslot]
      rcases ih (i + 1) (by omega) with ⟨k, hk, hfree, hocc, hres⟩ | ⟨hocc, hres⟩
      · left
        refine ⟨k + 1, Nat.succ_lt_succ hk, ?_, ?_, ?_⟩
        · have : i + ((k + 1 : Nat) : Int) = i + 1 + k := by push_cast; ring
          rw [this]; exact hfree
        · intro j hj
          cases j with
          | zero => exact ⟨job0, by simpa [hslot] using hat⟩
          | succ j =>
            have : i + ((j + 1 : Nat) : Int) = i + 1 + j := by push_cast; ring
            rw [this]; exact hocc j (Nat.lt_of_succ_lt_succ hj)
        · have : i + ((k + 1 : Nat) : Int) = i + 1 + k := by push_cast; ring
          rw [hstep, this]; exact hres
      · right
        refine ⟨?_, by rw [hstep]; exact hres⟩
        intro j hj
        cases j with
        | zero => exact ⟨job0, by simpa [hslot] using hat⟩
        | succ j =>
          have : i + ((j + 1 : Nat) : Int) = i + 1 + j := by push_cast; ring
          rw [this]; exact hocc j (Nat.lt_of_succ_lt_succ hj)

/-- A window of `max_jobs` consecutive indices meets every slot. -/
theorem scan_window_hits (m i : Int) (hm : 0 < m) (f : Nat) (hf : (f : Int) < m) :
    ∃ j : Nat, (j : Int) < m ∧ (i + j) % m = f := by
  refine ⟨((f - i) % m).toNat, ?_, ?_⟩
  · rw [Int.toNat_of_nonneg (Int.emod_nonneg _ (ne_of_gt hm))]
    exact Int.emod_lt_of_pos _ hm
  · rw [Int.toNat_of_nonneg (Int.emod_nonneg _ (ne_of_gt hm))]
    rw [Int.add_emod, Int.emod_emod_of_dvd _ (dvd_refl m), ← Int.add_emod]
    have : i + (f - i) = f := by ring
    rw [this]
    exact Int.emod_eq_of_lt (by omega) hf

/-- With a free slot and `jobs_running ≠ max_jobs` the allocation stops at the
first empty slot of the cyclic scan. -/
theorem get_job_id_of_free (wp : worker_process) (tbl : List (Option worker_job))
    (hjobs : wp.jobs = some tbl) (hlen : (tbl.length : Int) = wp.max_jobs)
    (hmax : 0 < wp.max_jobs) (hidx0 : 0 ≤ wp.job_index)
    (hne : wp.jobs_running ≠ wp.max_jobs)
    (hfree : ∃ f : Nat, f < tbl.length ∧ tbl[f]? = some none) :
    ∃ k : Nat, (k : Int) < wp.max_jobs ∧
      jobs_at wp ((wp.job_index + k) % wp.max_jobs) = some none ∧
      (∀ j : Nat, j < k →
        ∃ job, jobs_at wp ((wp.job_index + j) % wp.max_jobs) = some (some job)) ∧
      get_job_id wp =
        some ((wp.job_index + k) % wp.max_jobs,
              { wp with job_index := (wp.job_index + k) % wp.max_jobs }) := by
  have hget : get_job_id wp = get_job_id_scan wp wp.max_jobs.toNat wp.job_index := by
    simp [get_job_id, hne]
  rcases get_job_id_scan_spec wp tbl hjobs hlen hmax wp.max_jobs.toNat wp.job_index hidx0 with
    ⟨k, hk, hfreek, hocc, hres⟩ | ⟨hocc, _⟩
  · refine ⟨k, ?_, hfreek, hocc, by rw [hget]; exact hres⟩
    have : (k : Int) < (wp.max_jobs.toNat : Int) := by exact_mod_cast hk
    rwa [Int.toNat_of_nonneg (le_of_lt hmax)] at this
  · exfalso
    obtain ⟨f, hf, hslot⟩ := hfree
    have hfm : (f : Int) < wp.max_jobs := by rw [← hlen]; exact_mod_cast hf
    obtain ⟨j, hj, hjf⟩ := scan_window_hits wp.max_jobs wp.job_index hmax f hfm
    have hjn : j < wp.max_jobs.toNat := by
      have : (j : Int) < (wp.max_jobs.toNat : Int) := by
        rw [Int.toNat_of_nonneg (le_of_lt hmax)]; exact hj
      exact_mod_cast this
    obtain ⟨job, hjob⟩ := hocc j hjn
    rw [hjf, jobs_at_eq wp tbl hjobs _ (by omega)] at hjob
    simp only [Int.toNat_ofNat] at hjob
    rw [hslot] at hjob
    cases hjob

/-- C3: for a worker with `max_jobs > 0`, `0 ≤ job_index`,
`jobs_running < max_jobs` and at least one empty slot, `get_job_id` returns
`r = (job_index + k) % max_jobs` for the least `k` in `0..max_jobs-1` whose slot
`(job_index + k) % max_jobs` is empty, sets `job_index` to `r` and changes
nothing else in the worker. -/
theorem get_job_id_first_free (wp : worker_process) (tbl : List (Option worker_job))
    (hjobs : wp.jobs = some tbl) (hlen : (tbl.length : Int) = wp.max_jobs)
    (hmax : 0 < wp.max_jobs) (hidx0 : 0 ≤ wp.job_index)
    (hrun : wp.jobs_running < wp.max_jobs)
    (hfree : ∃ f : Nat, f < tbl.length ∧ tbl[f]? = some none) :
    ∃ k : Nat, (k : Int) < wp.max_jobs ∧
      jobs_at wp ((wp.job_index + k) % wp.max_jobs) = some none ∧
      (∀ j : Nat, j < k →
        ∃ job, jobs_at wp ((wp.job_index + j) % wp.max_jobs) = some (some job)) ∧
      get_job_id wp =
        some ((wp.job_index + k) % wp.max_jobs,
              { wp with job_index := (wp.job_index + k) % wp.max_jobs }) :=
  get_job_id_of_free wp tbl hjobs hlen hmax hidx0 (ne_of_lt hrun) hfree

theorem get_job_id_first_free_witness :
    ∃ k : Nat, (k : Int) < sample_worker3.max_jobs ∧
      jobs_at sample_worker3 ((sample_worker3.job_index + k) % sample_worker3.max_jobs)
        = some none ∧
      (∀ j : Nat, j < k →
        ∃ job, jobs_at sample_worker3
          ((sample_worker3.job_index + j) % sample_worker3.max_jobs) = some (some job)) ∧
      get_job_id sample_worker3 =
        some ((sample_worker3.job_index + k) % sample_worker3.max_jobs,
              { sample_worker3 with
                job_index := (sample_worker3.job_index + k) % sample_worker3.max_jobs }) :=
  get_job_id_first_free sample_worker3 _ rfl rfl (by decide) (by decide) (by decide)
    ⟨1, by decide, rfl⟩

/-- A table whose occupied slots are fewer than its slots has an empty slot. -/
theorem exists_free_of_count_lt (tbl : List (Option worker_job))
    (h : tbl.countP Option.isSome < tbl.length) :
    ∃ f : Nat, f < tbl.length ∧ tbl[f]? = some none := by
  by_contra hcon
  have hall : ∀ a ∈ tbl, Option.isSome a = true := by
    intro a ha
    obtain ⟨n, hn, hget⟩ := List.getElem_of_mem ha
    cases a with
    | none => exact absurd ⟨n, hn, by rw [List.getElem?_eq_getElem hn, hget]⟩ hcon
    | some _ => rfl
  have := List.countP_eq_length.mpr hall
  omega

/-- C4: for a worker whose `jobs_running` equals the number of occupied slots,
`get_job_id` returns `-1` if and only if no slot is empty, which is when
`jobs_running = max_jobs`; and whenever it returns `-1` the worker (its
`job_index`, its job table and its counters) is unchanged. -/
theorem get_job_id_fails_iff_full (wp : worker_process) (tbl : List (Option worker_job))
    (hjobs : wp.jobs = some tbl) (hlen : (tbl.length : Int) = wp.max_jobs)
    (hidx0 : 0 ≤ wp.job_index)
    (hrun : wp.jobs_running = (tbl.countP Option.isSome : Nat)) :
    ∃ r wp1, get_job_id wp = some (r, wp1) ∧
      (r = -1 ↔ ∀ i : Nat, i < tbl.length → ∃ job, tbl[i]? = some (some job)) ∧
      (r = -1 ↔ wp.jobs_running = wp.max_jobs) ∧
      (r = -1 → wp1 = wp) := by
  by_cases hfull : wp.jobs_running = wp.max_jobs
  · refine ⟨-1, wp, by simp [get_job_id, hfull], ?_, by simp [hfull], fun _ => rfl⟩
    refine ⟨fun _ => ?_, fun _ => rfl⟩
    have hcnt : tbl.countP Option.isSome = tbl.length := by
      have : ((tbl.countP Option.isSome : Nat) : Int) = (tbl.length : Int) := by
        rw [← hrun, hlen]; exact hfull
      exact_mod_cast this
    intro i hi
    have := List.countP_eq_length.mp hcnt tbl[i] (List.getElem_mem hi)
    rw [List.getElem?_eq_getElem hi]
    cases hs : tbl[i] with
    | none => rw [hs] at this; cases this
    | some job => exact ⟨job, rfl⟩
  · have hlt : tbl.countP Option.isSome < tbl.length := by
      have hle : tbl.countP Option.isSome ≤ tbl.length := List.countP_le_length _
      have hneq : tbl.countP Option.isSome ≠ tbl.length := by
        intro heq
        apply hfull
        rw [hrun, heq, hlen]
      omega
    have hfree := exists_free_of_count_lt tbl hlt
    have hmax : 0 < wp.max_jobs := by
      rw [← hlen]
      have : 0 < tbl.length := by omega
      exact_mod_cast this
    obtain ⟨k, _, _, _, hres⟩ := get_job_id_of_free wp tbl hjobs hlen hmax hidx0 hfull hfree
    have hr0 : 0 ≤ (wp.job_index + k) % wp.max_jobs := Int.emod_nonneg _ (ne_of_gt hmax)
    refine ⟨_, _, hres, ?_, ?_, ?_⟩
    · constructor
      · intro h; omega
      · intro hall
        obtain ⟨f, hf, hslot⟩ := hfree
        obtain ⟨job, hjob⟩ := hall f hf
        rw [hslot] at hjob; cases hjob
    · constructor
      · intro h; omega
      · intro h; exact absurd h hfull
    · intro h; omega

theorem get_job_id_fails_iff_full_witness :
    ∃ r wp1, get_job_id sample_worker_full = some (r, wp1) ∧
      (r = -1 ↔ ∀ i : Nat, i < 1 →
        ∃ job, ([some { id := 0, type := 0, timeout := 60, command := [], wp := some 0,
                        arg := .null }] : List (Option worker_job))[i]? = some (some job)) ∧
      (r = -1 ↔ sample_worker_full.jobs_running = sample_worker_full.max_jobs) ∧
      (r = -1 → wp1 = sample_worker_full) :=
  get_job_id_fails_iff_full sample_worker_full _ rfl rfl (by decide) (by decide)


/-! ## Submission -/

/-- C remainder of `-1` by a divisor of at least two. -/
theorem tmod_neg_one (m : Int) (h2 : 2 ≤ m) : Int.tmod (-1) m = -1 := by
  obtain ⟨n, rfl⟩ : ∃ n : Nat, m = ((n + 2 : Nat) : Int) := ⟨(m - 2).toNat, by omega⟩
  show -Int.ofNat (Nat.succ 0 % (n + 2)) = -1
  rw [Nat.mod_eq_of_lt (by omega)]
  rfl

/-- A full worker with at least two slots makes the store of `get_worker` fall
outside the job table (index `-1`). -/
theorem get_worker_place_full_undefined (st : wproc_state) (job : worker_job) (w : Nat)
    (proc : worker_process) (hw : st.procs[w]? = some proc)
    (hfull : proc.jobs_running = proc.max_jobs) (h2 : 2 ≤ proc.max_jobs) :
    get_worker_place st job (some w) = none := by
  have hne : proc.max_jobs ≠ 0 := by omega
  have htm : Int.tmod (-1) proc.max_jobs = -1 := tmod_neg_one _ h2
  simp [get_worker_place, hw, get_job_id, hfull, c_mod, hne, htm, jobs_set]
  cases proc.jobs <;> simp

/-- C1 (evaluation at the failing input): a worker is registered with two
slots, then one submission is made in which `kvvec_init` fails. The submission
returns `ERROR`, slot 0 of the worker is occupied, and `jobs_running` is 0. -/
theorem slot_invariant_broken_by_failed_send :
    ∃ st0 ev0, register_worker empty_state 5 true (some []) 5 = some (st0, 0, ev0) ∧
    ∃ st1 job1 ev1,
      wproc_run st0 1000 WPJOB_GLOBAL_HOST_EVTHANDLER sample_cmd_a 30 false
        = some (st1, job1, ERROR, ev1) ∧
    ∃ proc tbl, st1.procs[0]? = some proc ∧ proc.jobs = some tbl ∧
      tbl.countP Option.isSome = 1 ∧ proc.jobs_running = 0 ∧ proc.max_jobs = 2 := by
  refine ⟨_, _, rfl, _, _, _, rfl, _, _, rfl, rfl, ?_, ?_, ?_⟩ <;> decide

/-- C2 (evaluation at the failing input): a worker with a single slot runs job
A; it is then full. The submission of job B returns `ERROR`, yet slot 0 of the
worker now holds job B in place of job A. -/
theorem full_worker_job_overwritten :
    ∃ st0 ev0, register_worker empty_state 5 true (some []) 3 = some (st0, 0, ev0) ∧
    ∃ st1 job_a ev1,
      wproc_run st0 1000 WPJOB_GLOBAL_HOST_EVTHANDLER sample_cmd_a 30 true
        = some (st1, job_a, 0, ev1) ∧
    ∃ proc1, st1.procs[0]? = some proc1 ∧ proc1.jobs = some [some job_a] ∧
      proc1.jobs_running = 1 ∧ proc1.max_jobs = 1 ∧
    ∃ st2 job_b ev2,
      wproc_run st1 1000 WPJOB_GLOBAL_SVC_EVTHANDLER sample_cmd_b 30 true
        = some (st2, job_b, ERROR, ev2) ∧
    ∃ proc2, st2.procs[0]? = some proc2 ∧ proc2.jobs = some [some job_b] ∧
      job_b ≠ job_a ∧ job_b.command = sample_cmd_b ∧
      proc2.jobs_running = 1 ∧ proc2.jobs_started = 1 := by
  refine ⟨_, _, rfl, _, _, _, rfl, _, rfl, rfl, ?_, ?_, _, _, _, rfl, _, rfl, rfl, ?_, ?_, ?_, ?_⟩
    <;> decide

/-! ## Round-robin selection -/

/-- Splitting a command at its first blank leaves the command name, the part
before the first blank, as the C string of the buffer. -/
theorem cstr_split (cmd : List Char) (hnul : NUL ∉ cmd) :
    cstr (match strchr cmd SPACE with
          | some i => cmd.set i NUL
          | none => cmd) = cmd.takeWhile (· ≠ SPACE) := by
  induction cmd with
  | nil => simp [strchr, cstr]
  | cons x xs ih =>
    have hx : x ≠ NUL := fun h => hnul (by simp [h])
    have hxs : NUL ∉ xs := fun h => hnul (List.mem_cons_of_mem _ h)
    have ih1 := ih hxs
    by_cases hsp : x = SPACE
    · simp [strchr, hsp, cstr]
    · simp only [strchr, hsp, hx, if_false]
      cases hs : strchr xs SPACE with
      | none =>
        rw [hs] at ih1
        simp only [Option.map_none', cstr] at ih1 ⊢
        simp only [decide_not] at ih1
        simp [List.takeWhile_cons, hx, hsp, ih1]
      | some i =>
        rw [hs] at ih1
        simp only [Option.map_some', List.set_cons_succ, cstr] at ih1 ⊢
        simp only [decide_not] at ih1
        simp [List.takeWhile_cons, hx, hsp, ih1]

/-- Restoring the blank gives the command back. -/
theorem restore_split (cmd : List Char) :
    (match strchr cmd SPACE with
     | some i => (match strchr cmd SPACE with
                  | some i => cmd.set i NUL
                  | none => cmd).set i SPACE
     | none => (match strchr cmd SPACE with
                | some i => cmd.set i NUL
                | none => cmd)) = cmd := by
  induction cmd with
  | nil => simp [strchr]
  | cons x xs ih =>
    by_cases hsp : x = SPACE
    · simp [strchr, hsp]
    · by_cases hx : x = NUL
      · have hne : NUL ≠ SPACE := by decide
        simp [strchr, hx, hne]
      · simp only [strchr, hsp, hx, if_false]
        cases hs : strchr xs SPACE with
        | none => simp
        | some i =>
          rw [hs] at ih
          simp only [Option.map_some', List.set_cons_succ] at ih ⊢
          rw [ih]

/-- The selection of `get_worker` for a command that holds no terminator: the
command name is the part before the first blank, and the job reaches the slot
allocation with its command as it came. -/
theorem get_worker_eq (st : wproc_state) (job : worker_job) (hnul : NUL ∉ job.command) :
    get_worker st job =
      match dkhash_get st.specialized_workers (job.command.takeWhile (· ≠ SPACE)) with
      | some wp_list =>
        match wproc_list_next wp_list with
        | none => none
        | some (wp, l1) =>
          match get_worker_place
              { st with specialized_workers :=
                  dkhash_store st.specialized_workers (job.command.takeWhile (· ≠ SPACE)) l1 }
              job wp with
          | none => none
          | some (st2, job2, r) =>
            some (st2, job2, r,
              [event.logit "Found specialized worker(s) for '%s'" []
                [job.command.takeWhile (· ≠ SPACE)]])
      | none =>
        match st.workers.wps with
        | none =>
          some (st, { job with command := (match strchr job.command SPACE with
                                           | some i => job.command.set i NUL
                                           | none => job.command) }, none, [])
        | some _ =>
          match wproc_list_next st.workers with
          | none => none
          | some (wp, l1) =>
            match get_worker_place { st with workers := l1 } job wp with
            | none => none
            | some (st2, job2, r) => some (st2, job2, r, []) := by
  unfold get_worker
  simp only []
  rw [cstr_split job.command hnul, restore_split job.command]

/-- A slot allocation that returns hands back the worker it was given. -/
theorem get_worker_place_worker (st st1 : wproc_state) (job job1 : worker_job)
    (wp r : Option Nat) (h : get_worker_place st job wp = some (st1, job1, r)) :
    r = wp ∧ ∃ w, wp = some w := by
  unfold get_worker_place at h
  cases wp with
  | none => simp at h
  | some w =>
    simp only at h
    split at h
    · cases h
    · split at h
      · cases h
      · split at h
        · cases h
        · split at h
          · cases h
          · simp only [Option.some.injEq, Prod.mk.injEq] at h
            exact ⟨h.2.2.symm, w, rfl⟩

/-- On a worker with a free slot the slot allocation of `get_worker` is
defined and returns that worker. -/
theorem get_worker_place_of_free (st : wproc_state) (job : worker_job) (w : Nat)
    (proc : worker_process) (hw : st.procs[w]? = some proc) (hfree : has_free_slot proc) :
    ∃ st1 job1, get_worker_place st job (some w) = some (st1, job1, some w) := by
  obtain ⟨tbl, hjobs, hlen, hidx, hne, hslot⟩ := hfree
  have hmax : 0 < proc.max_jobs := by
    obtain ⟨f, hf, _⟩ := hslot
    rw [← hlen]
    have : 0 < tbl.length := by omega
    exact_mod_cast this
  obtain ⟨k, _, _, _, hres⟩ := get_job_id_of_free proc tbl hjobs hlen hmax hidx hne hslot
  have hr0 : 0 ≤ (proc.job_index + k) % proc.max_jobs := Int.emod_nonneg _ (ne_of_gt hmax)
  have hr1 : (proc.job_index + k) % proc.max_jobs < proc.max_jobs := Int.emod_lt_of_pos _ hmax
  have htm : Int.tmod ((proc.job_index + k) % proc.max_jobs) proc.max_jobs
      = (proc.job_index + k) % proc.max_jobs := by
    rw [Int.tmod_eq_emod hr0 (le_of_lt hmax)]
    exact Int.emod_eq_of_lt hr0 hr1
  have hin : ((proc.job_index + k) % proc.max_jobs).toNat < tbl.length := by
    have : (((proc.job_index + k) % proc.max_jobs).toNat : Int) < (tbl.length : Int) := by
      rw [Int.toNat_of_nonneg hr0, hlen]; exact hr1
    exact_mod_cast this
  simp [get_worker_place, hw, hres, c_mod, ne_of_gt hmax, htm, jobs_set, hjobs, hr0, hin]

/-- Routing of `get_worker` where it is defined (the part of C6 that holds):
for every job command string (a C string, so without a terminator
inside) and every registry state, `get_worker` takes its worker from the
specialized pool stored under the command name (the command up to its first
blank, or the whole command) when the registry has an entry for that name, and
from the global pool when it has none; with no such entry and no global pool it
returns no worker. In either pool the worker is the entry the round-robin step
picks, and `get_worker` does return it whenever that worker has a free slot. -/
theorem get_worker_routing (st : wproc_state) (job : worker_job)
    (hnul : NUL ∉ job.command) :
    (∀ l, dkhash_get st.specialized_workers (job.command.takeWhile (· ≠ SPACE)) = some l →
      (∀ st1 job1 r ev, get_worker st job = some (st1, job1, r, ev) →
        ∃ w l1, r = some w ∧ wproc_list_next l = some (some w, l1)) ∧
      (∀ w l1 proc, wproc_list_next l = some (some w, l1) → st.procs[w]? = some proc →
        has_free_slot proc → ∃ st1 job1 ev, get_worker st job = some (st1, job1, some w, ev))) ∧
    (dkhash_get st.specialized_workers (job.command.takeWhile (· ≠ SPACE)) = none →
      st.workers.wps ≠ none →
      (∀ st1 job1 r ev, get_worker st job = some (st1, job1, r, ev) →
        ∃ w l1, r = some w ∧ wproc_list_next st.workers = some (some w, l1)) ∧
      (∀ w l1 proc, wproc_list_next st.workers = some (some w, l1) →
        st.procs[w]? = some proc → has_free_slot proc →
        ∃ st1 job1 ev, get_worker st job = some (st1, job1, some w, ev))) ∧
    (dkhash_get st.specialized_workers (job.command.takeWhile (· ≠ SPACE)) = none →
      st.workers.wps = none →
      ∃ job1, get_worker st job = some (st, job1, none, [])) := by
  have heq := get_worker_eq st job hnul
  refine ⟨?_, ?_, ?_⟩
  · intro l hl
    rw [hl] at heq
    simp only at heq
    constructor
    · intro st1 job1 r ev hres
      rw [heq] at hres
      cases hnext : wproc_list_next l with
      | none => rw [hnext] at hres; cases hres
      | some p =>
        obtain ⟨wp, l1⟩ := p
        rw [hnext] at hres
        simp only at hres
        split at hres
        · cases hres
        · rename_i st2 job2 r2 hplace
          obtain ⟨hr, w, hwp⟩ := get_worker_place_worker _ _ _ _ _ _ hplace
          simp only [Option.some.injEq, Prod.mk.injEq] at hres
          refine ⟨w, l1, ?_, by rw [hwp]⟩
          rw [← hres.2.2.1, hr, hwp]
    · intro w l1 proc hnext hw hfree
      rw [heq, hnext]
      obtain ⟨st1, job1, hplace⟩ := get_worker_place_of_free
        { st with specialized_workers :=
            dkhash_store st.specialized_workers (job.command.takeWhile (· ≠ SPACE)) l1 }
        job w proc hw hfree
      simp only [hplace]
      exact ⟨_, _, _, rfl⟩
  · intro hnone hwps
    rw [hnone] at heq
    simp only at heq
    cases hg : st.workers.wps with
    | none => exact absurd hg hwps
    | some arr =>
      rw [hg] at heq
      simp only at heq
      constructor
      · intro st1 job1 r ev hres
        rw [heq] at hres
        cases hnext : wproc_list_next st.workers with
        | none => rw [hnext] at hres; cases hres
        | some p =>
          obtain ⟨wp, l1⟩ := p
          rw [hnext] at hres
          simp only at hres
          split at hres
          · cases hres
          · rename_i st2 job2 r2 hplace
            obtain ⟨hr, w, hwp⟩ := get_worker_place_worker _ _ _ _ _ _ hplace
            simp only [Option.some.injEq, Prod.mk.injEq] at hres
            refine ⟨w, l1, ?_, by rw [hwp]⟩
            rw [← hres.2.2.1, hr, hwp]
      · intro w l1 proc hnext hw hfree
        rw [heq, hnext]
        obtain ⟨st1, job1, hplace⟩ := get_worker_place_of_free
          { st with workers := l1 } job w proc hw hfree
        simp only [hplace]
        exact ⟨_, _, _, rfl⟩
  · intro hnone hwps
    rw [hnone, hwps] at heq
    exact ⟨_, heq⟩

theorem get_worker_routing_witness :
    NUL ∉ sample_job_foo.command ∧ NUL ∉ sample_job_bar.command ∧
    (∃ st1 job1 ev,
      get_worker sample_routing_state sample_job_foo = some (st1, job1, some 1, ev)) ∧
    (∃ st1 job1 ev,
      get_worker sample_routing_state sample_job_bar = some (st1, job1, some 0, ev)) :=
  ⟨by decide, by decide,
   ((get_worker_routing sample_routing_state sample_job_foo (by decide)).1
      { len := 1, idx := 0, wps := some [some 1] } (by decide)).2
      1 { len := 1, idx := 1, wps := some [some 1] } (sample_fresh_worker 6)
      (by decide) (by decide)
      ⟨[none, none, none, none], rfl, rfl, by decide, by decide, 0, by decide, rfl⟩,
   ((get_worker_routing sample_routing_state sample_job_bar (by decide)).2.1
      (by decide) (by decide)).2
      0 { len := 1, idx := 1, wps := some [some 0] } (sample_fresh_worker 5)
      (by decide) (by decide)
      ⟨[none, none, none, none], rfl, rfl, by decide, by decide, 0, by decide, rfl⟩⟩

/-! ## Registration -/

theorem dkhash_get_insert (sp : List (List Char × wproc_list)) (key k : List Char)
    (v : wproc_list) (habs : dkhash_get sp key = none) :
    dkhash_get (dkhash_insert sp key v) k = if k = key then some v else dkhash_get sp k := by
  induction sp with
  | nil =>
    by_cases hk : k = key
    · simp [dkhash_insert, dkhash_get, hk]
    · have : ¬ key = k := fun h => hk h.symm
      simp [dkhash_insert, dkhash_get, hk, this]
  | cons e rest ih =>
    obtain ⟨k0, v0⟩ := e
    simp only [dkhash_get] at habs
    by_cases h0 : k0 = key
    · simp [h0] at habs
    · simp only [h0, if_false] at habs
      have ih1 := ih habs
      simp only [dkhash_insert] at ih1 ⊢
      simp only [List.cons_append, dkhash_get]
      by_cases h1 : k0 = k
      · have : ¬ k = key := fun h => h0 (h1.trans h)
        simp [h1, this]
      · simp only [h1, if_false]
        exact ih1

theorem dkhash_get_store (sp : List (List Char × wproc_list)) (key k : List Char)
    (v : wproc_list) (hpres : (dkhash_get sp key).isSome) :
    dkhash_get (dkhash_store sp key v) k = if k = key then some v else dkhash_get sp k := by
  induction sp with
  | nil => simp [dkhash_get] at hpres
  | cons e rest ih =>
    obtain ⟨k0, v0⟩ := e
    by_cases h0 : k0 = key
    · subst h0
      by_cases h1 : k = k0
      · simp [dkhash_store, dkhash_get, h1]
      · have : ¬ k0 = k := fun h => h1 h.symm
        simp [dkhash_store, dkhash_get, h1, this]
    · simp only [dkhash_get, h0, if_false] at hpres
      have ih1 := ih hpres
      simp only [dkhash_store, h0, if_false, dkhash_get]
      by_cases h1 : k0 = k
      · have : ¬ k = key := fun h => h0 (h1.trans h)
        simp [h1, this]
      · simp only [h1, if_false]
        exact ih1

/-- Appending to a well-formed list is defined, keeps the entries below `len`
and puts the worker last. -/
theorem wproc_list_append_spec (l : wproc_list) (w : Nat) (hok : wproc_list_ok l) :
    ∃ l1, wproc_list_append l w = some l1 ∧ wproc_list_ok l1 ∧ last_entry_is l1 w ∧
      l1.len = l.len + 1 ∧ l1.idx = l.idx ∧
      l1.wps = some ((l.wps.getD []).take l.len.toNat ++ [some w]) := by
  obtain ⟨h0, h1⟩ := hok
  have hlen : ((l.wps.getD []).take l.len.toNat ++ [some w]).length = l.len.toNat + 1 := by
    rw [List.length_append, List.length_take, Nat.min_eq_left h1]; rfl
  refine ⟨{ l with len := l.len + 1,
                   wps := some ((l.wps.getD []).take l.len.toNat ++ [some w]) },
    by simp [wproc_list_append, h0, h1], ⟨by simp only; omega, ?_⟩,
    ⟨_, rfl, ?_, by simp⟩, rfl, rfl, rfl⟩
  · simp only [Option.getD_some]
    rw [hlen]
    omega
  · simp only [hlen]
    push_cast
    rw [Int.toNat_of_nonneg h0]

/-- One `plugin` pair: the pool under its value is created with length 1 or
lengthened by one, the worker is its last entry, and no other pool changes. -/
theorem register_plugin_spec (sp : List (List Char × wproc_list)) (v : List Char) (w : Nat)
    (hok : registry_ok sp) :
    ∃ sp1, register_plugin sp v w = some sp1 ∧ registry_ok sp1 ∧
      (∃ l1, dkhash_get sp1 v = some l1 ∧ last_entry_is l1 w ∧ l1.len = pool_len sp v + 1) ∧
      (∀ k, k ≠ v → dkhash_get sp1 k = dkhash_get sp k) := by
  cases hget : dkhash_get sp v with
  | none =>
    refine ⟨dkhash_insert sp v { len := 1, idx := 0, wps := some [some w] },
      by simp [register_plugin, hget], ?_, ?_, ?_⟩
    · intro key l hl
      rw [dkhash_get_insert sp v key _ hget] at hl
      by_cases hk : key = v
      · simp only [hk, if_true, Option.some.injEq] at hl
        subst hl
        constructor <;> simp
      · simp only [hk, if_false] at hl
        exact hok key l hl
    · refine ⟨{ len := 1, idx := 0, wps := some [some w] },
        by rw [dkhash_get_insert sp v v _ hget]; simp, ⟨[some w], rfl, rfl, rfl⟩, ?_⟩
      simp [pool_len, hget]
    · intro k hk
      rw [dkhash_get_insert sp v k _ hget]
      simp [hk]
  | some l =>
    obtain ⟨l1, happ, hok1, hlast, hlen, _, _⟩ := wproc_list_append_spec l w (hok v l hget)
    have hpres : (dkhash_get sp v).isSome := by rw [hget]; rfl
    refine ⟨dkhash_store sp v l1, by simp [register_plugin, hget, happ], ?_, ?_, ?_⟩
    · intro key l2 hl
      rw [dkhash_get_store sp v key _ hpres] at hl
      by_cases hk : key = v
      · simp only [hk, if_true, Option.some.injEq] at hl
        subst hl
        exact hok1
      · simp only [hk, if_false] at hl
        exact hok key l2 hl
    · refine ⟨l1, by rw [dkhash_get_store sp v v _ hpres]; simp, hlast, ?_⟩
      simp [pool_len, hget, hlen]
    · intro k hk
      rw [dkhash_get_store sp v k _ hpres]
      simp [hk]

theorem plugin_values_cons (kv : key_value) (rest : List key_value) :
    plugin_values (kv :: rest) =
      if kv.key = "plugin".toList then kv.value :: plugin_values rest
      else plugin_values rest := by
  by_cases h : kv.key = "plugin".toList
  · rw [if_pos h]
    simp only [plugin_values]
    rw [List.filter_cons_of_pos (by simpa using h)]
    rfl
  · rw [if_neg h]
    simp only [plugin_values]
    rw [List.filter_cons_of_neg (by simpa using h)]

/-- The loop of `register_worker`: it is defined on a well-formed registry,
clears `is_global` exactly when a `plugin` pair occurs, leaves the pools of
other keys alone, and under every plugin value leaves a pool that ends with the
new worker and has grown by the number of pairs with that value. -/
theorem register_worker_loop_spec (w : Nat) :
    ∀ (kvs : List key_value) (name : Option (List Char))
      (sp : List (List Char × wproc_list)) (g : Bool), registry_ok sp →
      ∃ name1 sp1, register_worker_loop w kvs (name, sp, g)
          = some (name1, sp1, g && (plugin_values kvs).isEmpty) ∧
        registry_ok sp1 ∧ (plugin_values kvs = [] → sp1 = sp) ∧
        ∀ v, (v ∉ plugin_values kvs → dkhash_get sp1 v = dkhash_get sp v) ∧
          (v ∈ plugin_values kvs → ∃ l1, dkhash_get sp1 v = some l1 ∧ last_entry_is l1 w ∧
            l1.len = pool_len sp v + ((plugin_values kvs).count v : Nat)) := by
  intro kvs
  induction kvs with
  | nil =>
    intro name sp g hok
    refine ⟨name, sp, by simp [register_worker_loop, plugin_values], hok, fun _ => rfl, ?_⟩
    intro v
    exact ⟨fun _ => rfl, fun h => by simp [plugin_values] at h⟩
  | cons kv rest ih =>
    intro name sp g hok
    by_cases hname : kv.key = "name".toList
    · have hnp : ¬ kv.key = "plugin".toList := by rw [hname]; decide
      obtain ⟨name1, sp1, hloop, hok1, hsame, hall⟩ := ih (some kv.value) sp g hok
      refine ⟨name1, sp1, ?_, hok1, ?_, ?_⟩
      · simp only [register_worker_loop, hname, if_true, plugin_values_cons, hnp, if_false]
        exact hloop
      · rw [plugin_values_cons, if_neg hnp]; exact hsame
      · rw [plugin_values_cons, if_neg hnp]; exact hall
    · by_cases hplug : kv.key = "plugin".toList
      · obtain ⟨sp0, hreg, hok0, ⟨l0, hget0, hlast0, hlen0⟩, hframe0⟩ :=
          register_plugin_spec sp kv.value w hok
        obtain ⟨name1, sp1, hloop, hok1, hsame, hall⟩ := ih name sp0 false hok0
        refine ⟨name1, sp1, ?_, hok1, ?_, ?_⟩
        · simp only [register_worker_loop, hname, if_false, hplug, if_true, hreg,
            plugin_values_cons]
          rw [hloop]
          simp
        · rw [plugin_values_cons, if_pos hplug]
          intro h; cases h
        · intro v
          rw [plugin_values_cons, if_pos hplug]
          obtain ⟨hout, hin⟩ := hall v
          constructor
          · intro hv
            have hne : v ≠ kv.value := fun h => hv (by rw [h]; exact List.mem_cons_self _ _)
            have hv1 : v ∉ plugin_values rest := fun h => hv (List.mem_cons_of_mem _ h)
            rw [hout hv1, hframe0 v hne]
          · intro _
            by_cases hve : v = kv.value
            · subst hve
              by_cases hv1 : kv.value ∈ plugin_values rest
              · obtain ⟨l1, hget1, hlast1, hlen1⟩ := hin hv1
                refine ⟨l1, hget1, hlast1, ?_⟩
                have hp : pool_len sp0 kv.value = pool_len sp kv.value + 1 := by
                  simp [pool_len, hget0, hlen0]
                rw [hlen1, hp, List.count_cons_self]
                push_cast; ring
              · refine ⟨l0, by rw [hout hv1]; exact hget0, hlast0, ?_⟩
                rw [hlen0, List.count_cons_self, List.count_eq_zero_of_not_mem hv1]
                simp
            · have hv1 : v ∈ plugin_values rest := by
                rename_i hmem
                rcases List.mem_cons.mp hmem with h | h
                · exact absurd h hve
                · exact h
              obtain ⟨l1, hget1, hlast1, hlen1⟩ := hin hv1
              refine ⟨l1, hget1, hlast1, ?_⟩
              have hp : pool_len sp0 v = pool_len sp v := by
                simp [pool_len, hframe0 v hve]
              have hc : (kv.value :: plugin_values rest).count v = (plugin_values rest).count v :=
                List.count_cons_of_ne hve _
              rw [hlen1, hp, hc]
      · obtain ⟨name1, sp1, hloop, hok1, hsame, hall⟩ := ih name sp g hok
        refine ⟨name1, sp1, ?_, hok1, ?_, ?_⟩
        · simp only [register_worker_loop, hname, if_false, hplug, plugin_values_cons]
          exact hloop
        · rw [plugin_values_cons, if_neg hplug]; exact hsame
        · rw [plugin_values_cons, if_neg hplug]; exact hall

/-- C7: for every successfully parsed register body (and a registry whose
pool lists are well formed), `register_worker` succeeds and creates one worker.
If the body has at least one `plugin` pair, the new worker is the last entry of
the specialized pool stored under each plugin value, that pool having grown by
one entry per pair with that value from its former length (from 0, that is
created, when the key was absent), the pools of other keys and the global pool
are unchanged. If the body has no `plugin` pair, the new worker is appended to
the global pool, whose length grows by exactly one with its earlier entries
unchanged, and the specialized registry is unchanged. -/
theorem register_worker_placement (st : wproc_state) (sd : Int) (kvs : List key_value)
    (max_usable_fds : Int) (hsp : registry_ok st.specialized_workers)
    (hg : wproc_list_ok st.workers) :
    ∃ st1 ev, register_worker st sd true (some kvs) max_usable_fds = some (st1, 0, ev) ∧
      (∃ worker, st1.procs = st.procs ++ [worker]) ∧
      (plugin_values kvs ≠ [] →
        st1.workers = st.workers ∧
        (∀ v ∈ plugin_values kvs, ∃ l1,
          dkhash_get st1.specialized_workers v = some l1 ∧
          last_entry_is l1 st.procs.length ∧
          l1.len = pool_len st.specialized_workers v + ((plugin_values kvs).count v : Nat)) ∧
        (∀ v, v ∉ plugin_values kvs →
          dkhash_get st1.specialized_workers v = dkhash_get st.specialized_workers v)) ∧
      (plugin_values kvs = [] →
        st1.specialized_workers = st.specialized_workers ∧
        st1.workers.len = st.workers.len + 1 ∧
        st1.workers.idx = st.workers.idx ∧
        last_entry_is st1.workers st.procs.length ∧
        st1.workers.wps =
          some ((st.workers.wps.getD []).take st.workers.len.toNat
            ++ [some st.procs.length])) := by
  obtain ⟨name1, sp1, hloop, _, hsame, hall⟩ :=
    register_worker_loop_spec st.procs.length kvs none st.specialized_workers true hsp
  by_cases hpl : plugin_values kvs = []
  · obtain ⟨g, happ, _, hlast, hlen, hidx, hwps⟩ :=
      wproc_list_append_spec st.workers st.procs.length hg
    have hloop1 : register_worker_loop st.procs.length kvs (none, st.specialized_workers, true)
        = some (name1, sp1, true) := by rw [hloop, hpl]; rfl
    refine ⟨_, _, by simp only [register_worker, hloop1, happ]; rfl, ⟨_, rfl⟩, ?_, ?_⟩
    · intro h; exact absurd hpl h
    · intro _
      exact ⟨hsame hpl, hlen, hidx, hlast, hwps⟩
  · have hloop1 : register_worker_loop st.procs.length kvs (none, st.specialized_workers, true)
        = some (name1, sp1, false) := by
      rw [hloop]
      cases hp : plugin_values kvs with
      | nil => exact absurd hp hpl
      | cons a t => rfl
    refine ⟨_, _, by simp only [register_worker, hloop1]; rfl, ⟨_, rfl⟩, ?_, ?_⟩
    · intro _
      exact ⟨rfl, fun v hv => (hall v).2 hv, fun v hv => (hall v).1 hv⟩
    · intro h; exact absurd h hpl

theorem register_worker_placement_witness :
    ∃ st1 ev, register_worker empty_state 5 true (some sample_register_body) 9
        = some (st1, 0, ev) ∧
      st1.workers = empty_state.workers ∧
      ∃ l1, dkhash_get st1.specialized_workers "/p/check_x".toList = some l1 ∧
        last_entry_is l1 0 ∧ l1.len = 1 := by
  obtain ⟨st1, ev, hres, _, hplug, _⟩ := register_worker_placement empty_state 5
    sample_register_body 9 (fun key l h => by simp [empty_state, dkhash_get] at h)
    ⟨by decide, by decide⟩
  obtain ⟨hw, hpools, _⟩ := hplug (by decide)
  obtain ⟨l1, hget, hlast, hlen⟩ := hpools "/p/check_x".toList (by decide)
  exact ⟨st1, ev, hres, hw, l1, hget, hlast, by rw [hlen]; decide⟩

/-! ## Result handling -/

/-- The type switch is defined on a job whose payload fits its type. -/
theorem handle_worker_dispatch_defined (wpres : wproc_result) (w : Nat) (pid : Int)
    (job : worker_job) (hp : payload_ok job) :
    ∃ ev, handle_worker_dispatch wpres w pid job = some ev := by
  obtain ⟨hcr, hoj⟩ := hp
  unfold handle_worker_dispatch
  by_cases h0 : job.type = WPJOB_CHECK
  · obtain ⟨c, hc⟩ := hcr h0
    simp [h0, hc]
  · simp only [h0, if_false]
    by_cases h1 : job.type = WPJOB_NOTIFY
    · obtain ⟨o, ho⟩ := hoj (Or.inl h1)
      simp only [h1, if_true, ho]
      split
      · split <;> exact ⟨_, rfl⟩
      · exact ⟨_, rfl⟩
    · simp only [h1, if_false]
      by_cases h2 : job.type = WPJOB_OCSP
      · obtain ⟨o, ho⟩ := hoj (Or.inr (Or.inl h2))
        simp only [h2, if_true, ho]
        split <;> exact ⟨_, rfl⟩
      · simp only [h2, if_false]
        by_cases h3 : job.type = WPJOB_OCHP
        · obtain ⟨o, ho⟩ := hoj (Or.inr (Or.inr h3))
          simp only [h3, if_true, ho]
          split <;> exact ⟨_, rfl⟩
        · simp only [h3, if_false]
          repeat' split
          all_goals exact ⟨_, rfl⟩

/-- Releasing the job found in a slot whose index is `job.id % max_jobs`
empties that slot, lowers `jobs_running` by one and leaves the rest alone. -/
theorem destroy_job_spec (wp : worker_process) (job : worker_job) (k : Int)
    (hne : wp.max_jobs ≠ 0) (hid : Int.tmod job.id wp.max_jobs = k)
    (hat : jobs_at wp k = some (some job)) :
    ∃ tbl, wp.jobs = some tbl ∧
      destroy_job wp (some job) =
        some ({ wp with jobs := some (tbl.set k.toNat none),
                        jobs_running := wp.jobs_running - 1 }, destroy_job_payload job) ∧
      jobs_at { wp with jobs := some (tbl.set k.toNat none),
                        jobs_running := wp.jobs_running - 1 } k = some none ∧
      ∀ i, i ≠ k →
        jobs_at { wp with jobs := some (tbl.set k.toNat none),
                          jobs_running := wp.jobs_running - 1 } i = jobs_at wp i := by
  unfold jobs_at at hat
  cases hj : wp.jobs with
  | none => rw [hj] at hat; cases hat
  | some tbl =>
    rw [hj] at hat
    simp only at hat
    have hk0 : 0 ≤ k := by
      by_contra hneg
      rw [if_neg hneg] at hat; cases hat
    rw [if_pos hk0] at hat
    have hin : k.toNat < tbl.length := by
      by_contra hge
      rw [List.getElem?_eq_none (Nat.le_of_not_lt hge)] at hat
      cases hat
    refine ⟨tbl, rfl, ?_, ?_, ?_⟩
    · simp [destroy_job, c_mod, hne, hid, jobs_set, hj, hk0, hin]
    · simp [jobs_at, hk0, hin]
    · intro i hi
      simp only [jobs_at, hj]
      by_cases hi0 : 0 ≤ i
      · simp only [hi0, if_true]
        have : k.toNat ≠ i.toNat := by
          intro h
          apply hi
          have := congrArg (fun n : Nat => (n : Int)) h
          simp only [Int.toNat_of_nonneg hk0, Int.toNat_of_nonneg hi0] at this
          exact this.symm
        rw [List.getElem?_set_ne this]
      · simp [hi0]

/-- Slot release for a job whose payload fits its type (the part of C8 that
holds): for every worker and every parsed response frame (not a log message,
with at least one pair) whose `job_id` selects an occupied slot holding a job
whose type equals the type of the response, the slot holding the job being the
one its id names and its payload fitting its type, `handle_worker_result`
processes the frame without leaving the drain loop, and afterwards that slot is
empty, `jobs_running` is smaller by exactly one and every other slot and field
of the worker is unchanged, whatever the job type and whatever error or timeout
the response carries. -/
theorem handle_worker_message_releases (buf2kvvec : List Char → List key_value) (w : Nat)
    (wp : worker_process) (buf : List Char) (job : worker_job)
    (hnolog : ¬ (buf.length > 5 ∧ buf.take 4 = "log=".toList))
    (hpairs : buf2kvvec buf ≠ [])
    (hjob : get_job wp (parse_worker_result wproc_result_init (buf2kvvec buf)).job_id
      = some (some job))
    (htype : (parse_worker_result wproc_result_init (buf2kvvec buf)).type = job.type)
    (hid : Int.tmod job.id wp.max_jobs
      = Int.tmod (parse_worker_result wproc_result_init (buf2kvvec buf)).job_id wp.max_jobs)
    (hpay : payload_ok job) :
    ∃ tbl ev wp1, wp.jobs = some tbl ∧
      handle_worker_message buf2kvvec w wp buf = some (wp1, ev, false) ∧
      wp1 = { wp with
        jobs := some (tbl.set (Int.tmod (parse_worker_result wproc_result_init
          (buf2kvvec buf)).job_id wp.max_jobs).toNat none),
        jobs_running := wp.jobs_running - 1 } ∧
      jobs_at wp1 (Int.tmod (parse_worker_result wproc_result_init
        (buf2kvvec buf)).job_id wp.max_jobs) = some none ∧
      wp1.jobs_running = wp.jobs_running - 1 ∧
      ∀ i, i ≠ Int.tmod (parse_worker_result wproc_result_init
          (buf2kvvec buf)).job_id wp.max_jobs →
        jobs_at wp1 i = jobs_at wp i := by
  have hne : wp.max_jobs ≠ 0 := by
    intro h0
    simp [get_job, c_mod, h0] at hjob
  have hat : jobs_at wp (Int.tmod (parse_worker_result wproc_result_init
      (buf2kvvec buf)).job_id wp.max_jobs) = some (some job) := by
    simpa [get_job, c_mod, hne] using hjob
  obtain ⟨tbl, hj, hdes, hempty, hframe⟩ := destroy_job_spec wp job _ hne hid hat
  cases hkv : buf2kvvec buf with
  | nil => exact absurd hkv hpairs
  | cons kv kvs =>
    rw [hkv] at hjob htype hdes hempty hframe
    obtain ⟨ev, hdisp⟩ := handle_worker_dispatch_defined
      (if (parse_worker_result wproc_result_init (kv :: kvs)).error_code = ETIME then
        { parse_worker_result wproc_result_init (kv :: kvs) with early_timeout := 1 }
       else parse_worker_result wproc_result_init (kv :: kvs)) w wp.pid job hpay
    refine ⟨tbl, ev ++ destroy_job_payload job, _, hj, ?_, rfl, hempty, rfl, hframe⟩
    unfold handle_worker_message
    rw [if_neg hnolog, hkv]
    simp only [hjob]
    rw [if_neg (by simpa using htype)]
    simp only [hdisp, hdes]

theorem handle_worker_message_releases_witness :
    (parse_worker_result wproc_result_init (sample_reply_timeout [])).job_id = 7 ∧
    (parse_worker_result wproc_result_init (sample_reply_timeout [])).type = WPJOB_NOTIFY ∧
    (parse_worker_result wproc_result_init (sample_reply_timeout [])).error_code = 62 ∧
    ∃ tbl ev wp1, sample_worker8.jobs = some tbl ∧
      handle_worker_message sample_reply_timeout 0 sample_worker8 [] = some (wp1, ev, false) ∧
      wp1 = { sample_worker8 with
        jobs := some (tbl.set (Int.tmod (parse_worker_result wproc_result_init
          (sample_reply_timeout [])).job_id sample_worker8.max_jobs).toNat none),
        jobs_running := sample_worker8.jobs_running - 1 } ∧
      jobs_at wp1 (Int.tmod (parse_worker_result wproc_result_init
        (sample_reply_timeout [])).job_id sample_worker8.max_jobs) = some none ∧
      wp1.jobs_running = sample_worker8.jobs_running - 1 ∧
      ∀ i, i ≠ Int.tmod (parse_worker_result wproc_result_init
          (sample_reply_timeout [])).job_id sample_worker8.max_jobs →
        jobs_at wp1 i = jobs_at sample_worker8 i :=
  ⟨by decide, by decide, by decide,
   handle_worker_message_releases sample_reply_timeout 0 sample_worker8 [] sample_notify_job
    (by decide) (by decide) (by decide) (by decide) (by decide)
    ⟨fun h => absurd h (by decide), fun _ => ⟨_, rfl⟩⟩⟩

/-- C9 (evaluation at the failing input): slot 7 of a worker with eight slots
holds the job with id 7; a response names `job_id = 15`. The lookup returns the
job of slot 7, and the handler releases that slot. -/
theorem mismatched_job_id_released :
    (parse_worker_result wproc_result_init (sample_reply_mismatch [])).job_id = 15 ∧
    get_job sample_worker8 15 = some (some sample_notify_job) ∧
    sample_notify_job.id = 7 ∧
    ∃ wp1 ev, handle_worker_message sample_reply_mismatch 0 sample_worker8 []
        = some (wp1, ev, false) ∧
      jobs_at sample_worker8 7 = some (some sample_notify_job) ∧
      jobs_at wp1 7 = some none ∧
      sample_worker8.jobs_running = 1 ∧ wp1.jobs_running = 0 := by
  refine ⟨by decide, by decide, by decide, _, _, rfl, ?_, ?_, ?_, ?_⟩ <;> decide

/-- In the master the end-of-file branch leaves every worker object as it was:
no job table gains a job and no slot of the dead worker is released. -/
theorem handle_worker_eof_master_procs (st st1 : wproc_state) (w : Nat) (ev : List event)
    (h : handle_worker_eof st w true = some (st1, ev)) : st1.procs = st.procs := by
  unfold handle_worker_eof at h
  simp only [wproc_destroy, WPROC_FORCE, Nat.zero_and, and_self, if_true] at h
  repeat' (split at h)
  all_goals first
    | (cases h; done)
    | (cases h; rfl)

/-- C10 (evaluation at the failing input): worker 0 holds jobs in slots 0 and
2 and its socket reports end of file in the master. The handler creates two
jobs with the same type, payload, timeout and command and drops them; worker 0
leaves the global pool; the job table of every worker, the dead one included,
is as before: no job is placed with worker 1 and no slot of worker 0 is
released. -/
theorem eof_jobs_created_but_not_submitted :
    ∃ st1 ev, handle_worker_result sample_dead_state 0 0 [] (fun _ => []) true
        = some (st1, ev, []) ∧
      ev = [event.logit "Socket to worker %s broken, removing" [] [[]],
            event.iobroker_unregister 4,
            event.dropped_job (create_job WPJOB_HOST_EVTHANDLER .null 30 sample_cmd_a),
            event.dropped_job (create_job WPJOB_SVC_EVTHANDLER .null 45 sample_cmd_b)] ∧
      st1.procs = sample_dead_state.procs ∧
      st1.workers = { len := 1, idx := 0, wps := some [some 1, some 1] } ∧
      (st1.procs[1]?).map (fun p => p.jobs) = some (some [none, none, none, none]) ∧
      (st1.procs[0]?).map (fun p => p.jobs)
        = some (some [some sample_job_slot0, none, some sample_job_slot2, none]) ∧
      (st1.procs[0]?).map (fun p => p.jobs_running) = some 2 := by
  refine ⟨_, _, rfl, ?_, ?_, ?_, ?_, ?_, ?_⟩ <;> decide

/-! ## The slot-table invariant along defined runs -/

/-- Filling an empty slot raises the number of occupied slots by one. -/
theorem countP_set_fill (tbl : List (Option worker_job)) (n : Nat) (j : worker_job)
    (h : tbl[n]? = some none) :
    (tbl.set n (some j)).countP Option.isSome = tbl.countP Option.isSome + 1 := by
  induction tbl generalizing n with
  | nil => simp at h
  | cons x xs ih =>
    cases n with
    | zero =>
      simp only [List.getElem?_cons_zero, Option.some.injEq] at h
      subst h
      simp [List.countP_cons]
    | succ m =>
      simp only [List.getElem?_cons_succ] at h
      simp only [List.set_cons_succ, List.countP_cons, ih m h]
      omega

/-- Emptying an occupied slot lowers the number of occupied slots by one. -/
theorem countP_set_release (tbl : List (Option worker_job)) (n : Nat) (j : worker_job)
    (h : tbl[n]? = some (some j)) :
    (tbl.set n none).countP Option.isSome + 1 = tbl.countP Option.isSome := by
  induction tbl generalizing n with
  | nil => simp at h
  | cons x xs ih =>
    cases n with
    | zero =>
      simp only [List.getElem?_cons_zero, Option.some.injEq] at h
      subst h
      simp [List.countP_cons]
    | succ m =>
      simp only [List.getElem?_cons_succ] at h
      simp only [List.set_cons_succ, List.countP_cons, ← ih m h]
      omega

/-- Replacing the job of an occupied slot keeps the number of occupied slots. -/
theorem countP_set_replace (tbl : List (Option worker_job)) (n : Nat) (j j1 : worker_job)
    (h : tbl[n]? = some (some j)) :
    (tbl.set n (some j1)).countP Option.isSome = tbl.countP Option.isSome := by
  induction tbl generalizing n with
  | nil => simp at h
  | cons x xs ih =>
    cases n with
    | zero =>
      simp only [List.getElem?_cons_zero, Option.some.injEq] at h
      subst h
      simp [List.countP_cons]
    | succ m =>
      simp only [List.getElem?_cons_succ] at h
      simp only [List.set_cons_succ, List.countP_cons, ih m h]

/-- The two outcomes of `get_job_id` on a table that satisfies the invariant:
`-1` with the worker unchanged when it is full, else an empty slot `r`. -/
theorem get_job_id_cases (wp : worker_process) (hok : slot_table_ok wp) :
    (wp.jobs_running = wp.max_jobs ∧ get_job_id wp = some (-1, wp)) ∨
    (wp.jobs_running ≠ wp.max_jobs ∧ ∃ r : Int, 0 ≤ r ∧ r < wp.max_jobs ∧
      jobs_at wp r = some none ∧ get_job_id wp = some (r, { wp with job_index := r })) := by
  obtain ⟨tbl, hjobs, hlen, hidx, _, hrun⟩ := hok
  by_cases hfull : wp.jobs_running = wp.max_jobs
  · left
    exact ⟨hfull, by simp [get_job_id, hfull]⟩
  · right
    have hlt : tbl.countP Option.isSome < tbl.length := by
      have hle : tbl.countP Option.isSome ≤ tbl.length := List.countP_le_length _
      have hneq : tbl.countP Option.isSome ≠ tbl.length := by
        intro heq
        apply hfull
        rw [hrun, heq, hlen]
      omega
    have hfree := exists_free_of_count_lt tbl hlt
    have hmax : 0 < wp.max_jobs := by
      rw [← hlen]
      have : 0 < tbl.length := by omega
      exact_mod_cast this
    obtain ⟨k, _, hempty, _, hres⟩ :=
      get_job_id_of_free wp tbl hjobs hlen hmax hidx hfull hfree
    exact ⟨hfull, _, Int.emod_nonneg _ (ne_of_gt hmax), Int.emod_lt_of_pos _ hmax,
      hempty, hres⟩

/-- What a defined slot allocation of `get_worker` does: it runs `get_job_id`
on the worker, stores the job at `id % max_jobs` and replaces the worker. -/
theorem get_worker_place_inv (st st1 : wproc_state) (job job1 : worker_job) (wp r : Option Nat)
    (h : get_worker_place st job wp = some (st1, job1, r)) :
    ∃ w proc id proc1 k proc2, wp = some w ∧ r = some w ∧ st.procs[w]? = some proc ∧
      get_job_id proc = some (id, proc1) ∧ c_mod id proc1.max_jobs = some k ∧
      job1 = { job with id := id, wp := some w } ∧
      jobs_set proc1 k (some job1) = some proc2 ∧
      st1 = { st with procs := st.procs.set w proc2 } := by
  unfold get_worker_place at h
  cases wp with
  | none => simp at h
  | some w =>
    simp only at h
    cases hp : st.procs[w]? with
    | none => simp [hp] at h
    | some proc =>
      simp only [hp] at h
      cases hg : get_job_id proc with
      | none => simp [hg] at h
      | some res =>
        obtain ⟨id, proc1⟩ := res
        simp only [hg] at h
        cases hc : c_mod id proc1.max_jobs with
        | none => simp [hc] at h
        | some k =>
          simp only [hc] at h
          cases hs : jobs_set proc1 k (some { job with id := id, wp := some w }) with
          | none => simp [hs] at h
          | some proc2 =>
            simp only [hs, Option.some.injEq, Prod.mk.injEq] at h
            obtain ⟨h1, h2, h3⟩ := h
            refine ⟨w, proc, id, proc1, k, proc2, rfl, h3.symm, hp, hg, hc, h2.symm, ?_,
              h1.symm⟩
            rw [← h2]; exact hs

/-- A defined `get_worker` either returns no worker and leaves the state, or
runs the slot allocation on a state with the same worker objects. -/
theorem get_worker_inv (st st1 : wproc_state) (job job1 : worker_job) (r : Option Nat)
    (ev : List event) (h : get_worker st job = some (st1, job1, r, ev)) :
    (r = none ∧ st1 = st) ∨
    ∃ st0 job0 wp, st0.procs = st.procs ∧ get_worker_place st0 job0 wp = some (st1, job1, r) := by
  unfold get_worker at h
  simp only at h
  split at h
  · split at h
    · cases h
    · split at h
      · cases h
      · rename_i hplace
        simp only [Option.some.injEq, Prod.mk.injEq] at h
        obtain ⟨h1, h2, h3, _⟩ := h
        subst h1 h2 h3
        refine Or.inr ⟨_, _, _, ?_, hplace⟩
        rfl
  · split at h
    · simp only [Option.some.injEq, Prod.mk.injEq] at h
      exact Or.inl ⟨h.2.2.1.symm, h.1.symm⟩
    · split at h
      · cases h
      · split at h
        · cases h
        · rename_i hplace
          simp only [Option.some.injEq, Prod.mk.injEq] at h
          obtain ⟨h1, h2, h3, _⟩ := h
          subst h1 h2 h3
          refine Or.inr ⟨_, _, _, ?_, hplace⟩
          rfl

/-- Storing a job with id `r` in the empty slot `r` and counting it keeps the
invariant. -/
theorem slot_table_ok_fill (wp : worker_process) (hok : slot_table_ok wp) (r : Int)
    (h0 : 0 ≤ r) (h1 : r < wp.max_jobs) (hempty : jobs_at wp r = some none)
    (job : worker_job) (hid : job.id = r) :
    ∃ wp2, jobs_set { wp with job_index := r } r (some job) = some wp2 ∧
      slot_table_ok { wp2 with jobs_running := wp2.jobs_running + 1,
                               jobs_started := wp2.jobs_started + 1 } := by
  obtain ⟨tbl, hjobs, hlen, _, hids, hrun⟩ := hok
  have hin : r.toNat < tbl.length := by
    have : (r.toNat : Int) < (tbl.length : Int) := by
      rw [Int.toNat_of_nonneg h0, hlen]; exact h1
    exact_mod_cast this
  have hslot : tbl[r.toNat]? = some none := by
    rw [jobs_at_eq wp tbl hjobs r h0] at hempty; exact hempty
  refine ⟨{ wp with job_index := r, jobs := some (tbl.set r.toNat (some job)) },
    by simp [jobs_set, hjobs, h0, hin], tbl.set r.toNat (some job), rfl, ?_, h0, ?_, ?_⟩
  · simp only [List.length_set]; exact hlen
  · intro i j hj
    rw [List.getElem?_set] at hj
    by_cases hir : r.toNat = i
    · simp only [hir, if_true] at hj
      split at hj
      · simp only [Option.some.injEq] at hj
        subst hj
        show Int.tmod job.id wp.max_jobs = i
        rw [hid, Int.tmod_eq_of_lt h0 h1, ← hir, Int.toNat_of_nonneg h0]
      · cases hj
    · simp only [hir, if_false] at hj
      exact hids i j hj
  · show wp.jobs_running + 1 = _
    rw [countP_set_fill tbl r.toNat job hslot, hrun]
    push_cast; rfl

/-- A table of one slot with one occupied slot has its slot 0 occupied. -/
theorem singleton_occupied (tbl : List (Option worker_job)) (h1 : tbl.length = 1)
    (hc : tbl.countP Option.isSome = 1) : ∃ old, tbl[0]? = some (some old) := by
  cases tbl with
  | nil => simp at h1
  | cons x xs =>
    cases x with
    | some o => exact ⟨o, by simp⟩
    | none =>
      cases xs with
      | nil => simp at hc
      | cons y ys => simp at h1

/-- On a full table that satisfies the invariant, the store of a job with id
`-1` at `-1 % max_jobs`, where it is defined, keeps the invariant. -/
theorem slot_table_ok_overwrite (wp wp2 : worker_process) (hok : slot_table_ok wp)
    (hfull : wp.jobs_running = wp.max_jobs) (k : Int) (job : worker_job)
    (hid : job.id = -1) (hk : c_mod (-1) wp.max_jobs = some k)
    (hset : jobs_set wp k (some job) = some wp2) : slot_table_ok wp2 := by
  obtain ⟨tbl, hjobs, hlen, hidx, hids, hrun⟩ := hok
  have hne : wp.max_jobs ≠ 0 := by
    intro h; simp [c_mod, h] at hk
  have hkeq : k = Int.tmod (-1) wp.max_jobs := by
    simp [c_mod, hne] at hk; exact hk.symm
  simp only [jobs_set, hjobs] at hset
  split at hset
  · rename_i hin
    have hmax1 : wp.max_jobs = 1 := by
      have hnn : 0 ≤ wp.max_jobs := by rw [← hlen]; exact Int.natCast_nonneg _
      by_contra h1
      have h2 : 2 ≤ wp.max_jobs := by omega
      rw [hkeq, tmod_neg_one _ h2] at hin
      omega
    have hk0 : k = 0 := by rw [hkeq, hmax1, Int.tmod_one]
    have hlen1 : tbl.length = 1 := by
      have : (tbl.length : Int) = 1 := by rw [hlen, hmax1]
      exact_mod_cast this
    have hcnt : tbl.countP Option.isSome = 1 := by
      have : ((tbl.countP Option.isSome : Nat) : Int) = 1 := by rw [← hrun, hfull, hmax1]
      exact_mod_cast this
    obtain ⟨old, hold⟩ := singleton_occupied tbl hlen1 hcnt
    simp only [Option.some.injEq] at hset
    subst hset
    subst hk0
    refine ⟨tbl.set 0 (some job), rfl, by simp only [List.length_set]; exact hlen, hidx, ?_, ?_⟩
    · intro i j hj
      show Int.tmod j.id wp.max_jobs = i
      rw [List.getElem?_set] at hj
      by_cases hi : 0 = i
      · subst hi
        simp only [if_true, hlen1] at hj
        simp only [Nat.lt_one_iff, if_true, Option.some.injEq] at hj
        subst hj
        rw [hid, hmax1, Int.tmod_one]; rfl
      · simp only [hi, if_false] at hj
        exact hids i j hj
    · show wp.jobs_running = _
      rw [countP_set_replace tbl 0 old job hold]
      exact hrun
  · cases hset

/-- Releasing the job that a lookup returns keeps the invariant. -/
theorem slot_table_ok_release (wp : worker_process) (hok : slot_table_ok wp) (job_id : Int)
    (job : worker_job) (hjob : get_job wp job_id = some (some job)) :
    ∃ wp1, destroy_job wp (some job) = some (wp1, destroy_job_payload job) ∧
      slot_table_ok wp1 := by
  have hne : wp.max_jobs ≠ 0 := by
    intro h0; simp [get_job, c_mod, h0] at hjob
  have hat : jobs_at wp (Int.tmod job_id wp.max_jobs) = some (some job) := by
    simpa [get_job, c_mod, hne] using hjob
  obtain ⟨tbl, hjobs, hlen, hidx, hids, hrun⟩ := hok
  have hk0 : 0 ≤ Int.tmod job_id wp.max_jobs := by
    by_contra hneg
    simp [jobs_at, hjobs, hneg] at hat
  have hslot : tbl[(Int.tmod job_id wp.max_jobs).toNat]? = some (some job) := by
    rw [jobs_at_eq wp tbl hjobs _ hk0] at hat; exact hat
  have hid : Int.tmod job.id wp.max_jobs = Int.tmod job_id wp.max_jobs := by
    rw [hids _ job hslot, Int.toNat_of_nonneg hk0]
  obtain ⟨tbl1, hj1, hdes, _, _⟩ := destroy_job_spec wp job _ hne hid hat
  have htt : tbl1 = tbl := by rw [hjobs] at hj1; exact (Option.some.inj hj1).symm
  subst htt
  refine ⟨_, hdes, tbl1.set (Int.tmod job_id wp.max_jobs).toNat none, rfl,
    by simp only [List.length_set]; exact hlen, hidx, ?_, ?_⟩
  · intro i j hj
    rw [List.getElem?_set] at hj
    by_cases hi : (Int.tmod job_id wp.max_jobs).toNat = i
    · simp only [hi, if_true] at hj
      split at hj <;> cases hj
    · simp only [hi, if_false] at hj
      exact hids i j hj
  · show wp.jobs_running - 1 = _
    have := countP_set_release tbl1 _ job hslot
    rw [hrun, ← this]
    push_cast; ring

/-- A defined submission during which `kvvec_init` succeeds keeps the
invariant on every worker, whether it returns success or `ERROR`. -/
theorem wproc_run_job_preserves (st st2 : wproc_state) (job job2 : worker_job) (rc : Int)
    (ev : List event) (hst : ∀ p ∈ st.procs, slot_table_ok p)
    (h : wproc_run_job st job true = some (st2, job2, rc, ev)) :
    ∀ p ∈ st2.procs, slot_table_ok p := by
  unfold wproc_run_job at h
  cases hg : get_worker st job with
  | none => simp [hg] at h
  | some res =>
    obtain ⟨st1, job1, r, ev1⟩ := res
    rcases get_worker_inv st st1 job job1 r ev1 hg with ⟨hr, hst1⟩ | ⟨st0, job0, wp, hprocs, hplace⟩
    · subst hr
      simp only [hg, Option.some.injEq, Prod.mk.injEq] at h
      rw [← h.1, hst1]; exact hst
    · obtain ⟨w, proc, id, proc1, k, proc2, _, hr, hproc, hgid, hk, hjob1, hset, hst1⟩ :=
        get_worker_place_inv st0 st1 job0 job1 wp r hplace
      subst hr
      rw [hprocs] at hproc hst1
      have hpok : slot_table_ok proc := hst proc (List.getElem?_mem hproc)
      have hid1 : job1.id = id := by rw [hjob1]
      have hwlt : w < st.procs.length := by
        by_contra hge
        rw [List.getElem?_eq_none (Nat.le_of_not_lt hge)] at hproc
        cases hproc
      simp only [hg] at h
      rcases get_job_id_cases proc hpok with ⟨hfull, hres⟩ | ⟨_, r0, h0, h1, hempty, hres⟩
      · rw [hres] at hgid
        simp only [Option.some.injEq, Prod.mk.injEq] at hgid
        obtain ⟨hidm, hp1⟩ := hgid
        subst hp1
        have hneg : job1.id < 0 := by rw [hid1, ← hidm]; decide
        rw [if_pos hneg] at h
        simp only [Option.some.injEq, Prod.mk.injEq] at h
        rw [← h.1, hst1]
        intro p hp
        rcases List.mem_or_eq_of_mem_set hp with hp | hp
        · exact hst p hp
        · rw [hp]
          rw [← hidm] at hk
          exact slot_table_ok_overwrite proc proc2 hpok hfull k job1
            (by rw [hid1, ← hidm]) hk hset
      · rw [hres] at hgid
        simp only [Option.some.injEq, Prod.mk.injEq] at hgid
        obtain ⟨hidm, hp1⟩ := hgid
        subst hp1
        subst hidm
        have hnn : ¬ job1.id < 0 := by rw [hid1]; omega
        have hkr : k = r0 := by
          have hne : proc.max_jobs ≠ 0 := by omega
          simp only [c_mod, hne, if_false, Option.some.injEq] at hk
          rw [← hk]; exact Int.tmod_eq_of_lt h0 h1
        subst hkr
        obtain ⟨wp2, hset2, hok2⟩ := slot_table_ok_fill proc hpok k h0 h1 hempty job1 hid1
        rw [hset] at hset2
        have hpp : proc2 = wp2 := Option.some.inj hset2
        subst hpp
        have hget : st1.procs[w]? = some proc2 := by
          rw [hst1]; exact List.getElem?_set_self hwlt
        rw [if_neg hnn] at h
        simp only [Bool.not_true, Bool.false_eq_true, if_false, hget, Option.some.injEq,
          Prod.mk.injEq] at h
        rw [← h.1]
        show ∀ p ∈ (st1.procs.set w _), slot_table_ok p
        rw [hst1]
        simp only [List.set_set]
        intro p hp
        rcases List.mem_or_eq_of_mem_set hp with hp | hp
        · exact hst p hp
        · rw [hp]; exact hok2

/-- A defined processing of one message keeps the invariant of the worker. -/
theorem handle_worker_message_preserves (buf2kvvec : List Char → List key_value) (w : Nat)
    (wp wp1 : worker_process) (buf : List Char) (ev : List event) (b : Bool)
    (hok : slot_table_ok wp)
    (h : handle_worker_message buf2kvvec w wp buf = some (wp1, ev, b)) :
    slot_table_ok wp1 := by
  unfold handle_worker_message at h
  split at h
  · simp only [Option.some.injEq, Prod.mk.injEq] at h
    rw [← h.1]; exact hok
  · split at h
    · simp only [Option.some.injEq, Prod.mk.injEq] at h
      rw [← h.1]; exact hok
    · simp only at h
      split at h
      · cases h
      · simp only [Option.some.injEq, Prod.mk.injEq] at h
        rw [← h.1]; exact hok
      · rename_i job hjob
        split at h
        · simp only [Option.some.injEq, Prod.mk.injEq] at h
          rw [← h.1]; exact hok
        · split at h
          · cases h
          · obtain ⟨wp2, hdes, hok2⟩ := slot_table_ok_release wp hok _ job hjob
            rw [hdes] at h
            simp only [Option.some.injEq, Prod.mk.injEq] at h
            rw [← h.1]; exact hok2

/-- A defined drain of the buffered messages keeps the invariant. -/
theorem handle_worker_drain_preserves (buf2kvvec : List Char → List key_value) (w : Nat) :
    ∀ (msgs left : List (List Char)) (wp wp1 : worker_process) (ev : List event),
      slot_table_ok wp →
      handle_worker_drain buf2kvvec w wp msgs = some (wp1, ev, left) → slot_table_ok wp1 := by
  intro msgs
  induction msgs with
  | nil =>
    intro left wp wp1 ev hok h
    simp only [handle_worker_drain, Option.some.injEq, Prod.mk.injEq] at h
    rw [← h.1]; exact hok
  | cons buf rest ih =>
    intro left wp wp1 ev hok h
    simp only [handle_worker_drain] at h
    cases hm : handle_worker_message buf2kvvec w wp buf with
    | none => simp [hm] at h
    | some res =>
      obtain ⟨wpa, eva, b⟩ := res
      have hoka := handle_worker_message_preserves buf2kvvec w wp wpa buf eva b hok hm
      cases b with
      | true =>
        simp only [hm, Option.some.injEq, Prod.mk.injEq] at h
        rw [← h.1]; exact hoka
      | false =>
        simp only [hm] at h
        cases hd : handle_worker_drain buf2kvvec w wpa rest with
        | none => simp [hd] at h
        | some res2 =>
          obtain ⟨wpb, evb, leftb⟩ := res2
          simp only [hd, Option.some.injEq, Prod.mk.injEq] at h
          rw [← h.1]
          exact ih leftb wpa wpb evb hoka hd

/-- A registration with at least one usable descriptor keeps the invariant:
the new worker has `max_jobs` empty slots and `jobs_running = 0`. -/
theorem register_worker_preserves (st st1 : wproc_state) (sd : Int)
    (info : Option (List key_value)) (fds rc : Int) (ev : List event) (hfds : 1 ≤ fds)
    (hst : ∀ p ∈ st.procs, slot_table_ok p)
    (h : register_worker st sd true info fds = some (st1, rc, ev)) :
    ∀ p ∈ st1.procs, slot_table_ok p := by
  have hmax : 0 ≤ Int.tdiv (fds - 1) 2 := Int.tdiv_nonneg (by omega) (by decide)
  have hnew : ∀ name : Option (List Char), slot_table_ok
      { source_name := name, sd := sd, pid := 0, max_jobs := Int.tdiv (fds - 1) 2,
        jobs_running := 0, jobs_started := 0, job_index := 0,
        ioc := some (1 * 1024 * 1024),
        jobs := if 0 ≤ Int.tdiv (fds - 1) 2 then
          some (List.replicate (Int.tdiv (fds - 1) 2).toNat none) else none } := by
    intro name
    refine ⟨List.replicate (Int.tdiv (fds - 1) 2).toNat none, by simp [hmax], ?_, le_refl _,
      ?_, ?_⟩
    · simp only [List.length_replicate]
      exact Int.toNat_of_nonneg hmax
    · intro i j hj
      rw [List.getElem?_replicate] at hj
      split at hj <;> cases hj
    · simp [List.countP_replicate]
  unfold register_worker at h
  simp only [Bool.not_true, Bool.false_eq_true, if_false] at h
  cases info with
  | none =>
    simp only [Option.some.injEq, Prod.mk.injEq] at h
    rw [← h.1]; exact hst
  | some kvs =>
    simp only at h
    split at h
    · cases h
    · rename_i name sp g _
      cases g with
      | true =>
        simp only [if_true] at h
        split at h
        · cases h
        · simp only [Option.some.injEq, Prod.mk.injEq] at h
          rw [← h.1]
          intro p hp
          rcases List.mem_append.mp hp with hp | hp
          · exact hst p hp
          · rw [List.mem_singleton.mp hp]; exact hnew name
      | false =>
        simp only [Bool.false_eq_true, if_false, Option.some.injEq, Prod.mk.injEq] at h
        rw [← h.1]
        intro p hp
        rcases List.mem_append.mp hp with hp | hp
        · exact hst p hp
        · rw [List.mem_singleton.mp hp]; exact hnew name

/-- A defined run of the readiness callback in the master keeps the invariant
on every worker. -/
theorem handle_worker_result_preserves (st st1 : wproc_state) (w : Nat) (ret : Int)
    (msgs left : List (List Char)) (buf2kvvec : List Char → List key_value) (ev : List event)
    (hst : ∀ p ∈ st.procs, slot_table_ok p)
    (h : handle_worker_result st w ret msgs buf2kvvec true = some (st1, ev, left)) :
    ∀ p ∈ st1.procs, slot_table_ok p := by
  unfold handle_worker_result at h
  cases hp : st.procs[w]? with
  | none => simp [hp] at h
  | some proc =>
    simp only [hp] at h
    split at h
    · simp only [Option.some.injEq, Prod.mk.injEq] at h
      rw [← h.1]; exact hst
    · split at h
      · cases he : handle_worker_eof st w true with
        | none => simp [he] at h
        | some res =>
          obtain ⟨st2, ev2⟩ := res
          simp only [he, Option.some.injEq, Prod.mk.injEq] at h
          rw [← h.1, handle_worker_eof_master_procs st st2 w ev2 he]
          exact hst
      · cases hd : handle_worker_drain buf2kvvec w proc msgs with
        | none => simp [hd] at h
        | some res =>
          obtain ⟨proc1, ev1, left1⟩ := res
          simp only [hd, Option.some.injEq, Prod.mk.injEq] at h
          rw [← h.1]
          intro p hmem
          rcases List.mem_or_eq_of_mem_set hmem with hmem | hmem
          · exact hst p hmem
          · rw [hmem]
            exact handle_worker_drain_preserves buf2kvvec w msgs left1 proc proc1 ev1
              (hst proc (List.getElem?_mem hp)) hd

/-- The slot-table invariant holds for every worker in every state reached by
registrations, by submissions during which `kvvec_init` succeeds (whether they
return success or `ERROR`) and by result handling, as long as the runs are
defined. -/
theorem reachable_slot_table_ok (st : wproc_state) (h : reachable st) :
    ∀ p ∈ st.procs, slot_table_ok p := by
  induction h with
  | init => intro p hp; simp [empty_state] at hp
  | register st st1 sd info fds rc ev _ hfds hreg ih =>
    exact register_worker_preserves st st1 sd info fds rc ev hfds ih hreg
  | submit st st1 job job1 rc ev _ hrun ih =>
    exact wproc_run_job_preserves st st1 job job1 rc ev ih hrun
  | result st st1 w ret msgs left buf2kvvec ev _ hres ih =>
    exact handle_worker_result_preserves st st1 w ret msgs left buf2kvvec ev ih hres

/-! ## Worker death, destruction and the command buffer -/

/-- C11 (evaluation at the failing input): worker 0 is the only entry of the
global pool and one of two entries of a specialized pool; its socket reports
end of file. It leaves the specialized pool, but the fields of the global pool
are not reset: `len` stays 1 and entry 0 of the array, which has been handed
to `free`, still names worker 0, so that the next selection from the global
pool, which reads that array, returns worker 0. -/
theorem eof_last_global_worker_stays :
    ∃ st1 ev, handle_worker_result sample_last_global_state 0 0 [] (fun _ => []) true
        = some (st1, ev, []) ∧
      st1.workers = { len := 1, idx := 0, wps := some [some 0] } ∧
      wps_at st1.workers 0 = some (some 0) ∧
      st1.specialized_workers
        = [("/p/check_x".toList, { len := 1, idx := 0, wps := some [some 1, some 1] })] ∧
      ∃ st2 job2 ev2, get_worker st1 sample_job_bar = some (st2, job2, some 0, ev2) := by
  refine ⟨_, _, rfl, ?_, ?_, ?_, _, _, _, rfl⟩ <;> decide

/-- C12 (evaluation at the failing input): a worker holds jobs in slots 0 and
2 (`jobs_running = 2`) and is destroyed with `WPROC_FORCE` in the master. The
loop releases slot 0 and stops: slot 2 is still occupied and `jobs_running` is
1 when the table pointer is cleared and the handle is released. -/
theorem forced_destroy_leaves_a_job :
    ∃ wp1 ev, wproc_destroy_jobs sample_worker_two_jobs.max_jobs.toNat 0 0
        { sample_worker_two_jobs with ioc := none } = some (wp1, ev) ∧
      jobs_at wp1 0 = some none ∧
      jobs_at wp1 2 = some (some sample_job_slot2) ∧
      wp1.jobs_running = 1 ∧
      wproc_destroy (some sample_worker_two_jobs) 0 WPROC_FORCE true
        = some (some { wp1 with jobs := none }, 0,
            [event.iocache_destroy 0, event.kill 1234 SIGKILL, event.iobroker_close 4]) := by
  refine ⟨_, _, rfl, ?_, ?_, ?_, ?_⟩ <;> decide

/-- C13: for every worker handle and every flags value without the
`WPROC_FORCE` bit, `wproc_destroy` called from the master returns 0, releases
nothing of the handle (read buffer, job table, counters and socket stay as
they are) and makes no call: no signal is sent and the socket is not closed. -/
theorem wproc_destroy_master_retains (wp : Option worker_process) (w flags : Nat)
    (hflags : flags &&& WPROC_FORCE = 0) :
    wproc_destroy wp w flags true = some (none, 0, []) := by
  cases wp with
  | none => rfl
  | some proc => simp [wproc_destroy, hflags]

theorem wproc_destroy_master_retains_witness :
    2 &&& WPROC_FORCE = 0 ∧
    wproc_destroy (some sample_worker_two_jobs) 0 2 true = some (none, 0, []) :=
  ⟨by decide, wproc_destroy_master_retains (some sample_worker_two_jobs) 0 2 (by decide)⟩

/-- When `get_worker` returns a worker, the command of the job is the one it
was given. -/
theorem get_worker_keeps_command (st st1 : wproc_state) (job job1 : worker_job) (w : Nat)
    (ev : List event) (h : get_worker st job = some (st1, job1, some w, ev)) :
    job1.command = job.command := by
  unfold get_worker at h
  simp only [restore_split] at h
  split at h
  · split at h
    · cases h
    · split at h
      · cases h
      · rename_i hplace
        simp only [Option.some.injEq, Prod.mk.injEq] at h
        obtain ⟨_, _, _, _, _, _, _, _, _, _, _, hjob, _, _⟩ :=
          get_worker_place_inv _ _ _ _ _ _ hplace
        rw [← h.2.1, hjob]
  · split at h
    · simp only [Option.some.injEq, Prod.mk.injEq] at h
      exact absurd h.2.2.1 (by simp)
    · split at h
      · cases h
      · split at h
        · cases h
        · rename_i hplace
          simp only [Option.some.injEq, Prod.mk.injEq] at h
          obtain ⟨_, _, _, _, _, _, _, _, _, _, _, hjob, _, _⟩ :=
            get_worker_place_inv _ _ _ _ _ _ hplace
          rw [← h.2.1, hjob]

/-- C20 (evaluation at the failing input): with no specialized entry and no
global pool, `get_worker` returns no worker and leaves the command cut at its
first blank: the buffer holds a terminator where the blank was, so the command
string reads `/p/handler_a`. -/
theorem get_worker_null_cuts_command :
    ∃ job1, get_worker empty_state
        (create_job WPJOB_GLOBAL_HOST_EVTHANDLER .null 30 "/p/handler_a -x".toList)
        = some (empty_state, job1, none, []) ∧
      job1.command = "/p/handler_a".toList ++ NUL :: "-x".toList ∧
      cstr job1.command = "/p/handler_a".toList ∧
      cstr job1.command ≠ "/p/handler_a -x".toList := by
  refine ⟨_, rfl, ?_, ?_, ?_⟩ <;> decide

/-! ## Parsing of time values -/

/-- Reading digits from an accumulator continues the decimal value. -/
theorem read_digits_all (s : List Char) (hs : ∀ c ∈ s, isdigit c = true) :
    ∀ (acc : Nat) (rest : List Char), (∀ c, rest.head? = some c → isdigit c = false) →
      read_digits (s ++ rest) acc
        = (s.foldl (fun a c => a * 10 + (c.toNat - 48)) acc, rest) := by
  induction s with
  | nil =>
    intro acc rest hrest
    cases rest with
    | nil => rfl
    | cons c cs =>
      have := hrest c rfl
      simp [read_digits, this]
  | cons d ds ih =>
    intro acc rest hrest
    have hd : isdigit d = true := hs d (List.mem_cons_self _ _)
    have hds : ∀ c ∈ ds, isdigit c = true := fun c hc => hs c (List.mem_cons_of_mem _ hc)
    simp only [List.cons_append, read_digits, hd, if_true, List.foldl_cons]
    exact ih hds _ rest hrest

/-- A digit is neither white space nor a sign. -/
theorem isdigit_not_space (c : Char) (h : isdigit c = true) :
    isspace c = false ∧ c.toNat ≠ 45 ∧ c.toNat ≠ 43 := by
  simp only [isdigit, Bool.and_eq_true, decide_eq_true_eq] at h
  refine ⟨?_, by omega, by omega⟩
  simp only [isspace, Bool.or_eq_false_iff, decide_eq_false_iff_not, Bool.and_eq_false_iff]
  constructor
  · omega
  · right; omega

/-- The conversion of a string that starts with a non-empty run of digits. -/
theorem scan_number_digits (s rest : List Char) (hne : s ≠ [])
    (hs : ∀ c ∈ s, isdigit c = true)
    (hrest : ∀ c, rest.head? = some c → isdigit c = false) :
    scan_number (s ++ rest) = some (false, decimal_value s, rest) := by
  cases s with
  | nil => exact absurd rfl hne
  | cons d ds =>
    have hd : isdigit d = true := hs d (List.mem_cons_self _ _)
    obtain ⟨hsp, h45, h43⟩ := isdigit_not_space d hd
    have hrd := read_digits_all (d :: ds) hs 0 rest hrest
    simp only [List.cons_append] at hrd
    simp only [scan_number, List.cons_append, List.dropWhile_cons, hsp, Bool.false_eq_true,
      if_false, h45, h43, hd, if_true, hrd]
    rfl

/-- A value below `2^63` is its own reading as a signed 64-bit integer. -/
theorem wrap_signed_small (x : Nat) (h : x < 2 ^ 63) : wrap_signed 64 (x : Int) = x := by
  have h63 : (2 : Nat) ^ 63 = 9223372036854775808 := by norm_num
  rw [h63] at h
  simp only [wrap_signed]
  norm_num
  omega

/-- The conversion `strtoul` of a run of digits whose value fits. -/
theorem strtoul_digits (s rest : List Char) (hne : s ≠ [])
    (hs : ∀ c ∈ s, isdigit c = true)
    (hrest : ∀ c, rest.head? = some c → isdigit c = false)
    (hv : decimal_value s < 2 ^ 63) :
    strtoul (s ++ rest) = some (decimal_value s, rest) := by
  have h64 : ¬ 2 ^ 64 ≤ decimal_value s := by
    have : (2 : Nat) ^ 63 < 2 ^ 64 := by norm_num
    omega
  simp only [strtoul, scan_number_digits s rest hne hs hrest]
  rw [if_neg h64]
  rfl

/-- C14 (counterexample): `"5.25"` parses to 5 seconds and 25 microseconds, not
250000; and `"7"` leaves the microseconds that the timeval held before. -/
theorem str2timeval_fraction_is_integer :
    str2timeval "5.25".toList ⟨0, 0⟩ = (0, ⟨5, 25⟩) ∧
    str2timeval "5,25".toList ⟨0, 0⟩ = (0, ⟨5, 25⟩) ∧
    str2timeval "7".toList ⟨3, 9⟩ = (0, ⟨7, 9⟩) := by
  decide

/-- C14 (amended): for every non-empty string of decimal digits `s`, every
string of decimal digits `f` (both with values below `2^63`) and every prior
content of the timeval, `str2timeval` applied to `s`, a `.` or a `,`, and `f`
returns 0 and sets `tv_sec` to the value of `s` and `tv_usec` to the value of
`f` read as a decimal integer, a count of microseconds; applied to `s` alone it
returns 0 and sets `tv_sec` to the value of `s`, and `tv_usec` keeps the value
it held before, so it is 0 when the timeval held 0 microseconds. -/
theorem str2timeval_digits (s f : List Char) (sep : Char) (tv : timeval)
    (hne : s ≠ []) (hs : ∀ c ∈ s, isdigit c = true) (hf : ∀ c ∈ f, isdigit c = true)
    (hsep : sep.toNat = 46 ∨ sep.toNat = 44)
    (hsv : decimal_value s < 2 ^ 63) (hfv : decimal_value f < 2 ^ 63) :
    str2timeval (s ++ sep :: f) tv = (0, ⟨decimal_value s, decimal_value f⟩) ∧
    str2timeval s tv = (0, ⟨decimal_value s, tv.tv_usec⟩) ∧
    (tv.tv_usec = 0 → str2timeval s tv = (0, ⟨decimal_value s, 0⟩)) := by
  have hsepd : isdigit sep = false := by
    simp only [isdigit, Bool.and_eq_false_iff, decide_eq_false_iff_not]
    rcases hsep with h | h <;> (left; omega)
  have hplain : str2timeval s tv = (0, ⟨decimal_value s, tv.tv_usec⟩) := by
    have h1 := strtoul_digits s [] hne hs (fun c hc => by simp at hc) hsv
    rw [List.append_nil] at h1
    simp only [str2timeval, h1]
    rw [wrap_signed_small _ hsv]
  refine ⟨?_, hplain, ?_⟩
  · have h1 := strtoul_digits s (sep :: f) hne hs
      (fun c hc => by simp only [List.head?_cons, Option.some.injEq] at hc; rw [← hc]; exact hsepd)
      hsv
    have h2 : ((strtoul f).map Prod.fst).getD 0 = decimal_value f := by
      cases f with
      | nil => rfl
      | cons d ds =>
        have := strtoul_digits (d :: ds) [] (by simp) hf (fun c hc => by simp at hc) hfv
        rw [List.append_nil] at this
        rw [this]; rfl
    simp only [str2timeval, h1, hsep, if_true, h2]
    rw [wrap_signed_small _ hsv, wrap_signed_small _ hfv]
  · intro h0
    rw [hplain, h0]

theorem str2timeval_digits_witness :
    str2timeval ("5".toList ++ Char.ofNat 46 :: "250000".toList) ⟨3, 9⟩
      = (0, ⟨decimal_value "5".toList, decimal_value "250000".toList⟩) ∧
    str2timeval "7".toList ⟨3, 9⟩
      = (0, ⟨decimal_value "7".toList, (⟨3, 9⟩ : timeval).tv_usec⟩) ∧
    ((⟨3, 0⟩ : timeval).tv_usec = 0 →
      str2timeval "5".toList ⟨3, 0⟩ = (0, ⟨decimal_value "5".toList, 0⟩)) ∧
    decimal_value "250000".toList = 250000 ∧ decimal_value "7".toList = 7 :=
  ⟨(str2timeval_digits "5".toList "250000".toList (Char.ofNat 46) ⟨3, 9⟩ (by decide)
      (by decide) (by decide) (by decide) (by decide) (by decide)).1,
   (str2timeval_digits "7".toList [] (Char.ofNat 46) ⟨3, 9⟩ (by decide)
      (by decide) (by decide) (by decide) (by decide) (by decide)).2.1,
   (str2timeval_digits "5".toList "250000".toList (Char.ofNat 46) ⟨3, 0⟩ (by decide)
      (by decide) (by decide) (by decide) (by decide) (by decide)).2.2,
   by decide, by decide⟩

/-- C15: for every string on which the numeric conversion consumes no
character (`strtoul` converts nothing) and every prior content of the timeval,
`str2timeval` returns `-1` and leaves `tv_sec = 0` and `tv_usec = 0`; and it
returns `-1` only for such strings, its other return value being 0. -/
theorem str2timeval_fails_iff (str : List Char) (tv : timeval) :
    (strtoul str = none → str2timeval str tv = (-1, ⟨0, 0⟩)) ∧
    ((str2timeval str tv).1 = -1 → strtoul str = none) ∧
    ((str2timeval str tv).1 = -1 ∨ (str2timeval str tv).1 = 0) := by
  cases h : strtoul str with
  | none => simp [str2timeval, h]
  | some r =>
    obtain ⟨sec, ptr⟩ := r
    refine ⟨fun hn => ?_, ?_, ?_⟩
    · cases hn
    · intro h1
      simp only [str2timeval, h] at h1
      split at h1
      · split at h1 <;> simp at h1
      · simp at h1
    · right
      simp only [str2timeval, h]
      split
      · split <;> rfl
      · rfl

theorem str2timeval_fails_iff_witness :
    strtoul "abc".toList = none ∧ strtoul [] = none ∧
    str2timeval "abc".toList ⟨3, 9⟩ = (-1, ⟨0, 0⟩) ∧
    str2timeval [] ⟨3, 9⟩ = (-1, ⟨0, 0⟩) :=
  ⟨by decide, by decide,
   (str2timeval_fails_iff "abc".toList ⟨3, 9⟩).1 (by decide),
   (str2timeval_fails_iff [] ⟨3, 9⟩).1 (by decide)⟩

/-! ## Parsing of worker results -/

/-- A pair whose key is not `exited_ok` leaves a cleared `exited_ok` cleared. -/
theorem parse_worker_result_pair_keeps (wpres : wproc_result) (kv : key_value)
    (hkey : wp_phash kv.key ≠ some wpres_code.WPRES_exited_ok) (h0 : wpres.exited_ok = 0) :
    (parse_worker_result_pair wpres kv).exited_ok = 0 := by
  unfold parse_worker_result_pair
  cases hc : wp_phash kv.key with
  | none => exact h0
  | some c =>
    cases c <;> first
      | exact h0
      | rfl
      | exact absurd hc hkey

/-- Pairs none of which has the key `exited_ok` leave a cleared `exited_ok`
cleared. -/
theorem parse_worker_result_keeps (post : List key_value)
    (hpost : ∀ p ∈ post, wp_phash p.key ≠ some wpres_code.WPRES_exited_ok) :
    ∀ wpres : wproc_result, wpres.exited_ok = 0 →
      (parse_worker_result wpres post).exited_ok = 0 := by
  induction post with
  | nil => intro wpres h0; exact h0
  | cons p ps ih =>
    intro wpres h0
    simp only [parse_worker_result, List.foldl_cons]
    exact ih (fun q hq => hpost q (List.mem_cons_of_mem _ hq)) _
      (parse_worker_result_pair_keeps wpres p (hpost p (List.mem_cons_self _ _)) h0)

/-- C16 (counterexample): in the vector `job_id=3, error_code=62, exited_ok=1`
the pair `exited_ok=1` comes after the error key and wins: the result parsed
from a zeroed result has `exited_ok = 1`. -/
theorem exited_ok_after_error_wins :
    (parse_worker_result wproc_result_zero sample_reply_error_then_ok).exited_ok = 1 ∧
    (parse_worker_result wproc_result_zero sample_reply_error_then_ok).error_code = 62 := by
  decide

/-- C16 (amended): for every key/value vector that contains an `error_msg` or
an `error_code` pair after which no `exited_ok` pair follows, whatever pairs
come before it (`exited_ok` pairs included) and whatever result the parse
starts from, the result of `parse_worker_result` has `exited_ok = 0`. -/
theorem error_keys_clear_exited_ok (wpres : wproc_result) (pre post : List key_value)
    (kv : key_value)
    (hkv : wp_phash kv.key = some wpres_code.WPRES_error_msg ∨
      wp_phash kv.key = some wpres_code.WPRES_error_code)
    (hpost : ∀ p ∈ post, wp_phash p.key ≠ some wpres_code.WPRES_exited_ok) :
    (parse_worker_result wpres (pre ++ kv :: post)).exited_ok = 0 := by
  have hsplit : parse_worker_result wpres (pre ++ kv :: post)
      = parse_worker_result
          (parse_worker_result_pair (parse_worker_result wpres pre) kv) post := by
    simp [parse_worker_result, List.foldl_append]
  rw [hsplit]
  apply parse_worker_result_keeps post hpost
  rcases hkv with h | h <;> simp [parse_worker_result_pair, h]

theorem error_keys_clear_exited_ok_witness :
    sample_reply_ok_then_error
      = [⟨"exited_ok".toList, "1".toList⟩] ++ ⟨"error_msg".toList, "timed out".toList⟩
          :: [⟨"outstd".toList, "x".toList⟩] ∧
    (parse_worker_result wproc_result_zero
      ([⟨"exited_ok".toList, "1".toList⟩] ++ ⟨"error_msg".toList, "timed out".toList⟩
          :: [⟨"outstd".toList, "x".toList⟩])).exited_ok = 0 :=
  ⟨rfl, error_keys_clear_exited_ok wproc_result_zero [⟨"exited_ok".toList, "1".toList⟩]
    [⟨"outstd".toList, "x".toList⟩] ⟨"error_msg".toList, "timed out".toList⟩
    (Or.inl (by decide)) (by decide)⟩

/-- The low `k` bits of an integer in two's complement are its remainder by
`2^k`. -/
theorem int_land_mask (x : Int) (k : Nat) :
    Int.land x ((2 ^ k - 1 : Nat) : Int) = x % ((2 ^ k : Nat) : Int) := by
  have hpos : 0 < 2 ^ k := Nat.two_pow_pos k
  cases x with
  | ofNat a =>
    show Int.ofNat (a &&& (2 ^ k - 1)) = Int.ofNat a % ((2 ^ k : Nat) : Int)
    rw [Nat.and_pow_two_sub_one_eq_mod]
    rfl
  | negSucc a =>
    show Int.ofNat (Nat.ldiff (2 ^ k - 1) a) = Int.negSucc a % ((2 ^ k : Nat) : Int)
    have hl : Nat.ldiff (2 ^ k - 1) a = 2 ^ k - (a % 2 ^ k + 1) := by
      apply Nat.eq_of_testBit_eq
      intro i
      rw [Nat.testBit_ldiff, Nat.testBit_two_pow_sub_one,
        Nat.testBit_two_pow_sub_succ (Nat.mod_lt _ hpos), Nat.testBit_mod_two_pow]
      cases decide (i < k) <;> simp
    rw [hl, Int.negSucc_emod a (by exact_mod_cast hpos)]
    have hlt : a % 2 ^ k < 2 ^ k := Nat.mod_lt _ hpos
    rw [Int.ofNat_eq_coe, Nat.cast_sub (by omega)]
    push_cast
    ring

/-- C17: for every integer `wait_status`, `handle_worker_check` sets the return
code of the check result to `(wait_status >> 8) & 0xff` when
`(wait_status & 0x7f) = 0`, and to `STATE_UNKNOWN` otherwise; in the first case
the value lies in `0..255`, and `wait_status = 0` yields 0. -/
theorem handle_worker_check_return_code (wpres : wproc_result) (w : Nat) (cr : check_result) :
    (handle_worker_check wpres w cr).2.1.return_code =
      (if Int.land wpres.wait_status 127 = 0 then
        Int.land (wpres.wait_status >>> (8 : Nat)) 255
       else STATE_UNKNOWN) ∧
    (Int.land wpres.wait_status 127 = 0 →
      0 ≤ (handle_worker_check wpres w cr).2.1.return_code ∧
      (handle_worker_check wpres w cr).2.1.return_code ≤ 255) ∧
    (wpres.wait_status = 0 → (handle_worker_check wpres w cr).2.1.return_code = 0) := by
  have h7 : Int.land wpres.wait_status 127 = wpres.wait_status % 128 :=
    int_land_mask wpres.wait_status 7
  have h8 : Int.land (wpres.wait_status >>> (8 : Nat)) 255
      = (wpres.wait_status / 256) % 256 := by
    rw [Int.shiftRight_eq_div_pow]
    exact int_land_mask _ 8
  have hrc : (handle_worker_check wpres w cr).2.1.return_code =
      if wpres.wait_status % 128 = 0 then (wpres.wait_status / 256) % 256
      else STATE_UNKNOWN := by
    simp [handle_worker_check, WIFEXITED, WEXITSTATUS]
  refine ⟨?_, ?_, ?_⟩
  · rw [hrc, h7, h8]
  · intro h
    rw [h7] at h
    rw [hrc, if_pos h]
    exact ⟨Int.emod_nonneg _ (by decide), by
      have := Int.emod_lt_of_pos (wpres.wait_status / 256) (show (0 : Int) < 256 by decide)
      omega⟩
  · intro h
    rw [hrc, h]
    rfl

/-! ## The drain loop and type mismatches -/

/-- Frames handled without `break` are a prefix that the drain loop passes
through: draining them followed by more frames continues from the worker they
lead to. -/
theorem handle_worker_drain_append (buf2kvvec : List Char → List key_value) (w : Nat) :
    ∀ (pre : List (List Char)) (wp wp1 : worker_process) (ev1 : List event),
      drained buf2kvvec w wp pre wp1 ev1 →
      handle_worker_drain buf2kvvec w wp pre = some (wp1, ev1, []) ∧
      ∀ rest, handle_worker_drain buf2kvvec w wp (pre ++ rest) =
        match handle_worker_drain buf2kvvec w wp1 rest with
        | none => none
        | some (wp2, ev2, left) => some (wp2, ev1 ++ ev2, left) := by
  intro pre
  induction pre with
  | nil =>
    intro wp wp1 ev1 h
    obtain ⟨h1, h2⟩ := h
    subst h1 h2
    refine ⟨rfl, fun rest => ?_⟩
    simp only [List.nil_append]
    cases handle_worker_drain buf2kvvec w wp1 rest with
    | none => rfl
    | some r => obtain ⟨a, b, c⟩ := r; simp
  | cons buf bs ih =>
    intro wp wp1 ev1 h
    obtain ⟨wpa, eva, evb, hmsg, hrest, hev⟩ := h
    obtain ⟨hd, happ⟩ := ih wpa wp1 evb hrest
    subst hev
    refine ⟨by simp only [handle_worker_drain, hmsg, hd], fun rest => ?_⟩
    rw [List.cons_append]
    simp only [handle_worker_drain, hmsg]
    rw [happ rest]
    cases handle_worker_drain buf2kvvec w wp1 rest with
    | none => rfl
    | some r => obtain ⟨a, b, c⟩ := r; simp

/-- C19: for every worker and every sequence of complete frames buffered for
one call of `handle_worker_result`, if the frames before frame `k` are handled
without leaving the loop and frame `k` is a parsed frame (not a log message)
whose `job_id` selects an occupied slot whose job type differs from the type of
the frame, then the call ends at frame `k`: the worker is exactly as the frames
before `k` leave it (so the slot that frame `k` selects still holds its job),
the frames before `k` are handled as in a read that holds only them, and the
frames after `k` are left unread in the cache. -/
theorem type_mismatch_stops_drain (buf2kvvec : List Char → List key_value)
    (st : wproc_state) (w : Nat) (ret : Int) (is_master : Bool)
    (wp wp1 : worker_process) (pre post : List (List Char)) (k : List Char)
    (ev1 : List event) (job : worker_job)
    (hw : st.procs[w]? = some wp) (hret : 0 < ret)
    (hpre : drained buf2kvvec w wp pre wp1 ev1)
    (hnolog : ¬ (k.length > 5 ∧ k.take 4 = "log=".toList))
    (hpairs : buf2kvvec k ≠ [])
    (hjob : get_job wp1 (parse_worker_result wproc_result_init (buf2kvvec k)).job_id
      = some (some job))
    (htype : (parse_worker_result wproc_result_init (buf2kvvec k)).type ≠ job.type) :
    ∃ evk,
      handle_worker_message buf2kvvec w wp1 k = some (wp1, evk, true) ∧
      handle_worker_drain buf2kvvec w wp pre = some (wp1, ev1, []) ∧
      handle_worker_drain buf2kvvec w wp (pre ++ k :: post) = some (wp1, ev1 ++ evk, post) ∧
      handle_worker_result st w ret (pre ++ k :: post) buf2kvvec is_master
        = some ({ st with procs := st.procs.set w wp1 }, ev1 ++ evk, post) ∧
      get_job wp1 (parse_worker_result wproc_result_init (buf2kvvec k)).job_id
        = some (some job) := by
  obtain ⟨hd, happ⟩ := handle_worker_drain_append buf2kvvec w pre wp wp1 ev1 hpre
  have hmsg : handle_worker_message buf2kvvec w wp1 k
      = some (wp1, [event.logit
          "Worker %d claims job %d is type %d, but we think it's type %d\n"
          [wp1.pid, job.id, (parse_worker_result wproc_result_init (buf2kvvec k)).type,
            job.type] []], true) := by
    cases hkv : buf2kvvec k with
    | nil => exact absurd hkv hpairs
    | cons kv kvs =>
      rw [hkv] at hjob htype
      unfold handle_worker_message
      rw [if_neg hnolog, hkv]
      simp only [hjob]
      rw [if_pos htype]
  have hdk : handle_worker_drain buf2kvvec w wp (pre ++ k :: post)
      = some (wp1, ev1 ++ [event.logit
          "Worker %d claims job %d is type %d, but we think it's type %d\n"
          [wp1.pid, job.id, (parse_worker_result wproc_result_init (buf2kvvec k)).type,
            job.type] []], post) := by
    rw [happ (k :: post)]
    simp only [handle_worker_drain, hmsg]
  refine ⟨_, hmsg, hd, hdk, ?_, hjob⟩
  unfold handle_worker_result
  simp only [hw]
  rw [if_neg (by omega), if_neg (by omega)]
  simp only [hdk]

theorem type_mismatch_stops_drain_witness :
    ∃ evk,
      handle_worker_message sample_frames 0
        { sample_worker_two_jobs with
          jobs := some [none, none, some sample_job_slot2, none], jobs_running := 1 }
        "b".toList
        = some ({ sample_worker_two_jobs with
          jobs := some [none, none, some sample_job_slot2, none], jobs_running := 1 },
          evk, true) ∧
      handle_worker_drain sample_frames 0 sample_worker_two_jobs ["a".toList]
        = some ({ sample_worker_two_jobs with
          jobs := some [none, none, some sample_job_slot2, none], jobs_running := 1 },
          [], []) ∧
      handle_worker_drain sample_frames 0 sample_worker_two_jobs
          (["a".toList] ++ "b".toList :: ["a".toList])
        = some ({ sample_worker_two_jobs with
          jobs := some [none, none, some sample_job_slot2, none], jobs_running := 1 },
          [] ++ evk, ["a".toList]) ∧
      handle_worker_result
          { empty_state with procs := [sample_worker_two_jobs] } 0 12
          (["a".toList] ++ "b".toList :: ["a".toList]) sample_frames true
        = some ({ { empty_state with procs := [sample_worker_two_jobs] } with
            procs := [sample_worker_two_jobs].set 0
              { sample_worker_two_jobs with
                jobs := some [none, none, some sample_job_slot2, none], jobs_running := 1 } },
          [] ++ evk, ["a".toList]) ∧
      get_job { sample_worker_two_jobs with
          jobs := some [none, none, some sample_job_slot2, none], jobs_running := 1 }
        (parse_worker_result wproc_result_init (sample_frames "b".toList)).job_id
        = some (some sample_job_slot2) :=
  type_mismatch_stops_drain sample_frames { empty_state with procs := [sample_worker_two_jobs] }
    0 12 true sample_worker_two_jobs
    { sample_worker_two_jobs with
      jobs := some [none, none, some sample_job_slot2, none], jobs_running := 1 }
    ["a".toList] ["a".toList] "b".toList [] sample_job_slot2
    (by decide) (by decide)
    ⟨_, [], [], by decide, ⟨rfl, rfl⟩, rfl⟩
    (by decide) (by decide) (by decide) (by decide)

/-! ## Initial spawn -/

/-- When the spawn and the registration succeed at every position below
`bound`, the spawn loop of `init_workers` runs to its end and keeps the length
of the array. -/
theorem init_workers_spawn_completes (spawn_worker : Nat → Option worker_process)
    (iobroker_register : Nat → Int) (bound : Nat)
    (hspawn : ∀ j, j < bound → ∃ wp, spawn_worker j = some wp)
    (hreg : ∀ j, j < bound → 0 ≤ iobroker_register j) :
    ∀ (n i : Nat) (procs : List worker_process) (wps : List (Option Nat)) (ev : List event),
      i + n ≤ bound →
      ∃ procs1 wps1 ev1,
        init_workers_spawn spawn_worker iobroker_register n i procs wps ev
          = (procs1, wps1, ev1, spawn_exit.completed) ∧ wps1.length = wps.length := by
  intro n
  induction n with
  | zero =>
    intro i procs wps ev _
    exact ⟨procs, wps, ev, rfl, rfl⟩
  | succ n ih =>
    intro i procs wps ev hle
    simp only [init_workers_spawn]
    cases hcell : wps.getD i none with
    | some x =>
      simp only []
      exact ih (i + 1) procs wps ev (by omega)
    | none =>
      obtain ⟨wp, hwp⟩ := hspawn i (by omega)
      have hr : ¬ iobroker_register i < 0 := not_lt.mpr (hreg i (by omega))
      simp only [hwp, hr, if_false]
      have key : ∀ (procs2 : List worker_process) (wps2 : List (Option Nat))
          (ev2 : List event), wps2.length = wps.length →
          ∃ procs1 wps1 ev1,
            init_workers_spawn spawn_worker iobroker_register n (i + 1) procs2 wps2 ev2
              = (procs1, wps1, ev1, spawn_exit.completed) ∧ wps1.length = wps.length := by
        intro procs2 wps2 ev2 hl
        obtain ⟨a, b, c, h1, h2⟩ := ih (i + 1) procs2 wps2 ev2 (by omega)
        exact ⟨a, b, c, h1, by rw [h2, hl]⟩
      exact key _ _ _ (by rw [List.length_set])

/-- C18: for every number of online cpus `c ≥ 1`, the target size of
`init_workers` is `max(4, (3*c) div 2)`, the floor of `1.5 * c`, when
`desired = 0`, is `c - desired`, that is `c + |desired|`, when `desired < 0`,
and is `desired` itself when `desired > 0`; `desired = 0` on a 4-cpu host gives
6. `init_workers` acts on that target: when the number of live workers equals
it, it returns 0 and changes nothing; otherwise it returns `-1` and leaves the
state unchanged if the target is smaller than the length of the global pool;
otherwise, when the array is granted and every spawn and registration
succeeds, it returns 0 with a global pool whose length and array size are the
target; and whenever it returns 0 after a change the length of the global pool
is the target. -/
theorem init_workers_target_size (st : wproc_state) (desired cpus : Int)
    (kill0 : Int → Bool) (is_registered : Int → Bool) (calloc_ok : Bool)
    (spawn_worker : Nat → Option worker_process) (iobroker_register : Nat → Int)
    (qh_register_ok is_master : Bool) (hc : 1 ≤ cpus) :
    (desired = 0 → init_workers_target desired cpus = max 4 ((3 * cpus) / 2)) ∧
    (desired < 0 → init_workers_target desired cpus = cpus - desired ∧
      cpus - desired = cpus + (desired.natAbs : Int)) ∧
    (0 < desired → init_workers_target desired cpus = desired) ∧
    init_workers_target 0 4 = 6 ∧
    (∀ alive, workers_alive st kill0 is_registered = some alive →
      alive = init_workers_target desired cpus →
      init_workers st desired cpus kill0 is_registered calloc_ok spawn_worker
        iobroker_register qh_register_ok is_master = some (st, 0, [])) ∧
    (∀ alive, workers_alive st kill0 is_registered = some alive →
      alive ≠ init_workers_target desired cpus →
      (init_workers_target desired cpus < st.workers.len →
        init_workers st desired cpus kill0 is_registered calloc_ok spawn_worker
          iobroker_register qh_register_ok is_master = some (st, -1, [])) ∧
      (∀ st1 ev, init_workers st desired cpus kill0 is_registered calloc_ok spawn_worker
          iobroker_register qh_register_ok is_master = some (st1, 0, ev) →
        st1.workers.len = init_workers_target desired cpus) ∧
      (st.workers.len ≤ init_workers_target desired cpus → calloc_ok = true →
        wproc_list_ok st.workers →
        (∀ j, j < (init_workers_target desired cpus).toNat →
          ∃ wp, spawn_worker j = some wp) →
        (∀ j, j < (init_workers_target desired cpus).toNat → 0 ≤ iobroker_register j) →
        ∃ st1 ev arr,
          init_workers st desired cpus kill0 is_registered calloc_ok spawn_worker
            iobroker_register qh_register_ok is_master = some (st1, 0, ev) ∧
          st1.workers.len = init_workers_target desired cpus ∧
          st1.workers.wps = some arr ∧
          arr.length = (init_workers_target desired cpus).toNat)) := by
  have htd : Int.tdiv (3 * cpus) 2 = (3 * cpus) / 2 :=
    Int.tdiv_eq_ediv (by omega) (by decide)
  refine ⟨?_, ?_, ?_, by decide, ?_, ?_⟩
  · intro h0
    simp only [init_workers_target, h0, le_refl, if_true, htd]
    split
    · rw [max_eq_left (by omega)]
    · rw [max_eq_right (by omega)]
  · intro hneg
    have hne : desired ≠ 0 := by omega
    refine ⟨by simp [init_workers_target, le_of_lt hneg, hne], ?_⟩
    omega
  · intro hpos
    simp [init_workers_target, not_le.mpr hpos]
  · intro alive halive heq
    simp [init_workers, halive, heq]
  · intro alive halive hne
    refine ⟨?_, ?_, ?_⟩
    · intro hlt
      simp [init_workers, halive, hne, hlt]
    · intro st1 ev h
      unfold init_workers at h
      simp only [halive, hne, if_false] at h
      repeat' (split at h)
      all_goals first
        | (cases h; done)
        | (simp only [Option.some.injEq, Prod.mk.injEq] at h
           first
             | exact absurd h.2.1 (by decide)
             | (rw [← h.1]))
    · intro hle hcalloc hok hspawn hreg
      obtain ⟨h0, hcap⟩ := hok
      have hnlt : ¬ init_workers_target desired cpus < st.workers.len := not_lt.mpr hle
      have hcopied : ∃ wps : List (Option Nat),
          (match st.workers.wps with
            | none => some (List.replicate (init_workers_target desired cpus).toNat none)
            | some old =>
              if st.workers.len < init_workers_target desired cpus then
                if 0 ≤ st.workers.len ∧ st.workers.len.toNat ≤ old.length then
                  some (old.take st.workers.len.toNat
                    ++ List.replicate ((init_workers_target desired cpus).toNat
                        - st.workers.len.toNat) none)
                else none
              else some (List.replicate (init_workers_target desired cpus).toNat none))
            = some wps ∧ wps.length = (init_workers_target desired cpus).toNat := by
        cases hw : st.workers.wps with
        | none => exact ⟨_, rfl, by simp⟩
        | some old =>
          rw [hw] at hcap
          simp only [Option.getD_some] at hcap
          by_cases hlt : st.workers.len < init_workers_target desired cpus
          · simp only [hlt, if_true, h0, hcap, and_self]
            refine ⟨_, rfl, ?_⟩
            simp only [List.length_append, List.length_take, List.length_replicate]
            omega
          · simp only [hlt, if_false]
            exact ⟨_, rfl, by simp⟩
      obtain ⟨wps, hwps, hwlen⟩ := hcopied
      obtain ⟨procs1, wps1, ev1, hrun, hlen1⟩ :=
        init_workers_spawn_completes spawn_worker iobroker_register
          (init_workers_target desired cpus).toNat hspawn hreg
          (init_workers_target desired cpus).toNat 0 st.procs wps [] (by omega)
      unfold init_workers
      simp only [halive, hne, if_false, hnlt, hcalloc, Bool.not_true, hwps, hrun]
      exact ⟨_, _, wps1, rfl, rfl, rfl, by rw [hlen1, hwlen]⟩

theorem init_workers_target_size_witness :
    init_workers_target 0 4 = max 4 ((3 * 4) / 2) ∧
    init_workers_target (-2) 4 = 6 ∧
    init_workers { empty_state with
        procs := List.replicate 8 (sample_fresh_worker 5),
        workers := { len := 8, idx := 0,
                     wps := some [some 0, some 1, some 2, some 3, some 4, some 5, some 6,
                                  some 7] } }
      0 4 (fun _ => false) (fun _ => false) true (fun _ => none) (fun _ => 0) true true
      = some ({ empty_state with
          procs := List.replicate 8 (sample_fresh_worker 5),
          workers := { len := 8, idx := 0,
                       wps := some [some 0, some 1, some 2, some 3, some 4, some 5, some 6,
                                    some 7] } }, -1, []) ∧
    (∃ st1 ev arr,
      init_workers empty_state 0 4 (fun _ => false) (fun _ => false) true
        (fun j => some (sample_fresh_worker (5 + j))) (fun _ => 0) true true
        = some (st1, 0, ev) ∧
      st1.workers.len = init_workers_target 0 4 ∧ st1.workers.wps = some arr ∧
      arr.length = (init_workers_target 0 4).toNat) :=
  ⟨(init_workers_target_size empty_state 0 4 (fun _ => false) (fun _ => false) true
      (fun _ => none) (fun _ => 0) true true (by decide)).1 rfl,
   ((init_workers_target_size empty_state (-2) 4 (fun _ => false) (fun _ => false) true
      (fun _ => none) (fun _ => 0) true true (by decide)).2.1 (by decide)).1,
   ((init_workers_target_size
      { empty_state with
        procs := List.replicate 8 (sample_fresh_worker 5),
        workers := { len := 8, idx := 0,
                     wps := some [some 0, some 1, some 2, some 3, some 4, some 5, some 6,
                                  some 7] } }
      0 4 (fun _ => false) (fun _ => false) true (fun _ => none) (fun _ => 0) true true
      (by decide)).2.2.2.2.2 0 (by decide) (by decide)).1 (by decide),
   ((init_workers_target_size empty_state 0 4 (fun _ => false) (fun _ => false) true
      (fun j => some (sample_fresh_worker (5 + j))) (fun _ => 0) true true
      (by decide)).2.2.2.2.2 0 (by decide) (by decide)).2.2 (by decide) rfl
      ⟨by decide, by decide⟩ (fun _ _ => ⟨_, rfl⟩) (fun _ _ => by decide)⟩

/-- The first start on a 4-cpu host with `desired = 0`: six workers are
spawned and fill the global pool; a second call finds them alive and changes
nothing. -/
theorem init_workers_four_cpus :
    (init_workers empty_state 0 4 (fun _ => false) (fun _ => false) true
        (fun j => some { sample_fresh_worker (5 + j) with pid := 100 + j })
        (fun _ => 0) true true).map (fun r => (r.1.workers, r.1.procs.length, r.2.1))
      = some ({ len := 6, idx := 0,
                wps := some [some 0, some 1, some 2, some 3, some 4, some 5] }, 6, 0) ∧
    (init_workers empty_state (-2) 4 (fun _ => false) (fun _ => false) true
        (fun j => some { sample_fresh_worker (5 + j) with pid := 100 + j })
        (fun _ => 0) true true).map (fun r => (r.1.workers.len, r.2.1)) = some (6, 0) ∧
    (init_workers empty_state 3 4 (fun _ => false) (fun _ => false) true
        (fun j => some { sample_fresh_worker (5 + j) with pid := 100 + j })
        (fun _ => 0) true true).map (fun r => (r.1.workers.len, r.2.1)) = some (3, 0) := by
  refine ⟨?_, ?_, ?_⟩ <;> decide

/-! ## Removal from a pool list and the index of the job lookup -/

/-- Moving the last of the first `len` cells into cell `i` and dropping the
last cell removes exactly the entry that cell `i` held. -/
theorem swap_remove_perm {α : Type} (arr : List α) :
    ∀ (len i : Nat) (e last : α), i < len → len ≤ arr.length →
      arr[i]? = some e → arr[len - 1]? = some last →
      List.Perm (arr.take len) (e :: (arr.set i last).take (len - 1)) := by
  induction arr with
  | nil =>
    intro len i e last hi hlen
    simp at hlen
    omega
  | cons a as ih =>
    intro len i e last hi hlen he hlast
    cases len with
    | zero => omega
    | succ k =>
      simp only [Nat.add_sub_cancel] at hlast ⊢
      cases i with
      | zero =>
        simp only [List.getElem?_cons_zero, Option.some.injEq] at he
        subst he
        simp only [List.take_succ_cons, List.set_cons_zero]
        apply List.Perm.cons
        cases k with
        | zero => simp
        | succ k1 =>
          simp only [List.getElem?_cons_succ] at hlast
          simp only [List.take_succ_cons]
          rw [List.take_succ, hlast]
          simp only [Option.toList_some]
          exact List.perm_append_singleton _ _
      | succ j =>
        simp only [List.getElem?_cons_succ] at he
        have hk : 1 ≤ k := by omega
        obtain ⟨k1, rfl⟩ : ∃ k1, k = k1 + 1 := ⟨k - 1, by omega⟩
        simp only [List.getElem?_cons_succ] at hlast
        simp only [List.length_cons] at hlen
        have := ih (k1 + 1) j e last (by omega) (by omega) he
          (by simpa using hlast)
        simp only [Nat.add_sub_cancel] at this
        simp only [List.take_succ_cons, List.set_cons_succ]
        exact (List.Perm.cons a this).trans (List.Perm.swap e a _)

theorem take_set_self {α : Type} (arr : List α) (x : α) :
    ∀ i : Nat, (arr.set i x).take i = arr.take i := by
  induction arr with
  | nil => intro i; simp
  | cons a as ih =>
    intro i
    cases i with
    | zero => simp
    | succ j => simp [ih j]

theorem wps_at_cast (list : wproc_list) (arr : List (Option Nat)) (i : Nat)
    (hw : list.wps = some arr) : wps_at list (i : Int) = arr[i]? := by
  simp [wps_at, hw]

/-- Loop invariant of `remove_specialized`: once the cells below `i` are known
not to match, the rest of the walk removes exactly the matching entries. -/
theorem remove_specialized_loop_spec (to_remove : Option Nat) :
    ∀ (n i : Nat) (list : wproc_list) (arr : List (Option Nat)),
      list.wps = some arr → 0 ≤ list.len → list.len.toNat ≤ arr.length →
      i ≤ list.len.toNat → n = list.len.toNat - i →
      (∀ e ∈ arr.take i, entry_matches to_remove e = false) →
      ∃ code l1 arr1,
        remove_specialized_loop to_remove n (i : Int) list = some (code, l1) ∧
        (code = DKHASH_WALK_REMOVE ↔
          arr.take list.len.toNat ≠ [] ∧
            ∀ e ∈ arr.take list.len.toNat, entry_matches to_remove e = true) ∧
        (code ≠ DKHASH_WALK_REMOVE →
          code = 0 ∧ l1.wps = some arr1 ∧ 0 ≤ l1.len ∧
            l1.len.toNat ≤ arr1.length ∧
            List.Perm (arr1.take l1.len.toNat)
              ((arr.take list.len.toNat).filter
                (fun e => !entry_matches to_remove e))) := by
  intro n
  induction n with
  | zero =>
    intro i list arr hw h0 hcap hi hn hpre
    have hiL : i = list.len.toNat := by omega
    subst hiL
    refine ⟨0, list, arr, rfl, ?_, ?_⟩
    · constructor
      · intro h
        exact absurd h (by decide)
      · rintro ⟨hne, hall⟩
        obtain ⟨e, he⟩ := List.exists_mem_of_ne_nil _ hne
        have h1 := hpre e he
        have h2 := hall e he
        rw [h1] at h2
        cases h2
    · intro _
      refine ⟨rfl, hw, h0, hcap, ?_⟩
      rw [List.filter_eq_self.mpr]
      intro e he
      simp [hpre e he]
  | succ n ih =>
    intro i list arr hw h0 hcap hi hn hpre
    have hlt : i < list.len.toNat := by omega
    have hia : i < arr.length := by omega
    obtain ⟨e, he⟩ : ∃ e, arr[i]? = some e := ⟨arr[i], List.getElem?_eq_getElem hia⟩
    have hstep : remove_specialized_loop to_remove (n + 1) (i : Int) list =
        (if to_remove ≠ none ∧ e ≠ to_remove then
            remove_specialized_loop to_remove n ((i : Int) + 1) list
          else if list.len ≤ 1 then
            some (DKHASH_WALK_REMOVE, list)
          else
            match wps_at list (list.len - 1) with
            | none => none
            | some last =>
              remove_specialized_loop to_remove n (i : Int)
                { list with len := list.len - 1,
                            wps := list.wps.map (fun arr => arr.set (i : Int).toNat last) }) := by
      rw [remove_specialized_loop, wps_at_cast list arr i hw, he]
    rw [hstep]
    by_cases hm : to_remove ≠ none ∧ e ≠ to_remove
    · rw [if_pos hm]
      have hpre2 : ∀ x ∈ arr.take (i + 1), entry_matches to_remove x = false := by
        intro x hx
        rw [List.take_succ, he] at hx
        simp only [Option.toList_some, List.mem_append, List.mem_singleton] at hx
        rcases hx with hx | hx
        · exact hpre x hx
        · subst hx
          simp [entry_matches, hm]
      have := ih (i + 1) list arr hw h0 hcap (by omega) (by omega) hpre2
      simpa using this
    · rw [if_neg hm]
      have hme : entry_matches to_remove e = true := by
        simp only [entry_matches, Bool.not_eq_true', decide_eq_false_iff_not]
        exact hm
      by_cases h1 : list.len ≤ 1
      · rw [if_pos h1]
        have hL : list.len.toNat = 1 := by omega
        have hi0 : i = 0 := by omega
        subst hi0
        refine ⟨DKHASH_WALK_REMOVE, list, arr, rfl, ?_, ?_⟩
        · have htake : arr.take list.len.toNat = [e] := by
            rw [hL, List.take_succ, he]
            simp
          rw [htake]
          simp [hme]
        · intro h
          exact absurd rfl h
      · rw [if_neg h1]
        have hL2 : 2 ≤ list.len.toNat := by omega
        have hlastidx : list.len - 1 = ((list.len.toNat - 1 : Nat) : Int) := by omega
        have hla : list.len.toNat - 1 < arr.length := by omega
        obtain ⟨last, hlast⟩ : ∃ x, arr[list.len.toNat - 1]? = some x :=
          ⟨arr[list.len.toNat - 1], List.getElem?_eq_getElem hla⟩
        have hwl : wps_at list (list.len - 1) = some last := by
          rw [hlastidx, wps_at_cast list arr _ hw, hlast]
        rw [hwl]
        simp only [hw, Option.map_some', Int.toNat_ofNat]
        have hperm := swap_remove_perm arr list.len.toNat i e last hlt hcap he hlast
        have hlen2 : (list.len - 1).toNat = list.len.toNat - 1 := by omega
        have hpre2 : ∀ x ∈ (arr.set i last).take i, entry_matches to_remove x = false := by
          intro x hx
          rw [take_set_self] at hx
          exact hpre x hx
        obtain ⟨code, l1, arr1, hrun, hiff, hrest⟩ :=
          ih i { list with len := list.len - 1, wps := some (arr.set i last) }
            (arr.set i last) rfl (by show 0 ≤ list.len - 1; omega)
            (by show (list.len - 1).toNat ≤ (arr.set i last).length
                rw [List.length_set]; omega)
            (by show i ≤ (list.len - 1).toNat; omega)
            (by show n = (list.len - 1).toNat - i; omega) hpre2
        refine ⟨code, l1, arr1, hrun, ?_, ?_⟩
        · rw [hiff]
          show (List.take (list.len - 1).toNat (arr.set i last) ≠ [] ∧
              ∀ x ∈ List.take (list.len - 1).toNat (arr.set i last),
                entry_matches to_remove x = true) ↔ _
          rw [hlen2]
          constructor
          · rintro ⟨_, hall⟩
            refine ⟨?_, ?_⟩
            · intro hnil
              rw [hnil] at hperm
              exact absurd hperm.symm.eq_nil (by simp)
            · intro x hx
              have := hperm.mem_iff.mp hx
              rcases List.mem_cons.mp this with hx1 | hx1
              · rw [hx1]; exact hme
              · exact hall x hx1
          · rintro ⟨_, hall⟩
            refine ⟨?_, ?_⟩
            · intro hnil
              have hlen := congrArg List.length hnil
              rw [List.length_take, List.length_set] at hlen
              simp only [List.length_nil] at hlen
              omega
            · intro x hx
              exact hall x (hperm.mem_iff.mpr (List.mem_cons_of_mem _ hx))
        · intro hc
          obtain ⟨hc0, hw1, h01, hcap1, hp1⟩ := hrest hc
          refine ⟨hc0, hw1, h01, hcap1, ?_⟩
          have hp2 : List.Perm
              ((arr.take list.len.toNat).filter (fun e => !entry_matches to_remove e))
              ((List.take (list.len.toNat - 1) (arr.set i last)).filter
                (fun e => !entry_matches to_remove e)) := by
            have := hperm.filter (fun e => !entry_matches to_remove e)
            rw [List.filter_cons_of_neg (by simp [hme])] at this
            exact this
          refine hp1.trans ?_
          show List.Perm ((List.take (list.len - 1).toNat (arr.set i last)).filter _) _
          rw [hlen2]
          exact hp2.symm

/-- C21: for a pool list with `0 ≤ len` cells in use (and an array that holds
them) and any target `to_remove` (`none` for `NULL`: every entry matches),
`remove_specialized` terminates; it returns `DKHASH_WALK_REMOVE` exactly when
the list is non-empty and every entry matches; otherwise it returns 0 and the
entries of the list it leaves are a permutation of the original entries that do
not match, `len` being their number. -/
theorem remove_specialized_exact (to_remove : Option Nat) (list : wproc_list)
    (hok : wproc_list_ok list) :
    ∃ code l1, remove_specialized to_remove list = some (code, l1) ∧
      (code = DKHASH_WALK_REMOVE ↔
        0 < list.len ∧ ∀ e ∈ pool_entries list, entry_matches to_remove e = true) ∧
      (code ≠ DKHASH_WALK_REMOVE →
        code = 0 ∧
        List.Perm (pool_entries l1)
          ((pool_entries list).filter (fun e => !entry_matches to_remove e)) ∧
        l1.len =
          (((pool_entries list).filter (fun e => !entry_matches to_remove e)).length : Int)) := by
  obtain ⟨h0, hcap⟩ := hok
  cases hw : list.wps with
  | none =>
    rw [hw] at hcap
    simp only [Option.getD_none, List.length_nil, Nat.le_zero] at hcap
    have hlen : list.len = 0 := by omega
    refine ⟨0, list, ?_, ?_, ?_⟩
    · simp [remove_specialized, hcap, remove_specialized_loop]
    · constructor
      · intro h
        exact absurd h (by decide)
      · rintro ⟨hpos, _⟩
        omega
    · intro _
      simp [pool_entries, hw, hlen]
  | some arr =>
    rw [hw] at hcap
    simp only [Option.getD_some] at hcap
    obtain ⟨code, l1, arr1, hrun, hiff, hrest⟩ :=
      remove_specialized_loop_spec to_remove list.len.toNat 0 list arr hw h0 hcap
        (Nat.zero_le _) rfl (by simp)
    have hent : pool_entries list = arr.take list.len.toNat := by
      simp [pool_entries, hw]
    refine ⟨code, l1, hrun, ?_, ?_⟩
    · rw [hiff, hent]
      constructor
      · rintro ⟨hne, hall⟩
        refine ⟨?_, hall⟩
        by_contra hle
        have hz : list.len.toNat = 0 := by omega
        rw [hz] at hne
        exact hne rfl
      · rintro ⟨hpos, hall⟩
        refine ⟨?_, hall⟩
        intro hnil
        have hlen := congrArg List.length hnil
        rw [List.length_take] at hlen
        simp only [List.length_nil] at hlen
        omega
    · intro hc
      obtain ⟨hc0, hw1, h01, hcap1, hp⟩ := hrest hc
      have hent1 : pool_entries l1 = arr1.take l1.len.toNat := by
        simp [pool_entries, hw1]
      rw [hent, hent1]
      refine ⟨hc0, hp, ?_⟩
      have hlen := hp.length_eq
      rw [List.length_take] at hlen
      rw [← hlen]
      omega

/-- C21 at a pool that holds worker 3 twice among four entries. -/
theorem remove_specialized_exact_witness :
    wproc_list_ok sample_pool_dups ∧
    ∃ code l1, remove_specialized (some 3) sample_pool_dups = some (code, l1) ∧
      (code = DKHASH_WALK_REMOVE ↔
        0 < sample_pool_dups.len ∧
          ∀ e ∈ pool_entries sample_pool_dups, entry_matches (some 3) e = true) ∧
      (code ≠ DKHASH_WALK_REMOVE →
        code = 0 ∧
        List.Perm (pool_entries l1)
          ((pool_entries sample_pool_dups).filter (fun e => !entry_matches (some 3) e)) ∧
        l1.len =
          (((pool_entries sample_pool_dups).filter
            (fun e => !entry_matches (some 3) e)).length : Int)) :=
  ⟨⟨by decide, by decide⟩,
    remove_specialized_exact (some 3) sample_pool_dups ⟨by decide, by decide⟩⟩

/-- The walk at the sample pool: removing worker 3 leaves the two other
entries, and removing everything reports the list for removal. -/
theorem remove_specialized_sample :
    (remove_specialized (some 3) sample_pool_dups).map
        (fun r => (r.1, pool_entries r.2)) = some (0, [some 2, some 1]) ∧
    (remove_specialized none sample_pool_dups).map (fun r => r.1)
        = some DKHASH_WALK_REMOVE ∧
    (remove_specialized (some 5) sample_pool_dups).map
        (fun r => (r.1, pool_entries r.2))
        = some (0, [some 3, some 1, some 3, some 2]) := by
  refine ⟨?_, ?_, ?_⟩ <;> decide

/-- For a job id that is not negative the slot index of `get_job` lies inside
the job table. -/
theorem get_job_index_nonneg (job_id max_jobs : Int) (hid : 0 ≤ job_id)
    (hmax : 0 < max_jobs) :
    ∃ k, c_mod job_id max_jobs = some k ∧ 0 ≤ k ∧ k < max_jobs := by
  refine ⟨Int.tmod job_id max_jobs, ?_, ?_, ?_⟩
  · simp only [c_mod]
    rw [if_neg (by omega)]
  · exact Int.tmod_nonneg _ hid
  · exact Int.tmod_lt_of_pos _ hmax

/-- With at least two slots the lookup of the job id `-1` has the slot index
`-1` and reads outside the job table. -/
theorem get_job_minus_one (wp : worker_process) (h2 : 2 ≤ wp.max_jobs) :
    c_mod (-1) wp.max_jobs = some (-1) ∧ get_job wp (-1) = none := by
  have hc : c_mod (-1) wp.max_jobs = some (-1) := by
    simp only [c_mod]
    rw [if_neg (by omega), tmod_neg_one _ h2]
  refine ⟨hc, ?_⟩
  simp only [get_job, hc, jobs_at]
  cases wp.jobs <;> simp

/-- C22 (evaluation at the failing input): a worker has eight slots and a reply
carries no `job_id` pair, so `job_id` keeps its initial value `-1`. The slot
index `-1 % 8` is `-1` under the truncating remainder, outside `0..7`, and the
lookup reads outside the job table: the handler, the drain loop and the
readiness callback are undefined. A reply with `job_id=-3` gives the index
`-3` in the same way. -/
theorem job_lookup_negative_index :
    0 < sample_worker8.max_jobs ∧
    (parse_worker_result wproc_result_init (sample_reply_no_id "type=1".toList)).job_id = -1 ∧
    c_mod (-1) sample_worker8.max_jobs = some (-1) ∧
    get_job sample_worker8 (-1) = none ∧
    handle_worker_message sample_reply_no_id 0 sample_worker8 "type=1".toList = none ∧
    handle_worker_result sample_state8 0 1 ["type=1".toList] sample_reply_no_id true = none ∧
    atoi "-3".toList = -3 ∧
    (parse_worker_result wproc_result_init (sample_reply_negative_id "job_id=-3".toList)).job_id = -3 ∧
    c_mod (-3) sample_worker8.max_jobs = some (-3) ∧
    handle_worker_message sample_reply_negative_id 0 sample_worker8 "job_id=-3".toList = none := by
  refine ⟨?_, ?_, ?_, ?_, ?_, ?_, ?_, ?_, ?_, ?_⟩ <;> decide


/-! ## Undefined selection and undefined completion -/

/-- C6 (evaluation at the failing input): the first start asks for four
workers and the registration of the first one with the broker fails, so
`init_workers` returns `ERROR` with the new array in place and `workers.len`
still 0. A job for a command without a specialized pool then finds the global
pool empty but its array allocated: `get_worker` computes `idx++ % 0`, which is
undefined, instead of returning no worker, as it does while `workers.wps` is
`NULL`. -/
theorem get_worker_empty_pool_divides_by_zero :
    ∃ st1 ev,
      init_workers empty_state 4 1 (fun _ => false) (fun _ => false) true
        (fun j => some (sample_fresh_worker (5 + j))) (fun _ => -1) true true
        = some (st1, ERROR, ev) ∧
      st1.workers = { len := 0, idx := 0, wps := some [some 0, none, none, none] } ∧
      dkhash_get st1.specialized_workers (sample_job_bar.command.takeWhile (· ≠ SPACE))
        = none ∧
      c_mod 0 st1.workers.len = none ∧
      wproc_list_next st1.workers = none ∧
      get_worker st1 sample_job_bar = none ∧
      wproc_run_job st1 sample_job_bar true = none ∧
      (get_worker empty_state sample_job_bar).map (fun r => r.2.2.1) = some none := by
  refine ⟨_, _, rfl, ?_, ?_, ?_, ?_, ?_, ?_, ?_⟩ <;> decide

/-- C8 (evaluation at the failing input): `wproc_run` submits a job of type
NOTIFY, which it builds without a payload, and the job is stored in slot 0 of
worker 0. The reply `job_id=0 type=1 error_code=62` selects that slot, the
types agree, and the timeout branch reads the contact and host names through
the `NULL` payload: the handler is undefined and slot 0 is not released. A
reply without the error releases the slot. -/
theorem null_payload_timeout_not_released :
    ∃ st1 job1 ev wp1,
      wproc_run sample_routing_state 1000 WPJOB_NOTIFY "/bin/notify-by-mail".toList 30 true
        = some (st1, job1, 0, ev) ∧
      st1.procs[0]? = some wp1 ∧
      job1.id = 0 ∧ job1.type = WPJOB_NOTIFY ∧ job1.arg = job_arg.null ∧
      get_job wp1 (parse_worker_result wproc_result_init
        (sample_reply_timeout0 sample_frame_timeout0)).job_id = some (some job1) ∧
      (parse_worker_result wproc_result_init
        (sample_reply_timeout0 sample_frame_timeout0)).type = job1.type ∧
      (parse_worker_result wproc_result_init
        (sample_reply_timeout0 sample_frame_timeout0)).error_code = ETIME ∧
      handle_worker_message sample_reply_timeout0 0 wp1 sample_frame_timeout0 = none ∧
      handle_worker_result st1 0 1 [sample_frame_timeout0] sample_reply_timeout0 true
        = none ∧
      (handle_worker_message sample_reply_done0 0 wp1 sample_frame_timeout0).map
        (fun r => (jobs_at r.1 0, r.1.jobs_running, r.2.2)) = some (some none, 0, false) := by
  refine ⟨_, _, _, _, rfl, rfl, ?_, ?_, ?_, ?_, ?_, ?_, ?_, ?_, ?_⟩ <;> decide


end Workers
